import Mathlib

/-!
# Verification of the `src/storage/hash` key-value engine

Shallow embedding of the latest hash-engine revision
(`src/storage/hash/hash_engine.c`, `src/storage/hash/siphash.c`, bucket
primitives declared in `include/storage/hash/bucket.h`) together with proofs
and refutations of the specification claims.

Byte strings are `List Nat` (each element a byte value), machine integers are
`Nat` reduced modulo `2^32` / `2^64` exactly where the C types wrap, and
`malloc` is modelled by an explicit oracle (`List Bool`, consumed one entry
per allocation; an exhausted oracle means every allocation succeeds).
The embedding is single-threaded: the C code's mutex operations are no-ops
for a single thread, its `trylock` always succeeds, and every atomic
load/store is an ordinary read/write.
-/

namespace StorageHash

/-- The modulus of a 64-bit machine word. -/
def U64 : Nat := 18446744073709551616

/-- The modulus of a 32-bit machine word. -/
def U32 : Nat := 4294967296

/-- 64-bit truncating addition, as performed on `uint64_t`. -/
def add64 (x y : Nat) : Nat := (x + y) % U64

/-- The C macro `ROTL(x, b)` from `siphash.c`: 64-bit rotate left. -/
def rotl64 (x b : Nat) : Nat := ((x <<< b) % U64) ||| (x >>> (64 - b))

/-- The SipHash internal state: four 64-bit lanes `v0 v1 v2 v3`. -/
structure SipState where
  v0 : Nat
  v1 : Nat
  v2 : Nat
  v3 : Nat
  deriving Repr, DecidableEq

/-- The C macro `SIPROUND` from `siphash.c`. -/
def SIPROUND (s : SipState) : SipState :=
  let v0 := add64 s.v0 s.v1
  let v1 := rotl64 s.v1 13
  let v1 := v1 ^^^ v0
  let v0 := rotl64 v0 32
  let v2 := add64 s.v2 s.v3
  let v3 := rotl64 s.v3 16
  let v3 := v3 ^^^ v2
  let v0 := add64 v0 v3
  let v3 := rotl64 v3 21
  let v3 := v3 ^^^ v0
  let v2 := add64 v2 v1
  let v1 := rotl64 v1 17
  let v1 := v1 ^^^ v2
  let v2 := rotl64 v2 32
  ⟨v0, v1, v2, v3⟩

/-- `read64le` from `siphash.c`: little-endian load of eight bytes. -/
def read64le (b0 b1 b2 b3 b4 b5 b6 b7 : Nat) : Nat :=
  (b0 % 256) ||| ((b1 % 256) <<< 8) ||| ((b2 % 256) <<< 16) |||
  ((b3 % 256) <<< 24) ||| ((b4 % 256) <<< 32) ||| ((b5 % 256) <<< 40) |||
  ((b6 % 256) <<< 48) ||| ((b7 % 256) <<< 56)

/-- The main loop of `siphash`: consume the input eight bytes at a time, two
`SIPROUND`s per block, leaving fewer than eight trailing bytes untouched. -/
def sipBlocks : List Nat → SipState → SipState
  | b0 :: b1 :: b2 :: b3 :: b4 :: b5 :: b6 :: b7 :: rest, s =>
    let m := read64le b0 b1 b2 b3 b4 b5 b6 b7
    let s := { s with v3 := s.v3 ^^^ m }
    let s := SIPROUND (SIPROUND s)
    sipBlocks rest { s with v0 := s.v0 ^^^ m }
  | _, s => s

/-- The trailing bytes of the input after the eight-byte blocks are consumed
(`in` after the main loop of `siphash`). -/
def sipTail (data : List Nat) : List Nat := data.drop (8 * (data.length / 8))

/-- Little-endian packing of at most seven trailing bytes: the `switch` with
fallthroughs in `siphash` building the low bytes of `b`. -/
def packTail : List Nat → Nat
  | [] => 0
  | b :: rest => (b % 256) ||| (packTail rest <<< 8)

/-- `siphash` from `siphash.c`: SipHash-2-4 over a byte string with key words
`k0`, `k1` (the `uint64_t` parameters; values are reduced mod `2^64`). -/
def siphash (data : List Nat) (k0 k1 : Nat) : Nat :=
  let k0 := k0 % U64
  let k1 := k1 % U64
  let v0 := 0x736f6d6570736575 ^^^ k0
  let v1 := 0x646f72616e646f6d ^^^ k1
  let v2 := 0x6c7967656e657261 ^^^ k0
  let v3 := 0x7465646279746573 ^^^ k1
  let s := sipBlocks data ⟨v0, v1, v2, v3⟩
  let b := (((data.length) <<< 56) % U64) ||| packTail (sipTail data)
  let s := { s with v3 := s.v3 ^^^ b }
  let s := SIPROUND (SIPROUND s)
  let s := { s with v0 := s.v0 ^^^ b }
  let s := { s with v2 := s.v2 ^^^ 0xff }
  let s := SIPROUND (SIPROUND (SIPROUND (SIPROUND s)))
  s.v0 ^^^ s.v1 ^^^ s.v2 ^^^ s.v3

/-! ## Bucket model (`include/storage/hash/bucket.h`)

The latest-revision bucket helpers used by `hash_engine.c` (`bucket_state`,
`bucket_make_tombstone_unlocked`, the futex variant of `bucket_init`) are
declared in `bucket.h` but their implementation file is not part of the
tree snapshot (the `bucket.c` present is an earlier rwlock-based revision
that does not match the header); they are modelled from the specification. -/

/-- Bucket states `BUCKET_EMPTY` / `BUCKET_OCCUPIED` / `BUCKET_TOMBSTONE`. -/
inductive BucketState where
  | EMPTY
  | OCCUPIED
  | TOMBSTONE
  deriving Repr, DecidableEq

/-- One probe slot (`struct hash_bucket`): state plus owned key and value
bytes. The C `key_len` / `value_len` fields are the list lengths. -/
structure hash_bucket where
  state : BucketState
  key : List Nat
  value : List Nat
  deriving Repr, DecidableEq

/-- The `key_len` field of a slot. -/
def hash_bucket.key_len (b : hash_bucket) : Nat := b.key.length

/-- The `value_len` field of a slot. -/
def hash_bucket.value_len (b : hash_bucket) : Nat := b.value.length

/-- Modelled from the spec: `bucket_state` is an atomic load of the slot's
state field (spec section 4.2, "Is-empty / Is-tombstone: atomic load of
State; no lock"). -/
def bucket_state (b : hash_bucket) : BucketState := b.state

/-- Modelled from the spec: `bucket_init` sets State to EMPTY and clears the
payload fields (spec section 4.2); futex mutex initialization cannot fail. -/
def bucket_init : hash_bucket := ⟨BucketState.EMPTY, [], []⟩

/-- Modelled from the spec: `bucket_make_tombstone_unlocked` releases the key
and value bytes, clears the lengths and stores State=TOMBSTONE, with the slot
lock already held (spec section 4.2, "Tombstone"). -/
def bucket_make_tombstone_unlocked : hash_bucket := ⟨BucketState.TOMBSTONE, [], []⟩

/-! ## Allocation oracle

`malloc`/`calloc` outcomes are modelled by a list of booleans consumed one
entry per allocation; an exhausted oracle means every allocation succeeds. -/

/-- Remaining allocation outcomes. -/
abbrev Alloc := List Bool

/-- One `malloc` call: consume the next oracle entry (`true` = success). -/
def malloc : Alloc → Bool × Alloc
  | [] => (true, [])
  | b :: rest => (b, rest)

/-! ## Engine model (`src/storage/hash/hash_engine.c`) -/

/-- Linux errno values used by the engine. -/
def EINVAL : Int := 22
/-- errno `ENOENT`. -/
def ENOENT : Int := 2
/-- errno `ENOMEM`. -/
def ENOMEM : Int := 12
/-- errno `ENOSPC`. -/
def ENOSPC : Int := 28

/-- `MIN_BUCKET_COUNT` from `hash_engine.h`. -/
def MIN_BUCKET_COUNT : Nat := 16
/-- `MAX_BUCKET_COUNT` from `hash_engine.h` (2^20). -/
def MAX_BUCKET_COUNT : Nat := 1048576
/-- `MIGRATE_BATCH_SIZE` from `hash_engine.h`. -/
def MIGRATE_BATCH_SIZE : Nat := 2

/-- `struct hash_engine`. Counters are `uint32_t` and kept reduced mod `2^32`;
`old_buckets == NULL` is `none`. The process-wide SipHash key pair
(`hash_key_0`, `hash_key_1`) is passed to the operations as parameters. -/
structure hash_engine where
  hash_buckets : List hash_bucket
  bucket_count : Nat
  item_count : Nat
  total_memory : Nat
  old_buckets : Option (List hash_bucket)
  old_bucket_count : Nat
  migrate_index : Nat
  migrate_workers : Nat
  deriving Repr, DecidableEq

/-- A `struct hash_engine` with all fields zeroed. -/
def zero_engine : hash_engine := ⟨[], 0, 0, 0, none, 0, 0, 0⟩

/-- 32-bit truncating addition (`atomic_fetch_add` on a `uint32_t`). -/
def u32add (x y : Nat) : Nat := (x + y) % U32

/-- 32-bit wrapping subtraction (`atomic_fetch_sub` on a `uint32_t`). -/
def u32sub (x y : Nat) : Nat := (x + (U32 - y % U32)) % U32

/-- `needs_grow`: the C comparison `count >= buckets * MAX_LOAD_FACTOR` with
`MAX_LOAD_FACTOR = 0.75`. For `buckets < 2^32` the double product
`buckets * 0.75` and both conversions are exact, so the comparison is the
exact rational comparison `4 * count >= 3 * buckets`. -/
def needs_grow (e : hash_engine) : Bool := 3 * e.bucket_count ≤ 4 * e.item_count

/-- Floor of the base-2 logarithm by structural recursion on a fuel bound
(so that the kernel can evaluate it; `Nat.log2` itself is defined by
well-founded recursion). `log2floor n n = Nat.log2 n`. -/
def log2floor : Nat → Nat → Nat
  | 0, _ => 0
  | fuel + 1, n => if n ≤ 1 then 0 else log2floor fuel (n / 2) + 1

theorem log2floor_eq_log2 : ∀ (fuel n : Nat), n ≤ fuel →
    log2floor fuel n = Nat.log2 n := by
  intro fuel
  induction fuel with
  | zero =>
    intro n h
    have h0 : n = 0 := by omega
    subst h0
    rw [log2floor, Nat.log2]
    norm_num
  | succ fuel ih =>
    intro n h
    rw [log2floor, Nat.log2]
    by_cases h2 : n ≤ 1
    · rw [if_pos h2, if_neg (by omega)]
    · rw [if_neg h2, if_pos (by omega), ih (n / 2) (by omega)]

/-- Round a positive integer to 53 significant bits, round-half-to-even:
IEEE-754 double rounding of the exact product used in `needs_shrink`. -/
def roundSig53 (p : Nat) : Nat :=
  if p < 2 ^ 53 then p
  else
    let s := log2floor p p - 52
    let q := p >>> s
    let r := p % 2 ^ s
    let half := 2 ^ (s - 1)
    if half < r ∨ (r = half ∧ q % 2 = 1) then (q + 1) <<< s else q <<< s

/-- The IEEE-754 double product `buckets * MIN_LOAD_FACTOR` with
`MIN_LOAD_FACTOR = 0.2`: `0.2` as a double is `3602879701896397 / 2^54`, and
the product is rounded to nearest-even. The result is returned as an exact
numerator over `2^54`. -/
def shrink_threshold_num (buckets : Nat) : Nat :=
  roundSig53 (buckets * 3602879701896397)

/-- `needs_shrink`: the C comparison
`buckets > MIN_BUCKET_COUNT && count < buckets * MIN_LOAD_FACTOR`, with the
double arithmetic modelled exactly. -/
def needs_shrink (e : hash_engine) : Bool :=
  MIN_BUCKET_COUNT < e.bucket_count &&
    e.item_count * 2 ^ 54 < shrink_threshold_num e.bucket_count

section EngineOps

variable (hash_key_0 hash_key_1 : Nat)

/-- `compute_hash`: SipHash of the key reduced modulo the bucket count. -/
def compute_hash (key : List Nat) (bucket_count : Nat) : Nat :=
  siphash key hash_key_0 hash_key_1 % bucket_count

/-- `keys_equal`: length comparison followed by `memcmp`, i.e. equality of
the byte lists. -/
def keys_equal (a b : List Nat) : Bool := a == b

/-- The probe loop of `lookup_in_table`: `i` is the loop counter, `fuel` is
the number of remaining iterations (`bucket_count - i`). Under the slot lock
the state is re-read; in a single-threaded embedding it is unchanged, so the
`continue`-on-recheck branch cannot fire and the match on the state is
performed once. -/
def lookup_loop (buckets : List hash_bucket) (bucket_count : Nat)
    (key : List Nat) (index : Nat) : Nat → Nat → Option (List Nat)
  | _, 0 => none
  | i, fuel + 1 =>
    let bucket := buckets.getD ((index + i) % bucket_count) bucket_init
    match bucket_state bucket with
    | BucketState.EMPTY => none
    | BucketState.TOMBSTONE => lookup_loop buckets bucket_count key index (i + 1) fuel
    | BucketState.OCCUPIED =>
      if keys_equal bucket.key key then some bucket.value
      else lookup_loop buckets bucket_count key index (i + 1) fuel

/-- `lookup_in_table`: walk the probe chain from the hashed index; `some v`
is rc 0 with out-parameters `(v, v.length)`, `none` is `-ENOENT`. -/
def lookup_in_table (buckets : List hash_bucket) (bucket_count : Nat)
    (key : List Nat) : Option (List Nat) :=
  lookup_loop buckets bucket_count key
    (compute_hash hash_key_0 hash_key_1 key bucket_count) 0 bucket_count

/-- Result of `insert_into_table`: return code, the updated bucket array, the
`*is_new` and `*old_value_len` out-parameters (callers initialize them to
0, which the defaults here replicate when the code does not write them),
and the remaining allocation oracle. -/
structure insert_result where
  rc : Int
  buckets : List hash_bucket
  is_new : Bool
  old_value_len : Nat
  alloc : Alloc
  deriving Repr, DecidableEq

/-- The post-loop path of `insert_into_table` (lines 264-304): if a tombstone
candidate was recorded, re-check it under its lock and install the entry
there; otherwise the table is saturated and `-ENOSPC` is returned. -/
def insert_post (key value : List Nat) (buckets : List hash_bucket)
    (tombstone_idx : Option Nat) (a : Alloc) : insert_result :=
  match tombstone_idx with
  | none => ⟨-ENOSPC, buckets, false, 0, a⟩
  | some t =>
    let target := buckets.getD t bucket_init
    match bucket_state target with
    | BucketState.TOMBSTONE =>
      let (ok1, a) := malloc a
      if !ok1 then ⟨-ENOMEM, buckets, false, 0, a⟩
      else
        let (ok2, a) := malloc a
        if !ok2 then ⟨-ENOMEM, buckets, false, 0, a⟩
        else ⟨0, buckets.set t ⟨BucketState.OCCUPIED, key, value⟩, true, 0, a⟩
    | _ => ⟨-ENOSPC, buckets, false, 0, a⟩

/-- The probe loop of `insert_into_table` (lines 185-262), tracking the first
tombstone index. On an EMPTY slot the target (tombstone candidate if any,
else the empty slot) is re-checked under its lock; single-threaded the
re-check can only see the recorded EMPTY/TOMBSTONE state, but the
`continue`-if-occupied branch is modelled literally. -/
def insert_loop (key value : List Nat) (bucket_count index : Nat) :
    List hash_bucket → Option Nat → Nat → Nat → Alloc → insert_result
  | buckets, tombstone_idx, _, 0, a => insert_post key value buckets tombstone_idx a
  | buckets, tombstone_idx, i, fuel + 1, a =>
    let idx := (index + i) % bucket_count
    let bucket := buckets.getD idx bucket_init
    match bucket_state bucket with
    | BucketState.EMPTY =>
      let target_idx := tombstone_idx.getD idx
      let target := buckets.getD target_idx bucket_init
      match bucket_state target with
      | BucketState.OCCUPIED =>
        insert_loop key value bucket_count index buckets tombstone_idx (i + 1) fuel a
      | _ =>
        let (ok1, a) := malloc a
        if !ok1 then ⟨-ENOMEM, buckets, false, 0, a⟩
        else
          let (ok2, a) := malloc a
          if !ok2 then ⟨-ENOMEM, buckets, false, 0, a⟩
          else ⟨0, buckets.set target_idx ⟨BucketState.OCCUPIED, key, value⟩, true, 0, a⟩
    | BucketState.TOMBSTONE =>
      let tombstone_idx := match tombstone_idx with
        | none => some idx
        | some t => some t
      insert_loop key value bucket_count index buckets tombstone_idx (i + 1) fuel a
    | BucketState.OCCUPIED =>
      if keys_equal bucket.key key then
        let (ok, a) := malloc a
        if !ok then ⟨-ENOMEM, buckets, false, 0, a⟩
        else
          ⟨0, buckets.set idx ⟨BucketState.OCCUPIED, bucket.key, value⟩, false,
            bucket.value_len, a⟩
      else insert_loop key value bucket_count index buckets tombstone_idx (i + 1) fuel a

/-- `insert_into_table`: insert or update `(key, value)` in one table. -/
def insert_into_table (buckets : List hash_bucket) (bucket_count : Nat)
    (key value : List Nat) (a : Alloc) : insert_result :=
  insert_loop key value bucket_count
    (compute_hash hash_key_0 hash_key_1 key bucket_count) buckets none 0 bucket_count a

/-- Result of `delete_from_table`: return code, updated array, and the
`*deleted_key_len` / `*deleted_value_len` out-parameters (callers initialize
them to 0, replicated by the defaults). -/
structure delete_result where
  rc : Int
  buckets : List hash_bucket
  deleted_key_len : Nat
  deleted_value_len : Nat
  deriving Repr, DecidableEq

/-- The probe loop of `delete_from_table` (lines 314-339). -/
def delete_loop (key : List Nat) (bucket_count index : Nat) :
    List hash_bucket → Nat → Nat → delete_result
  | buckets, _, 0 => ⟨-ENOENT, buckets, 0, 0⟩
  | buckets, i, fuel + 1 =>
    let idx := (index + i) % bucket_count
    let bucket := buckets.getD idx bucket_init
    match bucket_state bucket with
    | BucketState.EMPTY => ⟨-ENOENT, buckets, 0, 0⟩
    | BucketState.TOMBSTONE => delete_loop key bucket_count index buckets (i + 1) fuel
    | BucketState.OCCUPIED =>
      if keys_equal bucket.key key then
        ⟨0, buckets.set idx bucket_make_tombstone_unlocked, bucket.key_len,
          bucket.value_len⟩
      else delete_loop key bucket_count index buckets (i + 1) fuel

/-- `delete_from_table`: tombstone the slot holding `key`, if any. -/
def delete_from_table (buckets : List hash_bucket) (bucket_count : Nat)
    (key : List Nat) : delete_result :=
  delete_loop key bucket_count
    (compute_hash hash_key_0 hash_key_1 key bucket_count) buckets 0 bucket_count

/-- `finish_resize` (lines 401-435): in a single-threaded embedding
`futex_mutex_trylock` always succeeds; reclaim the old array when it exists
and no worker is active. `bucket_destroy` and `free` only release memory. -/
def finish_resize (e : hash_engine) : hash_engine :=
  match e.old_buckets with
  | none => e
  | some _ =>
    if 0 < e.migrate_workers then e
    else { e with old_buckets := none, old_bucket_count := 0, migrate_index := 0 }

/-- `migrate_bucket` (lines 343-368): move one OCCUPIED old-array slot into
the current array. The result of `insert_into_table` is discarded by the
source, and the old slot is tombstoned unconditionally under its lock. -/
def migrate_bucket (e : hash_engine) (idx : Nat) (a : Alloc) :
    hash_engine × Alloc :=
  let old := e.old_buckets.getD []
  let old_bucket := old.getD idx bucket_init
  match bucket_state old_bucket with
  | BucketState.OCCUPIED =>
    let r := insert_into_table hash_key_0 hash_key_1 e.hash_buckets e.bucket_count
      old_bucket.key old_bucket.value a
    ({ e with
        hash_buckets := r.buckets,
        old_buckets := some (old.set idx bucket_make_tombstone_unlocked) },
      r.alloc)
  | _ => (e, a)

/-- The claim loop of `migrate_some_buckets` (lines 388-397): claim the next
old index by fetch-add on the cursor and migrate it, `count` times, finishing
the resize when the cursor passes the end of the old array. -/
def migrate_work_loop (old_count : Nat) :
    hash_engine → Nat → Alloc → hash_engine × Alloc
  | e, 0, a => ({ e with migrate_workers := e.migrate_workers - 1 }, a)
  | e, count + 1, a =>
    let idx := e.migrate_index
    let e := { e with migrate_index := (e.migrate_index + 1) % U32 }
    if old_count ≤ idx then
      (finish_resize { e with migrate_workers := e.migrate_workers - 1 }, a)
    else
      let (e, a) := migrate_bucket hash_key_0 hash_key_1 e idx a
      migrate_work_loop old_count e count a

/-- `migrate_some_buckets` (lines 370-399). -/
def migrate_some_buckets (e : hash_engine) (count : Nat) (a : Alloc) :
    hash_engine × Alloc :=
  let e := { e with migrate_workers := e.migrate_workers + 1 }
  match e.old_buckets with
  | none => ({ e with migrate_workers := e.migrate_workers - 1 }, a)
  | some _ => migrate_work_loop hash_key_0 hash_key_1 e.old_bucket_count e count a

/-- `hash_engine_start_resize` (lines 437-497): allocate and install a
replacement array, moving the current array to the old slot. The per-slot
`bucket_init` loop cannot fail (futex mutex initialization cannot fail). -/
def hash_engine_start_resize (e : hash_engine) (new_bucket_count : Nat)
    (a : Alloc) : Int × hash_engine × Alloc :=
  if e.old_buckets.isSome then (0, e, a)
  else if new_bucket_count < MIN_BUCKET_COUNT ∨ MAX_BUCKET_COUNT < new_bucket_count then
    (-EINVAL, e, a)
  else if e.bucket_count < new_bucket_count ∧ ¬needs_grow e then (0, e, a)
  else if ¬(e.bucket_count < new_bucket_count) ∧ ¬needs_shrink e then (0, e, a)
  else
    let (ok, a) := malloc a
    if !ok then (-ENOMEM, e, a)
    else
      (0,
        { e with
            old_buckets := some e.hash_buckets,
            old_bucket_count := e.bucket_count,
            migrate_index := 0,
            hash_buckets := List.replicate new_bucket_count bucket_init,
            bucket_count := new_bucket_count },
        a)

/-- `hash_get` (lines 499-528). The `!engine || !key || key_len == 0` guard is
modelled as the empty-key test (a NULL engine or key is not representable in
the embedding; both take the same early return). Returns the rc and the
`(*value, *value_len)` out-parameters. -/
def hash_get (e : hash_engine) (key : List Nat) (a : Alloc) :
    Int × Option (List Nat) × hash_engine × Alloc :=
  if key.length = 0 then (-EINVAL, none, e, a)
  else
    let (e, a) := migrate_some_buckets hash_key_0 hash_key_1 e MIGRATE_BATCH_SIZE a
    match lookup_in_table hash_key_0 hash_key_1 e.hash_buckets e.bucket_count key with
    | some v => (0, some v, e, a)
    | none =>
      match e.old_buckets with
      | some old =>
        match lookup_in_table hash_key_0 hash_key_1 old e.old_bucket_count key with
        | some v => (0, some v, e, a)
        | none => (-ENOENT, none, e, a)
      | none => (-ENOENT, none, e, a)

/-- `hash_put` (lines 530-595). -/
def hash_put (e : hash_engine) (key value : List Nat) (a : Alloc) :
    Int × hash_engine × Alloc :=
  if key.length = 0 ∨ value.length = 0 then (-EINVAL, e, a)
  else
    let (e, a) := migrate_some_buckets hash_key_0 hash_key_1 e MIGRATE_BATCH_SIZE a
    let (e, a) :=
      if needs_grow e then
        let new_size := e.bucket_count * 2 % U32
        if new_size ≤ MAX_BUCKET_COUNT then
          let r := hash_engine_start_resize e new_size a
          (r.2.1, r.2.2)
        else (e, a)
      else (e, a)
    let (e, existed_in_old, old_tbl_key_len, old_tbl_value_len) :=
      match e.old_buckets with
      | some old =>
        let dr := delete_from_table hash_key_0 hash_key_1 old e.old_bucket_count key
        if dr.rc = 0 then
          ({ e with old_buckets := some dr.buckets }, true,
            dr.deleted_key_len, dr.deleted_value_len)
        else ({ e with old_buckets := some dr.buckets }, false, 0, 0)
      | none => (e, false, 0, 0)
    let r := insert_into_table hash_key_0 hash_key_1 e.hash_buckets e.bucket_count
      key value a
    let e := { e with hash_buckets := r.buckets }
    if r.rc ≠ 0 then (r.rc, e, r.alloc)
    else
      let e :=
        if r.is_new ∧ ¬existed_in_old then
          { e with
              item_count := u32add e.item_count 1,
              total_memory :=
                u32add e.total_memory ((key.length + value.length) % U32) }
        else if existed_in_old then
          { e with
              total_memory :=
                u32add
                  (u32sub e.total_memory
                    ((old_tbl_key_len + old_tbl_value_len) % U32))
                  ((key.length + value.length) % U32) }
        else
          if r.old_value_len < value.length then
            { e with
                total_memory :=
                  u32add e.total_memory ((value.length - r.old_value_len) % U32) }
          else if value.length < r.old_value_len then
            { e with
                total_memory :=
                  u32sub e.total_memory ((r.old_value_len - value.length) % U32) }
          else e
      (0, e, r.alloc)

/-- `hash_delete` (lines 597-653). -/
def hash_delete (e : hash_engine) (key : List Nat) (a : Alloc) :
    Int × hash_engine × Alloc :=
  if key.length = 0 then (-EINVAL, e, a)
  else
    let (e, a) := migrate_some_buckets hash_key_0 hash_key_1 e MIGRATE_BATCH_SIZE a
    let (e, deleted_from_old, old_del_key_len, old_del_value_len) :=
      match e.old_buckets with
      | some old =>
        let dr := delete_from_table hash_key_0 hash_key_1 old e.old_bucket_count key
        if dr.rc = 0 then
          ({ e with old_buckets := some dr.buckets }, true,
            dr.deleted_key_len, dr.deleted_value_len)
        else ({ e with old_buckets := some dr.buckets }, false, 0, 0)
      | none => (e, false, 0, 0)
    let dr := delete_from_table hash_key_0 hash_key_1 e.hash_buckets e.bucket_count key
    let e := { e with hash_buckets := dr.buckets }
    let deleted_from_new := dr.rc = 0
    if deleted_from_new ∨ deleted_from_old then
      let e := { e with item_count := u32sub e.item_count 1 }
      let e :=
        if deleted_from_new then
          { e with
              total_memory :=
                u32sub e.total_memory
                  ((dr.deleted_key_len + dr.deleted_value_len) % U32) }
        else
          { e with
              total_memory :=
                u32sub e.total_memory
                  ((old_del_key_len + old_del_value_len) % U32) }
      let (e, a) :=
        if needs_shrink e then
          let new_size := e.bucket_count / 2
          if MIN_BUCKET_COUNT ≤ new_size then
            let r := hash_engine_start_resize e new_size a
            (r.2.1, r.2.2)
          else (e, a)
        else (e, a)
      (0, e, a)
    else (dr.rc, e, a)

/-- `hash_engine_init` (lines 89-125): zero the fields, initialize the
process-wide SipHash keys (the ambient key parameters of the embedding),
allocate the bucket array. A NULL engine pointer is not representable; the
`bucket_count == 0` guard is modelled. On failure the zeroed engine is
returned together with the error. -/
def hash_engine_init (bucket_count : Nat) (a : Alloc) :
    Int × hash_engine × Alloc :=
  if bucket_count = 0 then (-EINVAL, zero_engine, a)
  else
    let (ok, a) := malloc a
    if !ok then (-ENOMEM, zero_engine, a)
    else
      (0,
        { zero_engine with
            hash_buckets := List.replicate bucket_count bucket_init,
            bucket_count := bucket_count },
        a)

/-- `hash_engine_get_stats` (lines 127-140): read the three counters. -/
def hash_engine_get_stats (e : hash_engine) : Nat × Nat × Nat :=
  (e.item_count, e.bucket_count, e.total_memory)

end EngineOps

/-! ## Operation sequences and observations -/

/-- A public engine operation. -/
inductive hash_op where
  | put (key value : List Nat)
  | del (key : List Nat)
  | get (key : List Nat)
  deriving Repr, DecidableEq

section Runs

variable (hash_key_0 hash_key_1 : Nat)

/-- Execute one public operation, returning its rc. -/
def run_op (st : hash_engine × Alloc) (op : hash_op) : Int × hash_engine × Alloc :=
  match op with
  | hash_op.put key value => hash_put hash_key_0 hash_key_1 st.1 key value st.2
  | hash_op.del key => hash_delete hash_key_0 hash_key_1 st.1 key st.2
  | hash_op.get key =>
    let r := hash_get hash_key_0 hash_key_1 st.1 key st.2
    (r.1, r.2.2)

/-- Execute a sequence of operations, collecting the return codes. -/
def run_trace (st : hash_engine × Alloc) :
    List hash_op → List Int × hash_engine × Alloc
  | [] => ([], st)
  | op :: rest =>
    let r := run_op hash_key_0 hash_key_1 st op
    let t := run_trace r.2 rest
    (r.1 :: t.1, t.2)

/-- The value currently bound to `key`, as `hash_get` would report it but
without performing migration work: look in the current array first, then in
the old array. This is the observation used to state the claims. -/
def liveValue (e : hash_engine) (key : List Nat) : Option (List Nat) :=
  match lookup_in_table hash_key_0 hash_key_1 e.hash_buckets e.bucket_count key with
  | some v => some v
  | none =>
    match e.old_buckets with
    | some old => lookup_in_table hash_key_0 hash_key_1 old e.old_bucket_count key
    | none => none

end Runs

/-- The OCCUPIED slots of a bucket array, as `(key, value)` pairs. -/
def table_entries (buckets : List hash_bucket) : List (List Nat × List Nat) :=
  (buckets.filter (fun b => b.state = BucketState.OCCUPIED)).map
    (fun b => (b.key, b.value))

/-- All live `(key, value)` entries of the engine: OCCUPIED slots of the
current array followed by those of the old array. -/
def engine_entries (e : hash_engine) : List (List Nat × List Nat) :=
  table_entries e.hash_buckets ++ table_entries (e.old_buckets.getD [])

/-- Total `key_len + value_len` over a list of entries. -/
def entries_size (l : List (List Nat × List Nat)) : Nat :=
  (l.map (fun p => p.1.length + p.2.length)).sum

/-- The total payload size actually stored: the sum of `key_len + value_len`
over all live entries. -/
def payload_sum (e : hash_engine) : Nat :=
  entries_size (engine_entries e)

/-! ## Scan combinators

The three probe loops of the engine all walk the same probe sequence and
stop at the same kind of slot. `firstIdx` returns the index of the first
element satisfying a predicate; the loops are then characterized against
`firstIdx` applied to the rotated bucket list (`chain`). -/

/-- Index of the first element of a list satisfying `p`. -/
def firstIdx (p : hash_bucket → Bool) : List hash_bucket → Option Nat
  | [] => none
  | b :: c => if p b then some 0 else (firstIdx p c).map (· + 1)

theorem firstIdx_nil (p : hash_bucket → Bool) : firstIdx p [] = none := rfl

theorem firstIdx_cons (p : hash_bucket → Bool) (b : hash_bucket) (c : List hash_bucket) :
    firstIdx p (b :: c) = if p b then some 0 else (firstIdx p c).map (· + 1) := rfl

theorem firstIdx_eq_none {p : hash_bucket → Bool} {c : List hash_bucket} :
    firstIdx p c = none ↔ ∀ b ∈ c, p b = false := by
  induction c with
  | nil => simp [firstIdx]
  | cons b c ih =>
    by_cases hb : p b <;> simp [firstIdx, hb, ih]

theorem firstIdx_mem_lt {p : hash_bucket → Bool} {c : List hash_bucket} {r : Nat}
    (h : firstIdx p c = some r) : r < c.length := by
  induction c generalizing r with
  | nil => simp [firstIdx] at h
  | cons b c ih =>
    by_cases hb : p b
    · simp [firstIdx, hb] at h
      have : r = 0 := by omega
      subst this
      simp
    · simp [firstIdx, hb] at h
      obtain ⟨r', hr', rfl⟩ := h
      have := ih hr'
      simpa using Nat.succ_lt_succ this

theorem firstIdx_spec {p : hash_bucket → Bool} {c : List hash_bucket} {r : Nat}
    (h : firstIdx p c = some r) :
    p (c.getD r bucket_init) = true ∧ ∀ q < r, p (c.getD q bucket_init) = false := by
  induction c generalizing r with
  | nil => simp [firstIdx] at h
  | cons b c ih =>
    by_cases hb : p b
    · simp [firstIdx, hb] at h
      subst h
      exact ⟨by simpa using hb, fun q hq => absurd hq (Nat.not_lt_zero q)⟩
    · simp [firstIdx, hb] at h
      obtain ⟨r', hr', rfl⟩ := h
      obtain ⟨h1, h2⟩ := ih hr'
      refine ⟨by simpa using h1, ?_⟩
      intro q hq
      cases q with
      | zero => simpa using hb
      | succ q => exact h2 q (by omega)

theorem firstIdx_eq_some_of {p : hash_bucket → Bool} {c : List hash_bucket} {r : Nat}
    (hr : r < c.length) (hp : p (c.getD r bucket_init) = true)
    (hq : ∀ q < r, p (c.getD q bucket_init) = false) :
    firstIdx p c = some r := by
  induction c generalizing r with
  | nil => simp at hr
  | cons b c ih =>
    cases r with
    | zero => simp_all [firstIdx]
    | succ r =>
      have hb : p b = false := by simpa using hq 0 (Nat.succ_pos r)
      have : firstIdx p c = some r := by
        refine ih (by simpa using hr) (by simpa using hp) ?_
        intro q hql
        simpa using hq (q + 1) (by omega)
      simp [firstIdx, hb, this]

/-! ## The probe chain as a rotated list

The probe sequence of a key with hashed index `h` visits absolute indices
`(h + p) % n` for `p = 0, 1, ...`; `chain T h` is the bucket array read in
that order, so each probe loop becomes a left-to-right scan of `chain`. -/

/-- The bucket array read in probe order starting from index `h`. -/
def chain (T : List hash_bucket) (h : Nat) : List hash_bucket :=
  (List.range T.length).map (fun p => T.getD ((h + p) % T.length) bucket_init)

/-- The chain position of absolute index `j` for a probe starting at `h`
(inverse of `p ↦ (h + p) % n`). -/
def chainPos (n h j : Nat) : Nat := ((j + n) - h % n) % n

@[simp] theorem chain_length (T : List hash_bucket) (h : Nat) :
    (chain T h).length = T.length := by simp [chain]

theorem chain_getD {T : List hash_bucket} {p : Nat} (h : Nat) (hp : p < T.length) :
    (chain T h).getD p bucket_init = T.getD ((h + p) % T.length) bucket_init := by
  rw [chain, List.getD_eq_getElem?_getD]
  simp [List.getElem?_map, List.getElem?_range, hp]

theorem chainPos_lt {n : Nat} (hn : 0 < n) (h j : Nat) : chainPos n h j < n :=
  Nat.mod_lt _ hn

theorem add_chainPos_mod {n : Nat} (hn : 0 < n) (h : Nat) {j : Nat} (hj : j < n) :
    (h + chainPos n h j) % n = j := by
  have h1 : h % n ≤ h := Nat.mod_le h n
  have h2 : h % n < n := Nat.mod_lt h hn
  have hdm := Nat.div_add_mod h n
  rw [chainPos, Nat.add_mod_mod]
  have e : h + ((j + n) - h % n) = (j + n) + n * (h / n) := by omega
  rw [e, Nat.add_mul_mod_self_left, Nat.add_mod_right, Nat.mod_eq_of_lt hj]

theorem add_mod_left_cancel {n h a b : Nat} (ha : a < n) (hb : b < n)
    (heq : (h + a) % n = (h + b) % n) : a = b := by
  have : a % n = b % n := Nat.ModEq.add_left_cancel' h heq
  rwa [Nat.mod_eq_of_lt ha, Nat.mod_eq_of_lt hb] at this

theorem chainPos_add_mod {n : Nat} (hn : 0 < n) (h : Nat) {p : Nat} (hp : p < n) :
    chainPos n h ((h + p) % n) = p := by
  have hj : (h + p) % n < n := Nat.mod_lt _ hn
  have h1 : (h + chainPos n h ((h + p) % n)) % n = (h + p) % n :=
    add_chainPos_mod hn h hj
  exact add_mod_left_cancel (chainPos_lt hn h _) hp h1

theorem mod_eq_iff_chainPos {n : Nat} (hn : 0 < n) (h : Nat) {p j : Nat}
    (hp : p < n) (hj : j < n) : (h + p) % n = j ↔ p = chainPos n h j := by
  constructor
  · intro he
    rw [← he, chainPos_add_mod hn h hp]
  · intro he
    rw [he, add_chainPos_mod hn h hj]

theorem chain_getElem? (T : List hash_bucket) (h p : Nat) :
    (chain T h)[p]? =
      if p < T.length then some (T.getD ((h + p) % T.length) bucket_init)
      else none := by
  rw [chain, List.getElem?_map]
  by_cases hp : p < T.length
  · rw [List.getElem?_range hp, if_pos hp]
    rfl
  · rw [List.getElem?_eq_none (by simpa using Nat.le_of_not_lt hp), if_neg hp]
    rfl

theorem chain_set {T : List hash_bucket} {j : Nat} (h : Nat) (hj : j < T.length)
    (b : hash_bucket) :
    chain (T.set j b) h = (chain T h).set (chainPos T.length h j) b := by
  have hn : 0 < T.length := Nat.lt_of_le_of_lt (Nat.zero_le j) hj
  have hcp : chainPos T.length h j < T.length := chainPos_lt hn h j
  apply List.ext_getElem?
  intro p
  rw [List.getElem?_set, chain_getElem?, chain_getElem?]
  simp only [List.length_set, chain_length]
  by_cases hp : p < T.length
  · simp only [if_pos hp]
    by_cases hpc : chainPos T.length h j = p
    · have hm : (h + p) % T.length = j :=
        (mod_eq_iff_chainPos hn h hp hj).mpr hpc.symm
      simp only [if_pos hpc, if_pos hcp]
      congr 1
      rw [List.getD_eq_getElem?_getD, hm, List.getElem?_set_eq_of_lt _ hj]
      rfl
    · have hne : (h + p) % T.length ≠ j :=
        fun hx => hpc ((mod_eq_iff_chainPos hn h hp hj).mp hx).symm
      simp only [if_neg hpc]
      congr 1
      rw [List.getD_eq_getElem?_getD, List.getD_eq_getElem?_getD,
        List.getElem?_set_ne (fun hx => hne hx.symm)]
  · have hpc : chainPos T.length h j ≠ p := by omega
    simp only [if_neg hp, if_neg hpc]

/-! ## Characterization of the three probe loops

All three loops stop at the first chain slot that is EMPTY or OCCUPIED with
a matching key (`is_stop`); the insertion loop additionally records the
first TOMBSTONE (`is_tomb`). -/

/-- A slot at which a probe walk stops: EMPTY, or OCCUPIED with the key. -/
def is_stop (key : List Nat) (b : hash_bucket) : Bool :=
  match b.state with
  | BucketState.EMPTY => true
  | BucketState.OCCUPIED => keys_equal b.key key
  | BucketState.TOMBSTONE => false

/-- A TOMBSTONE slot. -/
def is_tomb (b : hash_bucket) : Bool :=
  match b.state with
  | BucketState.TOMBSTONE => true
  | _ => false

/-- What `lookup_in_table` returns, phrased on the probe chain. -/
def lookup_spec (key : List Nat) (c : List hash_bucket) : Option (List Nat) :=
  match firstIdx (is_stop key) c with
  | none => none
  | some p =>
    let b := c.getD p bucket_init
    if b.state = BucketState.OCCUPIED then some b.value else none

/-- The chain position at which `insert_into_table` writes (`none` when the
probe chain is saturated and `-ENOSPC` is returned): the first stop if it is
an update, the first tombstone if one precedes the first EMPTY stop, else
that EMPTY stop, else the first tombstone of the whole chain. -/
def ins_target (key : List Nat) (c : List hash_bucket) : Option Nat :=
  match firstIdx (is_stop key) c with
  | some p =>
    if (c.getD p bucket_init).state = BucketState.EMPTY then
      match firstIdx is_tomb c with
      | some t => if t < p then some t else some p
      | none => some p
    else some p
  | none => firstIdx is_tomb c

/-- Whether the insertion is an in-place update of a matching slot. -/
def ins_is_update (key : List Nat) (c : List hash_bucket) : Bool :=
  match firstIdx (is_stop key) c with
  | some p => if (c.getD p bucket_init).state = BucketState.OCCUPIED then true else false
  | none => false

/-- The effect of `insert_into_table` given the target decision. -/
def apply_ins (key value : List Nat) (T : List hash_bucket) (h : Nat)
    (a : Alloc) : Option Nat → Bool → insert_result
  | none, _ => ⟨-ENOSPC, T, false, 0, a⟩
  | some p, true =>
    let idx := (h + p) % T.length
    let bucket := T.getD idx bucket_init
    let (ok, a) := malloc a
    if !ok then ⟨-ENOMEM, T, false, 0, a⟩
    else
      ⟨0, T.set idx ⟨BucketState.OCCUPIED, bucket.key, value⟩, false,
        bucket.value_len, a⟩
  | some p, false =>
    let idx := (h + p) % T.length
    let (ok1, a) := malloc a
    if !ok1 then ⟨-ENOMEM, T, false, 0, a⟩
    else
      let (ok2, a) := malloc a
      if !ok2 then ⟨-ENOMEM, T, false, 0, a⟩
      else ⟨0, T.set idx ⟨BucketState.OCCUPIED, key, value⟩, true, 0, a⟩

/-- What `delete_from_table` does, phrased on the probe chain: the chain
position of the tombstoned slot, if any. -/
def delete_spec_pos (key : List Nat) (c : List hash_bucket) : Option Nat :=
  match firstIdx (is_stop key) c with
  | some p => if (c.getD p bucket_init).state = BucketState.OCCUPIED then some p else none
  | none => none

theorem firstIdx_eq_none_of_getD {p : hash_bucket → Bool} {c : List hash_bucket}
    (h : ∀ q, q < c.length → p (c.getD q bucket_init) = false) :
    firstIdx p c = none := by
  refine firstIdx_eq_none.mpr ?_
  intro b hb
  obtain ⟨q, hq, he⟩ := List.mem_iff_getElem.mp hb
  have := h q hq
  rwa [List.getD_eq_getElem _ _ hq, he] at this

theorem lookup_loop_eq_spec {T : List hash_bucket} (key : List Nat) (h : Nat)
    (hn : 0 < T.length) :
    ∀ fuel i, i + fuel = T.length →
      (∀ q, q < i → is_stop key ((chain T h).getD q bucket_init) = false) →
      lookup_loop T T.length key h i fuel = lookup_spec key (chain T h) := by
  intro fuel
  induction fuel with
  | zero =>
    intro i hi hpre
    have hieq : i = T.length := by omega
    subst hieq
    have hfi : firstIdx (is_stop key) (chain T h) = none :=
      firstIdx_eq_none_of_getD (by simpa using hpre)
    simp [lookup_loop, lookup_spec, hfi]
  | succ fuel ih =>
    intro i hi hpre
    have hilt : i < T.length := by omega
    have hchain : T.getD ((h + i) % T.length) bucket_init =
        (chain T h).getD i bucket_init := (chain_getD h hilt).symm
    simp only [lookup_loop, bucket_state]
    rw [hchain]
    cases hst : ((chain T h).getD i bucket_init).state with
    | EMPTY =>
      have hfi : firstIdx (is_stop key) (chain T h) = some i :=
        firstIdx_eq_some_of (by simpa using hilt) (by rw [is_stop, hst]) hpre
      simp only [hst, lookup_spec, hfi]
      rw [if_neg (by intro hx; cases hx)]
    | TOMBSTONE =>
      have hnext : ∀ q, q < i + 1 →
          is_stop key ((chain T h).getD q bucket_init) = false := by
        intro q hq
        rcases Nat.lt_succ_iff_lt_or_eq.mp hq with hq | rfl
        · exact hpre q hq
        · rw [is_stop, hst]
      simp only [hst]
      exact ih (i + 1) (by omega) hnext
    | OCCUPIED =>
      simp only [hst]
      by_cases hk : keys_equal ((chain T h).getD i bucket_init).key key
      · have hfi : firstIdx (is_stop key) (chain T h) = some i :=
          firstIdx_eq_some_of (by simpa using hilt) (by rw [is_stop, hst]; exact hk) hpre
        simp only [lookup_spec, hfi]
        rw [if_pos hk, if_pos hst]
      · have hnext : ∀ q, q < i + 1 →
            is_stop key ((chain T h).getD q bucket_init) = false := by
          intro q hq
          rcases Nat.lt_succ_iff_lt_or_eq.mp hq with hq | rfl
          · exact hpre q hq
          · rw [is_stop, hst]
            simpa using hk
        rw [if_neg (by simpa using hk)]
        exact ih (i + 1) (by omega) hnext

/-- `lookup_in_table` computes `lookup_spec` on the probe chain. -/
theorem lookup_in_table_spec (hash_key_0 hash_key_1 : Nat) {T : List hash_bucket}
    (key : List Nat) (hn : 0 < T.length) :
    lookup_in_table hash_key_0 hash_key_1 T T.length key =
      lookup_spec key (chain T (compute_hash hash_key_0 hash_key_1 key T.length)) := by
  rw [lookup_in_table]
  exact lookup_loop_eq_spec key _ hn T.length 0 (Nat.zero_add _)
    (fun q hq => absurd hq (Nat.not_lt_zero q))

/-- The effect of `delete_from_table` given the decision position. -/
def apply_del (T : List hash_bucket) (h : Nat) : Option Nat → delete_result
  | some p =>
    ⟨0, T.set ((h + p) % T.length) bucket_make_tombstone_unlocked,
      ((chain T h).getD p bucket_init).key_len,
      ((chain T h).getD p bucket_init).value_len⟩
  | none => ⟨-ENOENT, T, 0, 0⟩

theorem delete_loop_eq_spec {T : List hash_bucket} (key : List Nat) (h : Nat) :
    ∀ fuel i, i + fuel = T.length →
      (∀ q, q < i → is_stop key ((chain T h).getD q bucket_init) = false) →
      delete_loop key T.length h T i fuel =
        apply_del T h (delete_spec_pos key (chain T h)) := by
  intro fuel
  induction fuel with
  | zero =>
    intro i hi hpre
    have hieq : i = T.length := by omega
    subst hieq
    have hfi : firstIdx (is_stop key) (chain T h) = none :=
      firstIdx_eq_none_of_getD (by simpa using hpre)
    simp [delete_loop, delete_spec_pos, hfi, apply_del]
  | succ fuel ih =>
    intro i hi hpre
    have hilt : i < T.length := by omega
    have hchain : T.getD ((h + i) % T.length) bucket_init =
        (chain T h).getD i bucket_init := (chain_getD h hilt).symm
    simp only [delete_loop, bucket_state]
    rw [hchain]
    cases hst : ((chain T h).getD i bucket_init).state with
    | EMPTY =>
      have hfi : firstIdx (is_stop key) (chain T h) = some i :=
        firstIdx_eq_some_of (by simpa using hilt) (by rw [is_stop, hst]) hpre
      simp only [hst, delete_spec_pos, hfi]
      rw [if_neg (by intro hx; cases hx)]
      rfl
    | TOMBSTONE =>
      have hnext : ∀ q, q < i + 1 →
          is_stop key ((chain T h).getD q bucket_init) = false := by
        intro q hq
        rcases Nat.lt_succ_iff_lt_or_eq.mp hq with hq | rfl
        · exact hpre q hq
        · rw [is_stop, hst]
      simp only [hst]
      exact ih (i + 1) (by omega) hnext
    | OCCUPIED =>
      simp only [hst]
      by_cases hk : keys_equal ((chain T h).getD i bucket_init).key key
      · have hfi : firstIdx (is_stop key) (chain T h) = some i :=
          firstIdx_eq_some_of (by simpa using hilt) (by rw [is_stop, hst]; exact hk) hpre
        simp only [delete_spec_pos, hfi]
        rw [if_pos hk, if_pos hst]
        rfl
      · have hnext : ∀ q, q < i + 1 →
            is_stop key ((chain T h).getD q bucket_init) = false := by
          intro q hq
          rcases Nat.lt_succ_iff_lt_or_eq.mp hq with hq | rfl
          · exact hpre q hq
          · rw [is_stop, hst]
            simpa using hk
        rw [if_neg (by simpa using hk)]
        exact ih (i + 1) (by omega) hnext

/-- `delete_from_table` computes `apply_del` of `delete_spec_pos`. -/
theorem delete_from_table_spec (hash_key_0 hash_key_1 : Nat) {T : List hash_bucket}
    (key : List Nat) :
    delete_from_table hash_key_0 hash_key_1 T T.length key =
      apply_del T (compute_hash hash_key_0 hash_key_1 key T.length)
        (delete_spec_pos key (chain T (compute_hash hash_key_0 hash_key_1 key T.length))) := by
  rw [delete_from_table]
  exact delete_loop_eq_spec key _ T.length 0 (Nat.zero_add _)
    (fun q hq => absurd hq (Nat.not_lt_zero q))

theorem insert_loop_eq_spec {T : List hash_bucket} (key value : List Nat) (h : Nat)
    (hn : 0 < T.length) (a : Alloc) :
    ∀ fuel i tombAbs, i + fuel = T.length →
      (∀ q, q < i → is_stop key ((chain T h).getD q bucket_init) = false) →
      (match tombAbs with
       | none => ∀ q, q < i → is_tomb ((chain T h).getD q bucket_init) = false
       | some ta => ∃ t, t < i ∧ firstIdx is_tomb (chain T h) = some t ∧
           ta = (h + t) % T.length) →
      insert_loop key value T.length h T tombAbs i fuel a =
        apply_ins key value T h a (ins_target key (chain T h))
          (ins_is_update key (chain T h)) := by
  intro fuel
  induction fuel with
  | zero =>
    intro i tombAbs hi hpre htomb
    have hieq : i = T.length := by omega
    subst hieq
    have hfi : firstIdx (is_stop key) (chain T h) = none :=
      firstIdx_eq_none_of_getD (by simpa using hpre)
    match tombAbs, htomb with
    | none, htomb =>
      have hft : firstIdx is_tomb (chain T h) = none :=
        firstIdx_eq_none_of_getD (by simpa using htomb)
      simp [insert_loop, insert_post, ins_target, ins_is_update, hfi, hft, apply_ins]
    | some ta, htomb =>
      obtain ⟨t, htl, hft, rfl⟩ := htomb
      have htlt : t < T.length := by omega
      have htst : ((chain T h).getD t bucket_init).state = BucketState.TOMBSTONE := by
        have := (firstIdx_spec hft).1
        revert this
        rw [is_tomb]
        cases ((chain T h).getD t bucket_init).state <;> simp
      have hchain : T.getD ((h + t) % T.length) bucket_init =
          (chain T h).getD t bucket_init := (chain_getD h htlt).symm
      simp only [insert_loop, insert_post, ins_target, ins_is_update, hfi, hft,
        bucket_state]
      rw [hchain, htst]
      simp [apply_ins]
  | succ fuel ih =>
    intro i tombAbs hi hpre htomb
    have hilt : i < T.length := by omega
    have hchain : T.getD ((h + i) % T.length) bucket_init =
        (chain T h).getD i bucket_init := (chain_getD h hilt).symm
    simp only [insert_loop, bucket_state]
    rw [hchain]
    cases hst : ((chain T h).getD i bucket_init).state with
    | EMPTY =>
      have hfi : firstIdx (is_stop key) (chain T h) = some i :=
        firstIdx_eq_some_of (by simpa using hilt) (by rw [is_stop, hst]) hpre
      have hupd : ins_is_update key (chain T h) = false := by
        simp only [ins_is_update, hfi, hst]
        rw [if_neg (by intro hx; cases hx)]
      match tombAbs, htomb with
      | none, htomb =>
        have htarget : ins_target key (chain T h) = some i := by
          simp only [ins_target, hfi]
          rw [if_pos hst]
          rcases htf : firstIdx is_tomb (chain T h) with _ | t
          · rfl
          · have hts := (firstIdx_spec htf).1
            have hni : ¬ t < i := by
              intro hlt
              rw [htomb t hlt] at hts
              cases hts
            simp only [if_neg hni]
        rw [htarget, hupd]
        simp only [Option.getD_none]
        rw [hchain, hst]
        simp [apply_ins]
      | some ta, htomb =>
        obtain ⟨t, htl, hft, rfl⟩ := htomb
        have htlt : t < T.length := by omega
        have htst : ((chain T h).getD t bucket_init).state = BucketState.TOMBSTONE := by
          have hts := (firstIdx_spec hft).1
          revert hts
          rw [is_tomb]
          cases ((chain T h).getD t bucket_init).state <;> simp
        have htchain : T.getD ((h + t) % T.length) bucket_init =
            (chain T h).getD t bucket_init := (chain_getD h htlt).symm
        have htarget : ins_target key (chain T h) = some t := by
          simp only [ins_target, hfi]
          rw [if_pos hst, hft]
          simp only [if_pos htl]
        rw [htarget, hupd]
        simp only [Option.getD_some]
        rw [htchain, htst]
        simp [apply_ins]
    | TOMBSTONE =>
      have hnext : ∀ q, q < i + 1 →
          is_stop key ((chain T h).getD q bucket_init) = false := by
        intro q hq
        rcases Nat.lt_succ_iff_lt_or_eq.mp hq with hq | rfl
        · exact hpre q hq
        · rw [is_stop, hst]
      simp only [hst]
      match tombAbs, htomb with
      | none, htomb =>
        have hti : firstIdx is_tomb (chain T h) = some i :=
          firstIdx_eq_some_of (by simpa using hilt) (by rw [is_tomb, hst]) htomb
        exact ih (i + 1) (some ((h + i) % T.length)) (by omega) hnext
          ⟨i, by omega, hti, rfl⟩
      | some ta, htomb =>
        obtain ⟨t, htl, hft, rfl⟩ := htomb
        exact ih (i + 1) (some ((h + t) % T.length)) (by omega) hnext
          ⟨t, by omega, hft, rfl⟩
    | OCCUPIED =>
      simp only [hst]
      by_cases hk : keys_equal ((chain T h).getD i bucket_init).key key
      · have hfi : firstIdx (is_stop key) (chain T h) = some i :=
          firstIdx_eq_some_of (by simpa using hilt) (by rw [is_stop, hst]; exact hk) hpre
        have hupd : ins_is_update key (chain T h) = true := by
          simp only [ins_is_update, hfi]
          rw [if_pos hst]
        have htarget : ins_target key (chain T h) = some i := by
          simp only [ins_target, hfi]
          rw [if_neg (by rw [hst]; intro hx; cases hx)]
        rw [if_pos hk, htarget, hupd]
        simp only [apply_ins]
        rw [hchain]
      · have hnext : ∀ q, q < i + 1 →
            is_stop key ((chain T h).getD q bucket_init) = false := by
          intro q hq
          rcases Nat.lt_succ_iff_lt_or_eq.mp hq with hq | rfl
          · exact hpre q hq
          · rw [is_stop, hst]
            simpa using hk
        rw [if_neg (by simpa using hk)]
        match tombAbs, htomb with
        | none, htomb =>
          refine ih (i + 1) none (by omega) hnext ?_
          intro q hq
          rcases Nat.lt_succ_iff_lt_or_eq.mp hq with hq | rfl
          · exact htomb q hq
          · rw [is_tomb, hst]
        | some ta, htomb =>
          obtain ⟨t, htl, hft, rfl⟩ := htomb
          exact ih (i + 1) (some ((h + t) % T.length)) (by omega) hnext
            ⟨t, by omega, hft, rfl⟩

/-- `insert_into_table` computes `apply_ins` of the `ins_target` decision. -/
theorem insert_into_table_spec (hash_key_0 hash_key_1 : Nat) {T : List hash_bucket}
    (key value : List Nat) (hn : 0 < T.length) (a : Alloc) :
    insert_into_table hash_key_0 hash_key_1 T T.length key value a =
      apply_ins key value T (compute_hash hash_key_0 hash_key_1 key T.length) a
        (ins_target key (chain T (compute_hash hash_key_0 hash_key_1 key T.length)))
        (ins_is_update key (chain T (compute_hash hash_key_0 hash_key_1 key T.length))) := by
  rw [insert_into_table]
  exact insert_loop_eq_spec key value _ hn a T.length 0 none (Nat.zero_add _)
    (fun q hq => absurd hq (Nat.not_lt_zero q))
    (fun q hq => absurd hq (Nat.not_lt_zero q))

/-! ## The table invariant

Every OCCUPIED slot is reachable: the first probe stop of its key's chain is
the slot itself. This single condition also yields key uniqueness (two slots
with the same key would both have to be the unique first stop). -/

/-- Slot `j` of `T` holds the live entry `(key, value)`. -/
def occupies (T : List hash_bucket) (key value : List Nat) : Prop :=
  ∃ j, j < T.length ∧ (T.getD j bucket_init).state = BucketState.OCCUPIED ∧
    (T.getD j bucket_init).key = key ∧ (T.getD j bucket_init).value = value

/-- Some slot of `T` holds key `key`. -/
def occupiesKey (T : List hash_bucket) (key : List Nat) : Prop :=
  ∃ value, occupies T key value

/-- The hashed start index of `key` in a table of `n` buckets. -/
abbrev hash_idx (hash_key_0 hash_key_1 : Nat) (key : List Nat) (n : Nat) : Nat :=
  compute_hash hash_key_0 hash_key_1 key n

/-- The table invariant: every OCCUPIED slot is the first probe stop of its
own key's chain. -/
def TableInv (hash_key_0 hash_key_1 : Nat) (T : List hash_bucket) : Prop :=
  ∀ j, j < T.length → (T.getD j bucket_init).state = BucketState.OCCUPIED →
    firstIdx (is_stop (T.getD j bucket_init).key)
        (chain T (hash_idx hash_key_0 hash_key_1 (T.getD j bucket_init).key T.length)) =
      some (chainPos T.length
        (hash_idx hash_key_0 hash_key_1 (T.getD j bucket_init).key T.length) j)

@[simp] theorem keys_equal_iff {a b : List Nat} : keys_equal a b = true ↔ a = b := by
  simp [keys_equal]

theorem keys_equal_self (a : List Nat) : keys_equal a a = true := by simp

theorem getD_set_self {T : List hash_bucket} {j : Nat} (hj : j < T.length)
    (b : hash_bucket) : (T.set j b).getD j bucket_init = b := by
  rw [List.getD_eq_getElem?_getD, List.getElem?_set_eq_of_lt _ hj]
  rfl

theorem getD_set_ne {T : List hash_bucket} {j q : Nat} (hne : j ≠ q)
    (b : hash_bucket) : (T.set j b).getD q bucket_init = T.getD q bucket_init := by
  rw [List.getD_eq_getElem?_getD, List.getElem?_set_ne hne, ← List.getD_eq_getElem?_getD]

/-- A fresh all-EMPTY table satisfies the invariant. -/
theorem TableInv_replicate (hash_key_0 hash_key_1 : Nat) (n : Nat) :
    TableInv hash_key_0 hash_key_1 (List.replicate n bucket_init) := by
  intro j hj hocc
  rw [List.getD_eq_getElem?_getD, List.getElem?_replicate] at hocc
  simp only [List.length_replicate] at hj
  simp [hj, bucket_init] at hocc

section TableInvFacts

variable {hash_key_0 hash_key_1 : Nat} {T : List hash_bucket}

/-- In probe order, the slot at chain position `chainPos h j` is slot `j`. -/
theorem chain_getD_chainPos (h : Nat) {j : Nat} (hn : 0 < T.length)
    (hj : j < T.length) :
    (chain T h).getD (chainPos T.length h j) bucket_init = T.getD j bucket_init := by
  rw [chain_getD h (chainPos_lt hn h j), add_chainPos_mod hn h hj]

/-- Two OCCUPIED slots with equal keys coincide. -/
theorem TableInv.uniq (hInv : TableInv hash_key_0 hash_key_1 T)
    {j j' : Nat} (hj : j < T.length) (hj' : j' < T.length)
    (ho : (T.getD j bucket_init).state = BucketState.OCCUPIED)
    (ho' : (T.getD j' bucket_init).state = BucketState.OCCUPIED)
    (hk : (T.getD j bucket_init).key = (T.getD j' bucket_init).key) : j = j' := by
  have hn : 0 < T.length := Nat.lt_of_le_of_lt (Nat.zero_le j) hj
  have h1 := hInv j hj ho
  have h2 := hInv j' hj' ho'
  rw [hk] at h1
  rw [h1] at h2
  have := Option.some.inj h2
  have e1 := add_chainPos_mod hn
    (hash_idx hash_key_0 hash_key_1 (T.getD j' bucket_init).key T.length) hj
  have e2 := add_chainPos_mod hn
    (hash_idx hash_key_0 hash_key_1 (T.getD j' bucket_init).key T.length) hj'
  rw [this] at e1
  rw [e1] at e2
  exact e2

/-- Under the invariant, `lookup_spec` of a key's chain finds exactly the
entries the table holds. -/
theorem lookup_spec_eq_some_iff (hInv : TableInv hash_key_0 hash_key_1 T)
    (hn : 0 < T.length) (key v : List Nat) :
    lookup_spec key (chain T (hash_idx hash_key_0 hash_key_1 key T.length)) = some v ↔
      occupies T key v := by
  constructor
  · intro hl
    rw [lookup_spec] at hl
    rcases hfi : firstIdx (is_stop key)
        (chain T (hash_idx hash_key_0 hash_key_1 key T.length)) with _ | p
    · rw [hfi] at hl
      cases hl
    · rw [hfi] at hl
      simp only at hl
      split at hl
      case isTrue hocc =>
        cases hl
        have hp : p < T.length := by
          have := firstIdx_mem_lt hfi
          simpa using this
        have hstop := (firstIdx_spec hfi).1
        rw [chain_getD _ hp] at hocc hstop ⊢
        rw [is_stop] at hstop
        rw [hocc] at hstop
        have hkey : (T.getD ((hash_idx hash_key_0 hash_key_1 key T.length + p) % T.length)
            bucket_init).key = key := by simpa using hstop
        exact ⟨_, Nat.mod_lt _ hn, hocc, hkey, rfl⟩
      case isFalse => cases hl
  · rintro ⟨j, hj, hocc, hkey, hval⟩
    have hfi := hInv j hj hocc
    rw [hkey] at hfi
    rw [lookup_spec, hfi]
    simp only
    rw [chain_getD_chainPos _ hn hj, if_pos hocc, hval]

theorem lookup_spec_eq_none_iff (hInv : TableInv hash_key_0 hash_key_1 T)
    (hn : 0 < T.length) (key : List Nat) :
    lookup_spec key (chain T (hash_idx hash_key_0 hash_key_1 key T.length)) = none ↔
      ¬ occupiesKey T key := by
  constructor
  · intro hl ⟨v, hocc⟩
    rw [(lookup_spec_eq_some_iff hInv hn key v).mpr hocc] at hl
    cases hl
  · intro hno
    rcases hl : lookup_spec key (chain T (hash_idx hash_key_0 hash_key_1 key T.length))
        with _ | v
    · rfl
    · exact absurd ⟨v, (lookup_spec_eq_some_iff hInv hn key v).mp hl⟩ hno

end TableInvFacts

/-- `firstIdx` only depends on the pointwise predicate values. -/
theorem firstIdx_congr {p : hash_bucket → Bool} {c c' : List hash_bucket}
    (hlen : c.length = c'.length)
    (h : ∀ q, q < c.length → p (c.getD q bucket_init) = p (c'.getD q bucket_init)) :
    firstIdx p c = firstIdx p c' := by
  induction c generalizing c' with
  | nil =>
    cases c' with
    | nil => rfl
    | cons b' c' => simp at hlen
  | cons b c ih =>
    cases c' with
    | nil => simp at hlen
    | cons b' c' =>
      have hb : p b = p b' := by simpa using h 0 (Nat.succ_pos _)
      have hrest : firstIdx p c = firstIdx p c' := by
        refine ih (by simpa using hlen) ?_
        intro q hq
        simpa using h (q + 1) (by simpa using Nat.succ_lt_succ hq)
      rw [firstIdx_cons, firstIdx_cons, hb, hrest]

section TableInvPreserve

variable {hash_key_0 hash_key_1 : Nat} {T : List hash_bucket}

/-- Replacing the value of an OCCUPIED slot in place preserves the invariant. -/
theorem TableInv_set_value (hInv : TableInv hash_key_0 hash_key_1 T)
    {j : Nat} (hj : j < T.length)
    (hocc : (T.getD j bucket_init).state = BucketState.OCCUPIED) (v : List Nat) :
    TableInv hash_key_0 hash_key_1
      (T.set j ⟨BucketState.OCCUPIED, (T.getD j bucket_init).key, v⟩) := by
  have hn : 0 < T.length := Nat.lt_of_le_of_lt (Nat.zero_le j) hj
  set b : hash_bucket := ⟨BucketState.OCCUPIED, (T.getD j bucket_init).key, v⟩ with hb
  have hpoint : ∀ q, ((T.set j b).getD q bucket_init).state =
      (T.getD q bucket_init).state ∧
      ((T.set j b).getD q bucket_init).key = (T.getD q bucket_init).key := by
    intro q
    by_cases hq : j = q
    · subst hq
      rw [getD_set_self hj]
      exact ⟨by rw [hb, hocc], by rw [hb]⟩
    · rw [getD_set_ne hq]
      exact ⟨rfl, rfl⟩
  intro j' hj'
  rw [List.length_set] at hj'
  intro hocc'
  have hkeep := hpoint j'
  have hocc'' : (T.getD j' bucket_init).state = BucketState.OCCUPIED := by
    rw [← hkeep.1]; exact hocc'
  have hfi := hInv j' hj' hocc''
  have hlen : (T.set j b).length = T.length := List.length_set T j b
  have hstop : ∀ key q, q < T.length →
      is_stop key ((chain (T.set j b) (hash_idx hash_key_0 hash_key_1 key T.length)).getD
        q bucket_init) =
      is_stop key ((chain T (hash_idx hash_key_0 hash_key_1 key T.length)).getD
        q bucket_init) := by
    intro key q hq
    have h1 := chain_getD (T := T.set j b)
      (hash_idx hash_key_0 hash_key_1 key T.length) (p := q) (by rw [hlen]; exact hq)
    have h2 := chain_getD (T := T)
      (hash_idx hash_key_0 hash_key_1 key T.length) (p := q) hq
    rw [h1, h2, hlen]
    have hkq := hpoint ((hash_idx hash_key_0 hash_key_1 key T.length + q) % T.length)
    rw [is_stop, is_stop, hkq.1, hkq.2]
  have hcongr : firstIdx
      (is_stop (T.getD j' bucket_init).key)
      (chain (T.set j b)
        (hash_idx hash_key_0 hash_key_1 (T.getD j' bucket_init).key T.length)) =
    firstIdx (is_stop (T.getD j' bucket_init).key)
      (chain T (hash_idx hash_key_0 hash_key_1 (T.getD j' bucket_init).key T.length)) := by
    refine firstIdx_congr (by simp) ?_
    intro q hq
    exact hstop _ q (by simpa using hq)
  rw [hlen, hkeep.2, hcongr, hfi]

/-- Writing a fresh `(key, value)` entry at a chain position whose prefix has
no probe stop, when the key is nowhere in the table, preserves the invariant. -/
theorem TableInv_set_fill (hInv : TableInv hash_key_0 hash_key_1 T)
    {key value : List Nat} {p : Nat} (hp : p < T.length)
    (hpre : ∀ q, q < p → is_stop key
      ((chain T (hash_idx hash_key_0 hash_key_1 key T.length)).getD q bucket_init) = false)
    (hnokey : ¬ occupiesKey T key) :
    TableInv hash_key_0 hash_key_1
      (T.set ((hash_idx hash_key_0 hash_key_1 key T.length + p) % T.length)
        ⟨BucketState.OCCUPIED, key, value⟩) := by
  have hn : 0 < T.length := Nat.lt_of_le_of_lt (Nat.zero_le p) hp
  set h := hash_idx hash_key_0 hash_key_1 key T.length with hh
  set j := (h + p) % T.length with hjdef
  have hjlt : j < T.length := Nat.mod_lt _ hn
  set b : hash_bucket := ⟨BucketState.OCCUPIED, key, value⟩ with hb
  have hcpj : chainPos T.length h j = p := by
    rw [hjdef]
    exact chainPos_add_mod hn h hp
  have hlen : (T.set j b).length = T.length := List.length_set T j b
  intro j' hj'
  rw [hlen] at hj'
  intro hocc'
  by_cases hjj : j' = j
  · subst hjj
    rw [hlen, getD_set_self hjlt]
    have hbkey : b.key = key := rfl
    rw [hbkey, ← hh, hcpj]
    have hchain' : chain (T.set j b) h = (chain T h).set p b := by
      rw [chain_set h hjlt, hcpj]
    rw [hchain']
    refine firstIdx_eq_some_of (by simpa using hp) ?_ ?_
    · rw [List.getD_eq_getElem?_getD, List.getElem?_set_eq_of_lt _ (by simpa using hp)]
      rw [hb, is_stop]
      simpa using keys_equal_self key
    · intro q hq
      rw [List.getD_eq_getElem?_getD, List.getElem?_set_ne (by omega),
        ← List.getD_eq_getElem?_getD]
      exact hpre q hq
  · have hgd : (T.set j b).getD j' bucket_init = T.getD j' bucket_init :=
      getD_set_ne (fun hx => hjj hx.symm) b
    rw [hgd] at hocc' ⊢
    have hfi := hInv j' hj' hocc'
    set K' := (T.getD j' bucket_init).key with hK'
    set h' := hash_idx hash_key_0 hash_key_1 K' T.length with hh'
    have hKne : keys_equal key K' = false := by
      by_cases hkk : key = K'
      · exact absurd ⟨(T.getD j' bucket_init).value, j', hj', hocc', by rw [hkk], rfl⟩ hnokey
      · simpa [keys_equal] using hkk
    have hq0 : chainPos T.length h' j ≠ chainPos T.length h' j' := by
      intro hx
      apply hjj
      have e1 := add_chainPos_mod hn h' hjlt
      have e2 := add_chainPos_mod hn h' hj'
      rw [hx] at e1
      rw [e1] at e2
      exact e2.symm
    rw [hlen]
    rw [chain_set h' hjlt]
    rw [← hh']
    refine firstIdx_eq_some_of (by simpa using chainPos_lt hn h' j') ?_ ?_
    · rw [List.getD_eq_getElem?_getD, List.getElem?_set_ne hq0,
        ← List.getD_eq_getElem?_getD]
      have := (firstIdx_spec hfi).1
      exact this
    · intro q hq
      by_cases hqe : chainPos T.length h' j = q
      · rw [← hqe]
        rw [List.getD_eq_getElem?_getD,
          List.getElem?_set_eq_of_lt _ (by simpa using chainPos_lt hn h' j)]
        rw [hb, is_stop]
        simpa using hKne
      · rw [List.getD_eq_getElem?_getD, List.getElem?_set_ne hqe,
          ← List.getD_eq_getElem?_getD]
        exact (firstIdx_spec hfi).2 q hq

/-- Tombstoning a slot preserves the invariant. -/
theorem TableInv_set_tomb (hInv : TableInv hash_key_0 hash_key_1 T)
    {j : Nat} (hj : j < T.length) :
    TableInv hash_key_0 hash_key_1 (T.set j bucket_make_tombstone_unlocked) := by
  have hn : 0 < T.length := Nat.lt_of_le_of_lt (Nat.zero_le j) hj
  have hlen : (T.set j bucket_make_tombstone_unlocked).length = T.length :=
    List.length_set T _ _
  intro j' hj'
  rw [hlen] at hj'
  intro hocc'
  by_cases hjj : j' = j
  · subst hjj
    rw [getD_set_self hj'] at hocc'
    cases hocc'
  · have hgd : (T.set j bucket_make_tombstone_unlocked).getD j' bucket_init =
        T.getD j' bucket_init := getD_set_ne (fun hx => hjj hx.symm) _
    rw [hgd] at hocc' ⊢
    have hfi := hInv j' hj' hocc'
    set K' := (T.getD j' bucket_init).key with hK'
    set h' := hash_idx hash_key_0 hash_key_1 K' T.length with hh'
    have hq0 : chainPos T.length h' j ≠ chainPos T.length h' j' := by
      intro hx
      apply hjj
      have e1 := add_chainPos_mod hn h' hj
      have e2 := add_chainPos_mod hn h' hj'
      rw [hx] at e1
      rw [e1] at e2
      exact e2.symm
    rw [hlen, chain_set h' hj, ← hh']
    refine firstIdx_eq_some_of (by simpa using chainPos_lt hn h' j') ?_ ?_
    · rw [List.getD_eq_getElem?_getD, List.getElem?_set_ne hq0,
        ← List.getD_eq_getElem?_getD]
      exact (firstIdx_spec hfi).1
    · intro q hq
      by_cases hqe : chainPos T.length h' j = q
      · rw [← hqe]
        rw [List.getD_eq_getElem?_getD,
          List.getElem?_set_eq_of_lt _ (by simpa using chainPos_lt hn h' j)]
        simp [is_stop, bucket_make_tombstone_unlocked]
      · rw [List.getD_eq_getElem?_getD, List.getElem?_set_ne hqe,
          ← List.getD_eq_getElem?_getD]
        exact (firstIdx_spec hfi).2 q hq

end TableInvPreserve

/-! ## Entry accounting -/

/-- Number of live entries a single bucket contributes. -/
def bcount (b : hash_bucket) : Nat :=
  if b.state = BucketState.OCCUPIED then 1 else 0

/-- Payload bytes a single bucket contributes. -/
def bsize (b : hash_bucket) : Nat :=
  if b.state = BucketState.OCCUPIED then b.key.length + b.value.length else 0

theorem table_entries_nil : table_entries [] = [] := rfl

theorem table_entries_cons (x : hash_bucket) (l : List hash_bucket) :
    table_entries (x :: l) =
      (if x.state = BucketState.OCCUPIED then [(x.key, x.value)] else []) ++
        table_entries l := by
  rw [table_entries, List.filter_cons]
  by_cases hx : x.state = BucketState.OCCUPIED
  · simp [hx, table_entries]
  · simp [hx, table_entries]

theorem entries_size_append (l1 l2 : List (List Nat × List Nat)) :
    entries_size (l1 ++ l2) = entries_size l1 + entries_size l2 := by
  simp [entries_size]

/-- Effect of a single-slot write on the number of live entries. -/
theorem entries_count_set :
    ∀ (T : List hash_bucket) (j : Nat), j < T.length → ∀ b : hash_bucket,
      (table_entries (T.set j b)).length + bcount (T.getD j bucket_init) =
        (table_entries T).length + bcount b := by
  intro T
  induction T with
  | nil => intro j hj; simp at hj
  | cons x l ih =>
    intro j hj b
    cases j with
    | zero =>
      rw [List.set_cons_zero, table_entries_cons, table_entries_cons,
        List.getD_cons_zero, List.length_append, List.length_append]
      by_cases hb : b.state = BucketState.OCCUPIED <;>
        by_cases hx : x.state = BucketState.OCCUPIED <;>
          simp [bcount, hb, hx] <;> omega
    | succ j =>
      rw [List.set_cons_succ, table_entries_cons, table_entries_cons,
        List.getD_cons_succ, List.length_append, List.length_append]
      have hrec := ih j (by simpa using hj) b
      by_cases hx : x.state = BucketState.OCCUPIED
      · rw [if_pos hx]
        simp only [List.length_singleton]
        omega
      · rw [if_neg hx]
        simp only [List.length_nil]
        omega

/-- Effect of a single-slot write on the total payload size. -/
theorem entries_size_set :
    ∀ (T : List hash_bucket) (j : Nat), j < T.length → ∀ b : hash_bucket,
      entries_size (table_entries (T.set j b)) + bsize (T.getD j bucket_init) =
        entries_size (table_entries T) + bsize b := by
  intro T
  induction T with
  | nil => intro j hj; simp at hj
  | cons x l ih =>
    intro j hj b
    cases j with
    | zero =>
      rw [List.set_cons_zero, table_entries_cons, table_entries_cons,
        entries_size_append, entries_size_append, List.getD_cons_zero]
      by_cases hb : b.state = BucketState.OCCUPIED <;>
        by_cases hx : x.state = BucketState.OCCUPIED <;>
          simp [bsize, entries_size, hb, hx] <;> omega
    | succ j =>
      rw [List.set_cons_succ, table_entries_cons, table_entries_cons,
        entries_size_append, entries_size_append, List.getD_cons_succ]
      have hrec := ih j (by simpa using hj) b
      by_cases hx : x.state = BucketState.OCCUPIED
      · rw [if_pos hx]
        have h1 : entries_size [(x.key, x.value)] = x.key.length + x.value.length := by
          simp [entries_size]
        omega
      · rw [if_neg hx]
        have h1 : entries_size ([] : List (List Nat × List Nat)) = 0 := by
          simp [entries_size]
        omega

/-! ## Analysis of the insertion decision -/

theorem is_stop_true_cases {key : List Nat} {b : hash_bucket}
    (h : is_stop key b = true) :
    b.state = BucketState.EMPTY ∨
      (b.state = BucketState.OCCUPIED ∧ b.key = key) := by
  rw [is_stop] at h
  cases hb : b.state with
  | EMPTY => exact Or.inl rfl
  | OCCUPIED =>
    rw [hb] at h
    exact Or.inr ⟨rfl, keys_equal_iff.mp h⟩
  | TOMBSTONE =>
    rw [hb] at h
    cases h

theorem is_tomb_iff {b : hash_bucket} :
    is_tomb b = true ↔ b.state = BucketState.TOMBSTONE := by
  rw [is_tomb]
  cases hb : b.state <;> simp

theorem ins_update_facts {key : List Nat} {c : List hash_bucket} {p : Nat}
    (ht : ins_target key c = some p) (hu : ins_is_update key c = true) :
    p < c.length ∧ (c.getD p bucket_init).state = BucketState.OCCUPIED ∧
      (c.getD p bucket_init).key = key ∧ firstIdx (is_stop key) c = some p := by
  rcases hfi : firstIdx (is_stop key) c with _ | s
  · simp only [ins_is_update, hfi] at hu
    cases hu
  · simp only [ins_is_update, hfi] at hu
    have hocc : (c.getD s bucket_init).state = BucketState.OCCUPIED := by
      by_cases hx : (c.getD s bucket_init).state = BucketState.OCCUPIED
      · exact hx
      · rw [if_neg hx] at hu
        cases hu
    simp only [ins_target, hfi] at ht
    rw [if_neg (by rw [hocc]; intro hx; cases hx)] at ht
    cases ht
    have hstop := (firstIdx_spec hfi).1
    rcases is_stop_true_cases hstop with he | ⟨_, hk⟩
    · rw [he] at hocc
      cases hocc
    · exact ⟨firstIdx_mem_lt hfi, hocc, hk, rfl⟩

theorem ins_fill_facts {key : List Nat} {c : List hash_bucket} {p : Nat}
    (ht : ins_target key c = some p) (hu : ins_is_update key c = false) :
    p < c.length ∧ (c.getD p bucket_init).state ≠ BucketState.OCCUPIED ∧
      (∀ q, q < p → is_stop key (c.getD q bucket_init) = false) ∧
      lookup_spec key c = none := by
  rcases hfi : firstIdx (is_stop key) c with _ | s
  · simp only [ins_target, hfi] at ht
    have hall := firstIdx_eq_none.mp hfi
    have hlook : lookup_spec key c = none := by simp only [lookup_spec, hfi]
    have htomb : is_tomb (c.getD p bucket_init) = true := (firstIdx_spec ht).1
    refine ⟨firstIdx_mem_lt ht, ?_, ?_, hlook⟩
    · rw [is_tomb_iff.mp htomb]
      intro hx
      cases hx
    · intro q hq
      have hqlt : q < c.length := lt_trans hq (firstIdx_mem_lt ht)
      have : c.getD q bucket_init ∈ c := by
        rw [List.getD_eq_getElem _ _ hqlt]
        exact List.getElem_mem hqlt
      exact hall _ this
  · have hstop := (firstIdx_spec hfi).1
    have hpre := (firstIdx_spec hfi).2
    have hempty : (c.getD s bucket_init).state = BucketState.EMPTY := by
      rcases is_stop_true_cases hstop with he | ⟨ho, _⟩
      · exact he
      · simp only [ins_is_update, hfi] at hu
        rw [if_pos ho] at hu
        cases hu
    have hlook : lookup_spec key c = none := by
      simp only [lookup_spec, hfi]
      rw [if_neg (by rw [hempty]; intro hx; cases hx)]
    simp only [ins_target, hfi] at ht
    rw [if_pos hempty] at ht
    rcases hft : firstIdx is_tomb c with _ | t
    · simp only [hft] at ht
      cases ht
      refine ⟨firstIdx_mem_lt hfi, ?_, hpre, hlook⟩
      rw [hempty]
      intro hx
      cases hx
    · simp only [hft] at ht
      by_cases htl : t < s
      · rw [if_pos htl] at ht
        cases ht
        have htomb := (firstIdx_spec hft).1
        refine ⟨lt_trans htl (firstIdx_mem_lt hfi), ?_, ?_, hlook⟩
        · rw [is_tomb_iff.mp htomb]
          intro hx
          cases hx
        · intro q hq
          exact hpre q (lt_trans hq htl)
      · rw [if_neg htl] at ht
        cases ht
        refine ⟨firstIdx_mem_lt hfi, ?_, hpre, hlook⟩
        rw [hempty]
        intro hx
        cases hx

theorem ins_target_none_facts {key : List Nat} {c : List hash_bucket}
    (ht : ins_target key c = none) :
    ∀ q, q < c.length → (c.getD q bucket_init).state = BucketState.OCCUPIED ∧
      (c.getD q bucket_init).key ≠ key := by
  rcases hfi : firstIdx (is_stop key) c with _ | s
  · simp only [ins_target, hfi] at ht
    have hnostop := firstIdx_eq_none.mp hfi
    have hnotomb := firstIdx_eq_none.mp ht
    intro q hq
    have hmem : c.getD q bucket_init ∈ c := by
      rw [List.getD_eq_getElem _ _ hq]
      exact List.getElem_mem hq
    have h1 := hnostop _ hmem
    have h2 := hnotomb _ hmem
    rw [is_stop] at h1
    rw [is_tomb] at h2
    cases hb : (c.getD q bucket_init).state with
    | EMPTY =>
      rw [hb] at h1
      cases h1
    | TOMBSTONE =>
      rw [hb] at h2
      cases h2
    | OCCUPIED =>
      rw [hb] at h1
      refine ⟨rfl, ?_⟩
      intro hk
      rw [← keys_equal_iff] at hk
      rw [hk] at h1
      cases h1
  · simp only [ins_target, hfi] at ht
    by_cases hempty : (c.getD s bucket_init).state = BucketState.EMPTY
    · rw [if_pos hempty] at ht
      rcases hft : firstIdx is_tomb c with _ | t
      · simp only [hft] at ht
        simp at ht
      · simp only [hft] at ht
        by_cases htl : t < s
        · rw [if_pos htl] at ht
          cases ht
        · rw [if_neg htl] at ht
          cases ht
    · rw [if_neg hempty] at ht
      cases ht

/-! ## Case analysis of `apply_ins` outcomes -/

theorem apply_ins_cases {key value : List Nat} {T : List hash_bucket} {h : Nat}
    {a : Alloc} {tgt : Option Nat} {upd : Bool}
    (hrc : (apply_ins key value T h a tgt upd).rc = 0) :
    ∃ p a', tgt = some p ∧
      ((upd = true ∧
        apply_ins key value T h a tgt upd =
          ⟨0, T.set ((h + p) % T.length)
              ⟨BucketState.OCCUPIED,
                (T.getD ((h + p) % T.length) bucket_init).key, value⟩,
            false, (T.getD ((h + p) % T.length) bucket_init).value_len, a'⟩) ∨
       (upd = false ∧
        apply_ins key value T h a tgt upd =
          ⟨0, T.set ((h + p) % T.length) ⟨BucketState.OCCUPIED, key, value⟩,
            true, 0, a'⟩)) := by
  cases tgt with
  | none =>
    rw [apply_ins] at hrc
    have h0 : (-ENOSPC : Int) = 0 := hrc
    exact absurd h0 (by decide)
  | some p =>
    cases upd with
    | true =>
      rw [apply_ins] at hrc ⊢
      rcases hm : malloc a with ⟨ok, a1⟩
      simp only [hm] at hrc ⊢
      cases ok with
      | false =>
        simp only [Bool.not_false, if_pos] at hrc
        have h0 : (-ENOMEM : Int) = 0 := hrc
        exact absurd h0 (by decide)
      | true =>
        simp only [Bool.not_true] at hrc ⊢
        rw [if_neg (by simp)] at hrc ⊢
        exact ⟨p, a1, rfl, Or.inl ⟨by trivial, rfl⟩⟩
    | false =>
      rw [apply_ins] at hrc ⊢
      rcases hm : malloc a with ⟨ok1, a1⟩
      simp only [hm] at hrc ⊢
      cases ok1 with
      | false =>
        simp only [Bool.not_false, if_pos] at hrc
        have h0 : (-ENOMEM : Int) = 0 := hrc
        exact absurd h0 (by decide)
      | true =>
        simp only [Bool.not_true] at hrc ⊢
        rw [if_neg (by simp)] at hrc ⊢
        rcases hm2 : malloc a1 with ⟨ok2, a2⟩
        simp only [hm2] at hrc ⊢
        cases ok2 with
        | false =>
          simp only [Bool.not_false, if_pos] at hrc
          have h0 : (-ENOMEM : Int) = 0 := hrc
          exact absurd h0 (by decide)
        | true =>
          simp only [Bool.not_true] at hrc ⊢
          rw [if_neg (by simp)] at hrc ⊢
          exact ⟨p, a2, rfl, Or.inr ⟨by trivial, rfl⟩⟩

theorem apply_ins_fail {key value : List Nat} {T : List hash_bucket} {h : Nat}
    {a : Alloc} {tgt : Option Nat} {upd : Bool}
    (hrc : (apply_ins key value T h a tgt upd).rc ≠ 0) :
    (apply_ins key value T h a tgt upd).buckets = T ∧
      ((apply_ins key value T h a tgt upd).rc = -ENOMEM ∨
       ((apply_ins key value T h a tgt upd).rc = -ENOSPC ∧ tgt = none ∧
        (apply_ins key value T h a tgt upd).alloc = a)) := by
  cases tgt with
  | none => exact ⟨rfl, Or.inr ⟨rfl, rfl, rfl⟩⟩
  | some p =>
    cases upd with
    | true =>
      rw [apply_ins] at hrc ⊢
      rcases hm : malloc a with ⟨ok, a1⟩
      simp only [hm] at hrc ⊢
      cases ok with
      | false => exact ⟨rfl, Or.inl rfl⟩
      | true =>
        simp only [Bool.not_true] at hrc ⊢
        rw [if_neg (by simp)] at hrc
        exact absurd rfl hrc
    | false =>
      rw [apply_ins] at hrc ⊢
      rcases hm : malloc a with ⟨ok1, a1⟩
      simp only [hm] at hrc ⊢
      cases ok1 with
      | false => exact ⟨rfl, Or.inl rfl⟩
      | true =>
        simp only [Bool.not_true] at hrc ⊢
        rw [if_neg (by simp)] at hrc ⊢
        rcases hm2 : malloc a1 with ⟨ok2, a2⟩
        simp only [hm2] at hrc ⊢
        cases ok2 with
        | false => exact ⟨rfl, Or.inl rfl⟩
        | true =>
          simp only [Bool.not_true] at hrc ⊢
          rw [if_neg (by simp)] at hrc
          exact absurd rfl hrc

/-! ## Effect of `insert_into_table` on a well-formed table -/

theorem insert_into_table_ok {hash_key_0 hash_key_1 : Nat} {T : List hash_bucket}
    (hInv : TableInv hash_key_0 hash_key_1 T) (hn : 0 < T.length)
    (key value : List Nat) (a : Alloc) {r : insert_result}
    (hr : insert_into_table hash_key_0 hash_key_1 T T.length key value a = r)
    (hrc : r.rc = 0) :
    TableInv hash_key_0 hash_key_1 r.buckets ∧
    r.buckets.length = T.length ∧
    occupies r.buckets key value ∧
    (∀ k' v', k' ≠ key → (occupies r.buckets k' v' ↔ occupies T k' v')) ∧
    (r.is_new = true →
      ¬ occupiesKey T key ∧
      (table_entries r.buckets).length = (table_entries T).length + 1 ∧
      entries_size (table_entries r.buckets) =
        entries_size (table_entries T) + (key.length + value.length)) ∧
    (r.is_new = false →
      ∃ vOld, occupies T key vOld ∧ r.old_value_len = vOld.length ∧
        (table_entries r.buckets).length = (table_entries T).length ∧
        entries_size (table_entries r.buckets) + vOld.length =
          entries_size (table_entries T) + value.length) := by
  subst hr
  rw [insert_into_table_spec hash_key_0 hash_key_1 key value hn a] at hrc ⊢
  set h := compute_hash hash_key_0 hash_key_1 key T.length with hh
  set c := chain T h with hc
  obtain ⟨p, a', htgt, hcase⟩ := apply_ins_cases hrc
  rcases hcase with ⟨hupd, heq⟩ | ⟨hupd, heq⟩
  · obtain ⟨hp, hocc, hkey, hfi⟩ := ins_update_facts htgt hupd
    have hplen : p < T.length := by simpa [hc] using hp
    have hgd : c.getD p bucket_init = T.getD ((h + p) % T.length) bucket_init := by
      rw [hc]
      exact chain_getD h hplen
    rw [hgd] at hocc hkey
    set idx := (h + p) % T.length with hidxdef
    have hidx : idx < T.length := Nat.mod_lt _ hn
    rw [heq]
    refine ⟨?_, ?_, ?_, ?_, ?_, ?_⟩
    · exact TableInv_set_value hInv hidx hocc value
    · exact List.length_set T _ _
    · exact ⟨idx, by rw [List.length_set]; exact hidx,
        by rw [getD_set_self hidx], by rw [getD_set_self hidx]; exact hkey,
        by rw [getD_set_self hidx]⟩
    · intro k' v' hk'
      constructor
      · rintro ⟨j', hj', ho', hkey', hval'⟩
        rw [List.length_set] at hj'
        by_cases hjj : j' = idx
        · subst hjj
          rw [getD_set_self hidx] at hkey'
          exact absurd (hkey'.symm.trans hkey) hk'
        · rw [getD_set_ne (fun hx => hjj hx.symm)] at ho' hkey' hval'
          exact ⟨j', hj', ho', hkey', hval'⟩
      · rintro ⟨j', hj', ho', hkey', hval'⟩
        by_cases hjj : j' = idx
        · subst hjj
          exact absurd (hkey'.symm.trans hkey) hk'
        · exact ⟨j', by rw [List.length_set]; exact hj',
            by rw [getD_set_ne (fun hx => hjj hx.symm)]; exact ho',
            by rw [getD_set_ne (fun hx => hjj hx.symm)]; exact hkey',
            by rw [getD_set_ne (fun hx => hjj hx.symm)]; exact hval'⟩
    · intro hx
      simp at hx
    · intro _
      have hcs := entries_count_set T idx hidx
        ⟨BucketState.OCCUPIED, (T.getD idx bucket_init).key, value⟩
      have hss := entries_size_set T idx hidx
        ⟨BucketState.OCCUPIED, (T.getD idx bucket_init).key, value⟩
      rw [bcount, if_pos hocc, bcount, if_pos rfl] at hcs
      rw [bsize, if_pos hocc, bsize, if_pos rfl] at hss
      simp only at hss
      refine ⟨(T.getD idx bucket_init).value, ⟨idx, hidx, hocc, hkey, rfl⟩, rfl, ?_, ?_⟩
      · show (table_entries (T.set idx
            ⟨BucketState.OCCUPIED, (T.getD idx bucket_init).key, value⟩)).length =
          (table_entries T).length
        omega
      · have hkl : (T.getD idx bucket_init).key.length = key.length := by rw [hkey]
        show entries_size (table_entries (T.set idx
            ⟨BucketState.OCCUPIED, (T.getD idx bucket_init).key, value⟩)) +
          (T.getD idx bucket_init).value.length =
          entries_size (table_entries T) + value.length
        omega
  · obtain ⟨hp, hnotocc, hpre, hlook⟩ := ins_fill_facts htgt hupd
    have hplen : p < T.length := by simpa [hc] using hp
    have hgd : c.getD p bucket_init = T.getD ((h + p) % T.length) bucket_init := by
      rw [hc]
      exact chain_getD h hplen
    rw [hgd] at hnotocc
    have hnokey : ¬ occupiesKey T key := (lookup_spec_eq_none_iff hInv hn key).mp hlook
    set idx := (h + p) % T.length with hidxdef
    have hidx : idx < T.length := Nat.mod_lt _ hn
    rw [heq]
    refine ⟨?_, ?_, ?_, ?_, ?_, ?_⟩
    · exact TableInv_set_fill hInv hplen hpre hnokey
    · exact List.length_set T _ _
    · exact ⟨idx, by rw [List.length_set]; exact hidx,
        by rw [getD_set_self hidx], by rw [getD_set_self hidx],
        by rw [getD_set_self hidx]⟩
    · intro k' v' hk'
      constructor
      · rintro ⟨j', hj', ho', hkey', hval'⟩
        rw [List.length_set] at hj'
        by_cases hjj : j' = idx
        · subst hjj
          rw [getD_set_self hidx] at hkey'
          exact absurd hkey'.symm hk'
        · rw [getD_set_ne (fun hx => hjj hx.symm)] at ho' hkey' hval'
          exact ⟨j', hj', ho', hkey', hval'⟩
      · rintro ⟨j', hj', ho', hkey', hval'⟩
        by_cases hjj : j' = idx
        · subst hjj
          exact absurd ho' hnotocc
        · exact ⟨j', by rw [List.length_set]; exact hj',
            by rw [getD_set_ne (fun hx => hjj hx.symm)]; exact ho',
            by rw [getD_set_ne (fun hx => hjj hx.symm)]; exact hkey',
            by rw [getD_set_ne (fun hx => hjj hx.symm)]; exact hval'⟩
    · intro _
      have hcs := entries_count_set T idx hidx ⟨BucketState.OCCUPIED, key, value⟩
      have hss := entries_size_set T idx hidx ⟨BucketState.OCCUPIED, key, value⟩
      rw [bcount, if_neg hnotocc, bcount, if_pos rfl] at hcs
      rw [bsize, if_neg hnotocc, bsize, if_pos rfl] at hss
      simp only at hss
      refine ⟨hnokey, ?_, ?_⟩
      · show (table_entries (T.set idx ⟨BucketState.OCCUPIED, key, value⟩)).length =
          (table_entries T).length + 1
        omega
      · show entries_size (table_entries (T.set idx ⟨BucketState.OCCUPIED, key, value⟩)) =
          entries_size (table_entries T) + (key.length + value.length)
        omega
    · intro hx
      simp at hx

theorem insert_into_table_fail {hash_key_0 hash_key_1 : Nat} {T : List hash_bucket}
    (hn : 0 < T.length) (key value : List Nat) (a : Alloc) {r : insert_result}
    (hr : insert_into_table hash_key_0 hash_key_1 T T.length key value a = r)
    (hrc : r.rc ≠ 0) :
    r.buckets = T ∧
      (r.rc = -ENOMEM ∨
       (r.rc = -ENOSPC ∧ r.alloc = a ∧
        ∀ j, j < T.length → (T.getD j bucket_init).state = BucketState.OCCUPIED ∧
          (T.getD j bucket_init).key ≠ key)) := by
  subst hr
  rw [insert_into_table_spec hash_key_0 hash_key_1 key value hn a] at hrc ⊢
  set h := compute_hash hash_key_0 hash_key_1 key T.length with hh
  set c := chain T h with hc
  obtain ⟨hbuck, hfail⟩ := apply_ins_fail hrc
  refine ⟨hbuck, ?_⟩
  rcases hfail with hmem | ⟨hrsp, htgt, halloc⟩
  · exact Or.inl hmem
  · refine Or.inr ⟨hrsp, halloc, ?_⟩
    intro j hj
    have hfull := ins_target_none_facts htgt
    have hq : chainPos T.length h j < c.length := by
      rw [hc]
      simpa using chainPos_lt hn h j
    have hcq := hfull _ hq
    have hgd : c.getD (chainPos T.length h j) bucket_init = T.getD j bucket_init := by
      rw [hc]
      exact chain_getD_chainPos h hn hj
    rw [hgd] at hcq
    exact hcq

/-! ## Effect of `delete_from_table` on a well-formed table -/

theorem delete_from_table_facts {hash_key_0 hash_key_1 : Nat} {T : List hash_bucket}
    (hInv : TableInv hash_key_0 hash_key_1 T) (hn : 0 < T.length)
    (key : List Nat) {d : delete_result}
    (hd : delete_from_table hash_key_0 hash_key_1 T T.length key = d) :
    (d.rc = 0 ↔ occupiesKey T key) ∧
    (d.rc ≠ 0 → d.buckets = T ∧ d.rc = -ENOENT) ∧
    (d.rc = 0 → ∃ vOld, occupies T key vOld ∧ d.deleted_key_len = key.length ∧
      d.deleted_value_len = vOld.length ∧ TableInv hash_key_0 hash_key_1 d.buckets ∧
      d.buckets.length = T.length ∧ ¬ occupiesKey d.buckets key ∧
      (∀ k' v', k' ≠ key → (occupies d.buckets k' v' ↔ occupies T k' v')) ∧
      (table_entries d.buckets).length + 1 = (table_entries T).length ∧
      entries_size (table_entries d.buckets) + (key.length + vOld.length) =
        entries_size (table_entries T)) := by
  subst hd
  rw [delete_from_table_spec hash_key_0 hash_key_1 key]
  set h := compute_hash hash_key_0 hash_key_1 key T.length with hh
  rcases hdsp : delete_spec_pos key (chain T h) with _ | p
  · have hnone : lookup_spec key (chain T h) = none := by
      rw [delete_spec_pos] at hdsp
      rcases hfi : firstIdx (is_stop key) (chain T h) with _ | s
      · simp only [lookup_spec, hfi]
      · simp only [hfi] at hdsp
        have hne : ¬ (((chain T h)).getD s bucket_init).state = BucketState.OCCUPIED := by
          intro hx
          rw [if_pos hx] at hdsp
          cases hdsp
        simp only [lookup_spec, hfi]
        rw [if_neg hne]
    have hnokey : ¬ occupiesKey T key := (lookup_spec_eq_none_iff hInv hn key).mp hnone
    refine ⟨?_, ?_, ?_⟩
    · rw [apply_del]
      constructor
      · intro hx
        have h0 : (-ENOENT : Int) = 0 := hx
        exact absurd h0 (by decide)
      · intro hx
        exact absurd hx hnokey
    · intro _
      exact ⟨rfl, rfl⟩
    · intro hx
      rw [apply_del] at hx
      have h0 : (-ENOENT : Int) = 0 := hx
      exact absurd h0 (by decide)
  · rw [delete_spec_pos] at hdsp
    rcases hfi : firstIdx (is_stop key) (chain T h) with _ | s
    · simp only [hfi] at hdsp
      exact absurd hdsp (by simp)
    · simp only [hfi] at hdsp
      have hocc : (((chain T h)).getD s bucket_init).state = BucketState.OCCUPIED := by
        by_cases hx : (((chain T h)).getD s bucket_init).state = BucketState.OCCUPIED
        · exact hx
        · rw [if_neg hx] at hdsp
          cases hdsp
      rw [if_pos hocc] at hdsp
      cases hdsp
      have hkey : (((chain T h)).getD p bucket_init).key = key := by
        rcases is_stop_true_cases (firstIdx_spec hfi).1 with he | ⟨_, hk⟩
        · rw [he] at hocc
          cases hocc
        · exact hk
      have hplen : p < T.length := by
        have := firstIdx_mem_lt hfi
        simpa using this
      have hgd : ((chain T h)).getD p bucket_init =
          T.getD ((h + p) % T.length) bucket_init := chain_getD h hplen
      set idx := (h + p) % T.length with hidxdef
      have hidx : idx < T.length := Nat.mod_lt _ hn
      have hoccidx : (T.getD idx bucket_init).state = BucketState.OCCUPIED := by
        rw [← hgd]
        exact hocc
      have hkeyidx : (T.getD idx bucket_init).key = key := by
        rw [← hgd]
        exact hkey
      have hoccT : occupies T key (T.getD idx bucket_init).value :=
        ⟨idx, hidx, hoccidx, hkeyidx, rfl⟩
      refine ⟨?_, ?_, ?_⟩
      · rw [apply_del]
        exact ⟨fun _ => ⟨_, hoccT⟩, fun _ => rfl⟩
      · intro hx
        rw [apply_del] at hx
        exact absurd rfl hx
      · intro _
        rw [apply_del]
        have hcs := entries_count_set T idx hidx bucket_make_tombstone_unlocked
        have hss := entries_size_set T idx hidx bucket_make_tombstone_unlocked
        rw [bcount, if_pos hoccidx] at hcs
        rw [bcount, if_neg (by intro hx; cases hx)] at hcs
        rw [bsize, if_pos hoccidx] at hss
        rw [bsize, if_neg (by intro hx; cases hx)] at hss
        refine ⟨(T.getD idx bucket_init).value, hoccT, ?_, ?_, ?_, ?_, ?_, ?_, ?_, ?_⟩
        · show (((chain T h)).getD p bucket_init).key_len = key.length
          rw [hash_bucket.key_len, hgd, hkeyidx]
        · show (((chain T h)).getD p bucket_init).value_len =
            (T.getD idx bucket_init).value.length
          rw [hash_bucket.value_len, hgd]
        · show TableInv hash_key_0 hash_key_1 (T.set idx bucket_make_tombstone_unlocked)
          exact TableInv_set_tomb hInv hidx
        · show (T.set idx bucket_make_tombstone_unlocked).length = T.length
          exact List.length_set T _ _
        · show ¬ occupiesKey (T.set idx bucket_make_tombstone_unlocked) key
          rintro ⟨v', j', hj', ho', hkey', hval'⟩
          rw [List.length_set] at hj'
          by_cases hjj : j' = idx
          · subst hjj
            rw [getD_set_self hidx] at ho'
            cases ho'
          · rw [getD_set_ne (fun hx => hjj hx.symm)] at ho' hkey'
            have := hInv.uniq hj' hidx ho' hoccidx (by rw [hkey', hkeyidx])
            exact absurd this hjj
        · show ∀ k' v', k' ≠ key →
            (occupies (T.set idx bucket_make_tombstone_unlocked) k' v' ↔ occupies T k' v')
          intro k' v' hk'
          constructor
          · rintro ⟨j', hj', ho', hkey', hval'⟩
            rw [List.length_set] at hj'
            by_cases hjj : j' = idx
            · subst hjj
              rw [getD_set_self hidx] at ho'
              cases ho'
            · rw [getD_set_ne (fun hx => hjj hx.symm)] at ho' hkey' hval'
              exact ⟨j', hj', ho', hkey', hval'⟩
          · rintro ⟨j', hj', ho', hkey', hval'⟩
            by_cases hjj : j' = idx
            · subst hjj
              exact absurd (hkey'.symm.trans hkeyidx) hk'
            · exact ⟨j', by rw [List.length_set]; exact hj',
                by rw [getD_set_ne (fun hx => hjj hx.symm)]; exact ho',
                by rw [getD_set_ne (fun hx => hjj hx.symm)]; exact hkey',
                by rw [getD_set_ne (fun hx => hjj hx.symm)]; exact hval'⟩
        · show (table_entries (T.set idx bucket_make_tombstone_unlocked)).length + 1 =
            (table_entries T).length
          omega
        · show entries_size (table_entries (T.set idx bucket_make_tombstone_unlocked)) +
            (key.length + (T.getD idx bucket_init).value.length) =
            entries_size (table_entries T)
          have hkl : (T.getD idx bucket_init).key.length = key.length := by rw [hkeyidx]
          omega

/-! ## The engine invariant -/

/-- Structural invariant of a reachable engine state: both tables are
well-formed, the recorded counts match the array lengths, and no key is
present in both tables at once. -/
structure EngineInv (hash_key_0 hash_key_1 : Nat) (e : hash_engine) : Prop where
  newlen : e.bucket_count = e.hash_buckets.length
  newpos : 0 < e.bucket_count
  newInv : TableInv hash_key_0 hash_key_1 e.hash_buckets
  oldlen : ∀ old, e.old_buckets = some old → e.old_bucket_count = old.length
  oldpos : ∀ old, e.old_buckets = some old → 0 < old.length
  oldInv : ∀ old, e.old_buckets = some old → TableInv hash_key_0 hash_key_1 old
  cross : ∀ old, e.old_buckets = some old →
    ∀ k, occupiesKey e.hash_buckets k → ¬ occupiesKey old k

/-- Slots of the old array below the migration cursor have been drained. -/
def MigratedInv (e : hash_engine) : Prop :=
  ∀ old, e.old_buckets = some old → ∀ j, j < e.migrate_index → j < old.length →
    (old.getD j bucket_init).state ≠ BucketState.OCCUPIED

/-- The engine holds the live pair `(k, v)` in one of its tables. -/
def engine_has (e : hash_engine) (k v : List Nat) : Prop :=
  occupies e.hash_buckets k v ∨
    (∃ old, e.old_buckets = some old ∧ occupies old k v)

/-- Counter invariant: the `uint32_t` counters track the number of live
entries and the total payload size modulo `2^32`. -/
structure CounterInv (e : hash_engine) : Prop where
  item : e.item_count = (engine_entries e).length % U32
  mem : e.total_memory = payload_sum e % U32

section EngineFacts

variable {hash_key_0 hash_key_1 : Nat} {e : hash_engine}

theorem newbuckets_pos (hInv : EngineInv hash_key_0 hash_key_1 e) :
    0 < e.hash_buckets.length := hInv.newlen ▸ hInv.newpos

theorem lookup_new_iff (hInv : EngineInv hash_key_0 hash_key_1 e) (k v : List Nat) :
    lookup_in_table hash_key_0 hash_key_1 e.hash_buckets e.bucket_count k = some v ↔
      occupies e.hash_buckets k v := by
  rw [hInv.newlen, lookup_in_table_spec hash_key_0 hash_key_1 k (newbuckets_pos hInv)]
  exact lookup_spec_eq_some_iff hInv.newInv (newbuckets_pos hInv) k v

theorem lookup_new_none_iff (hInv : EngineInv hash_key_0 hash_key_1 e) (k : List Nat) :
    lookup_in_table hash_key_0 hash_key_1 e.hash_buckets e.bucket_count k = none ↔
      ¬ occupiesKey e.hash_buckets k := by
  rw [hInv.newlen, lookup_in_table_spec hash_key_0 hash_key_1 k (newbuckets_pos hInv)]
  exact lookup_spec_eq_none_iff hInv.newInv (newbuckets_pos hInv) k

theorem lookup_old_iff (hInv : EngineInv hash_key_0 hash_key_1 e)
    {old : List hash_bucket} (hold : e.old_buckets = some old) (k v : List Nat) :
    lookup_in_table hash_key_0 hash_key_1 old e.old_bucket_count k = some v ↔
      occupies old k v := by
  rw [hInv.oldlen old hold,
    lookup_in_table_spec hash_key_0 hash_key_1 k (hInv.oldpos old hold)]
  exact lookup_spec_eq_some_iff (hInv.oldInv old hold) (hInv.oldpos old hold) k v

theorem lookup_old_none_iff (hInv : EngineInv hash_key_0 hash_key_1 e)
    {old : List hash_bucket} (hold : e.old_buckets = some old) (k : List Nat) :
    lookup_in_table hash_key_0 hash_key_1 old e.old_bucket_count k = none ↔
      ¬ occupiesKey old k := by
  rw [hInv.oldlen old hold,
    lookup_in_table_spec hash_key_0 hash_key_1 k (hInv.oldpos old hold)]
  exact lookup_spec_eq_none_iff (hInv.oldInv old hold) (hInv.oldpos old hold) k

/-- Under the invariant, `liveValue` observes exactly the live entries. -/
theorem liveValue_iff (hInv : EngineInv hash_key_0 hash_key_1 e) (k v : List Nat) :
    liveValue hash_key_0 hash_key_1 e k = some v ↔ engine_has e k v := by
  rw [liveValue]
  constructor
  · intro hl
    rcases hnew : lookup_in_table hash_key_0 hash_key_1 e.hash_buckets e.bucket_count k
        with _ | v1
    · rw [hnew] at hl
      rcases hold : e.old_buckets with _ | old
      · rw [hold] at hl
        cases hl
      · rw [hold] at hl
        exact Or.inr ⟨old, hold, (lookup_old_iff hInv hold k v).mp hl⟩
    · rw [hnew] at hl
      cases hl
      exact Or.inl ((lookup_new_iff hInv k v).mp hnew)
  · intro hh
    rcases hh with hnew | ⟨old, hold, holdocc⟩
    · rw [(lookup_new_iff hInv k v).mpr hnew]
    · have hnotnew : ¬ occupiesKey e.hash_buckets k := fun hnk =>
        hInv.cross old hold k hnk ⟨v, holdocc⟩
      rw [(lookup_new_none_iff hInv k).mpr hnotnew, hold]
      exact (lookup_old_iff hInv hold k v).mpr holdocc

end EngineFacts

/-! ## Effects of migration steps -/

/-- `table_entries` of an array with no OCCUPIED slot is empty. -/
theorem table_entries_eq_nil {T : List hash_bucket}
    (h : ∀ j, j < T.length → (T.getD j bucket_init).state ≠ BucketState.OCCUPIED) :
    table_entries T = [] := by
  induction T with
  | nil => rfl
  | cons x l ih =>
    rw [table_entries_cons]
    have hx : x.state ≠ BucketState.OCCUPIED := by
      have := h 0 (Nat.succ_pos _)
      simpa using this
    rw [if_neg hx]
    refine ih ?_
    intro j hj
    have := h (j + 1) (by simpa using Nat.succ_lt_succ hj)
    simpa using this

theorem migrate_bucket_effects {hash_key_0 hash_key_1 : Nat} {e : hash_engine}
    (hInv : EngineInv hash_key_0 hash_key_1 e) (idx : Nat) (a : Alloc)
    {e' : hash_engine} {a' : Alloc}
    (hmb : migrate_bucket hash_key_0 hash_key_1 e idx a = (e', a')) :
    EngineInv hash_key_0 hash_key_1 e' ∧
    e'.bucket_count = e.bucket_count ∧
    e'.old_bucket_count = e.old_bucket_count ∧
    e'.migrate_index = e.migrate_index ∧
    e'.migrate_workers = e.migrate_workers ∧
    e'.item_count = e.item_count ∧
    e'.total_memory = e.total_memory ∧
    (e'.old_buckets = none ↔ e.old_buckets = none) ∧
    (∀ k v, occupies e.hash_buckets k v → occupies e'.hash_buckets k v) ∧
    (∀ old, e.old_buckets = some old → ∃ old', e'.old_buckets = some old' ∧
      old'.length = old.length ∧
      (old'.getD idx bucket_init).state ≠ BucketState.OCCUPIED ∧
      (∀ j, j ≠ idx → old'.getD j bucket_init = old.getD j bucket_init)) := by
  rw [migrate_bucket] at hmb
  rcases hst : bucket_state ((e.old_buckets.getD []).getD idx bucket_init) with _ | _ | _
  case EMPTY =>
    rw [hst] at hmb
    cases hmb
    refine ⟨hInv, rfl, rfl, rfl, rfl, rfl, rfl, Iff.rfl, fun k v h => h, ?_⟩
    intro old hold
    refine ⟨old, hold, rfl, ?_, fun j _ => rfl⟩
    rw [bucket_state, hold] at hst
    simp only [Option.getD_some] at hst
    rw [hst]
    intro hx
    cases hx
  case TOMBSTONE =>
    rw [hst] at hmb
    cases hmb
    refine ⟨hInv, rfl, rfl, rfl, rfl, rfl, rfl, Iff.rfl, fun k v h => h, ?_⟩
    intro old hold
    refine ⟨old, hold, rfl, ?_, fun j _ => rfl⟩
    rw [bucket_state, hold] at hst
    simp only [Option.getD_some] at hst
    rw [hst]
    intro hx
    cases hx
  case OCCUPIED =>
    rw [hst] at hmb
    rcases hold : e.old_buckets with _ | old
    · rw [bucket_state, hold] at hst
      simp only [Option.getD_none] at hst
      have : (([] : List hash_bucket).getD idx bucket_init).state = BucketState.EMPTY := rfl
      rw [this] at hst
      cases hst
    · rw [bucket_state, hold] at hst
      simp only [Option.getD_some] at hst
      have hidxlt : idx < old.length := by
        by_contra hge
        rw [List.getD_eq_getElem?_getD, List.getElem?_eq_none (Nat.le_of_not_lt hge)]
          at hst
        cases hst
      rw [hold] at hmb
      simp only [Option.getD_some] at hmb
      set K := (old.getD idx bucket_init).key with hK
      set V := (old.getD idx bucket_init).value with hV
      have hoccold : occupies old K V := ⟨idx, hidxlt, hst, rfl, rfl⟩
      have hnold : 0 < old.length := Nat.lt_of_le_of_lt (Nat.zero_le idx) hidxlt
      set r := insert_into_table hash_key_0 hash_key_1 e.hash_buckets e.bucket_count
        K V a with hr
      have hrT : insert_into_table hash_key_0 hash_key_1 e.hash_buckets
          e.hash_buckets.length K V a = r := by rw [hr, hInv.newlen]
      have hOldInv := hInv.oldInv old hold
      have hOldTomb : TableInv hash_key_0 hash_key_1
          (old.set idx bucket_make_tombstone_unlocked) :=
        TableInv_set_tomb hOldInv hidxlt
      have hOld'len : (old.set idx bucket_make_tombstone_unlocked).length = old.length :=
        List.length_set old _ _
      have hnoKold' : ∀ k, occupiesKey (old.set idx bucket_make_tombstone_unlocked) k →
          occupiesKey old k ∧ k ≠ K := by
        rintro k ⟨v', j', hj', ho', hkey', hval'⟩
        rw [hOld'len] at hj'
        by_cases hjj : j' = idx
        · subst hjj
          rw [getD_set_self hidxlt] at ho'
          cases ho'
        · rw [getD_set_ne (fun hx => hjj hx.symm)] at ho' hkey' hval'
          refine ⟨⟨v', j', hj', ho', hkey', hval'⟩, ?_⟩
          intro hkK
          exact hjj (hOldInv.uniq hj' hidxlt ho' hst (by rw [hkey', hkK, hK]))
      by_cases hrc : r.rc = 0
      · obtain ⟨hTInv, hTlen, hoccKV, hothers, hnewtrue, hnewfalse⟩ :=
          insert_into_table_ok hInv.newInv (newbuckets_pos hInv) K V a hrT hrc
        cases hmb
        refine ⟨?_, rfl, rfl, rfl, rfl, rfl, rfl, by simp, ?_, ?_⟩
        · refine ⟨by simpa [hTlen] using hInv.newlen, hInv.newpos, hTInv, ?_, ?_, ?_, ?_⟩
          · intro old1 hold1
            cases hold1
            rw [hOld'len]
            exact hInv.oldlen old hold
          · intro old1 hold1
            cases hold1
            rw [hOld'len]
            exact hnold
          · intro old1 hold1
            cases hold1
            exact hOldTomb
          · intro old1 hold1
            cases hold1
            intro k hknew hkold'
            obtain ⟨hkold, hkK⟩ := hnoKold' k hkold'
            obtain ⟨v, hv⟩ := hknew
            have : occupies e.hash_buckets k v := (hothers k v hkK).mp hv
            exact hInv.cross old hold k ⟨v, this⟩ hkold
        · intro k v hkv
          have hkK : k ≠ K := fun hkk =>
            hInv.cross old hold k ⟨v, hkv⟩ ⟨V, by rw [hkk]; exact hoccold⟩
          exact (hothers k v hkK).mpr hkv
        · intro old1 hold1
          cases hold1
          refine ⟨old.set idx bucket_make_tombstone_unlocked, rfl, hOld'len, ?_, ?_⟩
          · rw [getD_set_self hidxlt]
            intro hx
            cases hx
          · intro j hj
            exact getD_set_ne (fun hx => hj hx.symm) _
      · obtain ⟨hbuck, _⟩ := insert_into_table_fail (newbuckets_pos hInv) K V a hrT hrc
        cases hmb
        refine ⟨?_, rfl, rfl, rfl, rfl, rfl, rfl, by simp, ?_, ?_⟩
        · refine ⟨by simpa [hbuck] using hInv.newlen, hInv.newpos,
            by rw [hbuck]; exact hInv.newInv, ?_, ?_, ?_, ?_⟩
          · intro old1 hold1
            cases hold1
            rw [hOld'len]
            exact hInv.oldlen old hold
          · intro old1 hold1
            cases hold1
            rw [hOld'len]
            exact hnold
          · intro old1 hold1
            cases hold1
            exact hOldTomb
          · intro old1 hold1
            cases hold1
            intro k hknew hkold'
            rw [hbuck] at hknew
            exact hInv.cross old hold k hknew (hnoKold' k hkold').1
        · intro k v hkv
          rw [hbuck]
          exact hkv
        · intro old1 hold1
          cases hold1
          refine ⟨old.set idx bucket_make_tombstone_unlocked, rfl, hOld'len, ?_, ?_⟩
          · rw [getD_set_self hidxlt]
            intro hx
            cases hx
          · intro j hj
            exact getD_set_ne (fun hx => hj hx.symm) _

theorem EngineInv_congr {hash_key_0 hash_key_1 : Nat} {e e' : hash_engine}
    (h1 : e'.hash_buckets = e.hash_buckets) (h2 : e'.bucket_count = e.bucket_count)
    (h3 : e'.old_buckets = e.old_buckets) (h4 : e'.old_bucket_count = e.old_bucket_count)
    (hInv : EngineInv hash_key_0 hash_key_1 e) : EngineInv hash_key_0 hash_key_1 e' := by
  refine ⟨?_, ?_, ?_, ?_, ?_, ?_, ?_⟩
  · rw [h1, h2]
    exact hInv.newlen
  · rw [h2]
    exact hInv.newpos
  · rw [h1]
    exact hInv.newInv
  · intro old hold
    rw [h3] at hold
    rw [h4]
    exact hInv.oldlen old hold
  · intro old hold
    rw [h3] at hold
    exact hInv.oldpos old hold
  · intro old hold
    rw [h3] at hold
    exact hInv.oldInv old hold
  · intro old hold
    rw [h3] at hold
    rw [h1]
    exact hInv.cross old hold

/-- The invariant ignores the migration cursor and worker counter. -/
theorem EngineInv_mw {hash_key_0 hash_key_1 : Nat} {e : hash_engine} (i w : Nat)
    (hInv : EngineInv hash_key_0 hash_key_1 e) :
    EngineInv hash_key_0 hash_key_1
      { e with migrate_index := i, migrate_workers := w } :=
  ⟨hInv.newlen, hInv.newpos, hInv.newInv, hInv.oldlen, hInv.oldpos, hInv.oldInv,
    hInv.cross⟩

theorem MigratedInv_workers {e : hash_engine} (w : Nat) (hM : MigratedInv e) :
    MigratedInv { e with migrate_workers := w } :=
  fun old hold j hj hjl => hM old hold j hj hjl

theorem finish_resize_facts {hash_key_0 hash_key_1 : Nat} {e : hash_engine}
    (hInv : EngineInv hash_key_0 hash_key_1 e) (hMig : MigratedInv e) :
    EngineInv hash_key_0 hash_key_1 (finish_resize e) ∧
    MigratedInv (finish_resize e) ∧
    (finish_resize e).hash_buckets = e.hash_buckets ∧
    (finish_resize e).bucket_count = e.bucket_count ∧
    (finish_resize e).item_count = e.item_count ∧
    (finish_resize e).total_memory = e.total_memory ∧
    (finish_resize e).migrate_workers = e.migrate_workers := by
  rw [finish_resize]
  rcases hold : e.old_buckets with _ | old
  · exact ⟨hInv, hMig, rfl, rfl, rfl, rfl, rfl⟩
  · by_cases hw : 0 < e.migrate_workers
    · rw [if_pos hw]
      exact ⟨hInv, hMig, rfl, rfl, rfl, rfl, rfl⟩
    · rw [if_neg hw]
      refine ⟨?_, ?_, rfl, rfl, rfl, rfl, rfl⟩
      · refine ⟨hInv.newlen, hInv.newpos, hInv.newInv, ?_, ?_, ?_, ?_⟩ <;>
          intro old1 hold1 <;> cases hold1
      · intro old1 hold1
        cases hold1

theorem migrate_work_loop_effects {hash_key_0 hash_key_1 : Nat} (old_count : Nat) :
    ∀ (count : Nat) (e : hash_engine) (a : Alloc),
      EngineInv hash_key_0 hash_key_1 e → MigratedInv e →
      (∀ old, e.old_buckets = some old → old.length ≤ old_count) →
      (let r := migrate_work_loop hash_key_0 hash_key_1 old_count e count a
       EngineInv hash_key_0 hash_key_1 r.1 ∧ MigratedInv r.1 ∧
       r.1.hash_buckets.length = e.hash_buckets.length ∧
       r.1.bucket_count = e.bucket_count ∧
       r.1.item_count = e.item_count ∧
       r.1.total_memory = e.total_memory ∧
       r.1.migrate_workers = e.migrate_workers - 1 ∧
       (∀ k v, occupies e.hash_buckets k v → occupies r.1.hash_buckets k v)) := by
  intro count
  induction count with
  | zero =>
    intro e a hInv hMig hoc
    rw [migrate_work_loop]
    exact ⟨EngineInv_mw _ _ hInv, MigratedInv_workers _ hMig,
      rfl, rfl, rfl, rfl, rfl, fun k v h => h⟩
  | succ count ih =>
    intro e a hInv hMig hoc
    rw [migrate_work_loop]
    by_cases hidx : old_count ≤ e.migrate_index
    · rw [if_pos hidx]
      set e1 : hash_engine :=
        { e with migrate_index := (e.migrate_index + 1) % U32,
                 migrate_workers := e.migrate_workers - 1 } with he1
      have hInv1 : EngineInv hash_key_0 hash_key_1 e1 := EngineInv_mw _ _ hInv
      have hMig1 : MigratedInv e1 := by
        intro old hold j hj hjl
        have hlen := hoc old hold
        exact hMig old hold j (by omega) hjl
      obtain ⟨h1, h2, h3, h4, h5, h6, h7⟩ := finish_resize_facts hInv1 hMig1
      exact ⟨h1, h2, by rw [h3], h4, h5, h6, h7, fun k v h => by rw [h3]; exact h⟩
    · rw [if_neg hidx]
      set e1 : hash_engine :=
        { e with migrate_index := (e.migrate_index + 1) % U32 } with he1
      have hInv1 : EngineInv hash_key_0 hash_key_1 e1 := by
        have := EngineInv_mw ((e.migrate_index + 1) % U32) e.migrate_workers hInv
        exact this
      rcases hmb : migrate_bucket hash_key_0 hash_key_1 e1 e.migrate_index a
        with ⟨e2, a2⟩
      obtain ⟨hInv2, hbc2, hobc2, hmi2, hmw2, hic2, htm2, holdn2, hocc2, hold2⟩ :=
        migrate_bucket_effects hInv1 e.migrate_index a hmb
      have hMig2 : MigratedInv e2 := by
        intro old2 hold2' j hj hjl
        rcases holdcase : e.old_buckets with _ | old
        · have h1n : e1.old_buckets = none := holdcase
          have h2n : e2.old_buckets = none := holdn2.mpr h1n
          rw [hold2'] at h2n
          cases h2n
        · obtain ⟨old', holdeq, hlen', hidxtomb, hpres⟩ := hold2 old holdcase
          rw [hold2'] at holdeq
          cases holdeq
          rw [hmi2] at hj
          have hj1 : j < (e.migrate_index + 1) % U32 := hj
          have hle : (e.migrate_index + 1) % U32 ≤ e.migrate_index + 1 := Nat.mod_le _ _
          by_cases hje : j = e.migrate_index
          · subst hje
            exact hidxtomb
          · rw [hpres j hje]
            rw [hlen'] at hjl
            exact hMig old holdcase j (by omega) hjl
      have hoc2 : ∀ old2', e2.old_buckets = some old2' → old2'.length ≤ old_count := by
        intro old2' hold2'
        rcases holdcase : e.old_buckets with _ | old
        · have h1n : e1.old_buckets = none := holdcase
          have h2n : e2.old_buckets = none := holdn2.mpr h1n
          rw [hold2'] at h2n
          cases h2n
        · obtain ⟨old', holdeq, hlen', _, _⟩ := hold2 old holdcase
          rw [hold2'] at holdeq
          cases holdeq
          rw [hlen']
          exact hoc old holdcase
      obtain ⟨i1, i2, i3, i4, i5, i6, i7, i8⟩ := ih e2 a2 hInv2 hMig2 hoc2
      have hlen12 : e2.hash_buckets.length = e.hash_buckets.length := by
        have hn1 := hInv2.newlen
        have hn2 := hInv1.newlen
        rw [← hn1, ← hn2, hbc2]
      refine ⟨i1, i2, by rw [i3, hlen12], by rw [i4, hbc2], by rw [i5, hic2],
        by rw [i6, htm2], by rw [i7, hmw2], ?_⟩
      intro k v h
      exact i8 k v (hocc2 k v h)

theorem migrate_some_effects {hash_key_0 hash_key_1 : Nat} {e : hash_engine}
    (hInv : EngineInv hash_key_0 hash_key_1 e) (hMig : MigratedInv e)
    (count : Nat) (a : Alloc) :
    (let r := migrate_some_buckets hash_key_0 hash_key_1 e count a
     EngineInv hash_key_0 hash_key_1 r.1 ∧ MigratedInv r.1 ∧
     r.1.hash_buckets.length = e.hash_buckets.length ∧
     r.1.bucket_count = e.bucket_count ∧
     r.1.item_count = e.item_count ∧
     r.1.total_memory = e.total_memory ∧
     r.1.migrate_workers = e.migrate_workers ∧
     (∀ k v, occupies e.hash_buckets k v → occupies r.1.hash_buckets k v)) := by
  rcases hold : e.old_buckets with _ | old
  · have hred : migrate_some_buckets hash_key_0 hash_key_1 e count a
        = ({ e with old_buckets := none,
                    migrate_workers := e.migrate_workers + 1 - 1 }, a) := by
      simp only [migrate_some_buckets, hold]
    rw [hred]
    have hI : EngineInv hash_key_0 hash_key_1
        ({ e with old_buckets := none,
                  migrate_workers := e.migrate_workers + 1 - 1 } : hash_engine) := by
      refine EngineInv_congr ?_ ?_ ?_ ?_ hInv
      · rfl
      · rfl
      · exact hold.symm
      · rfl
    have hM : MigratedInv
        ({ e with old_buckets := none,
                  migrate_workers := e.migrate_workers + 1 - 1 } : hash_engine) := by
      intro old1 h1 j hj hjl
      exact Option.noConfusion h1
    exact ⟨hI, hM, rfl, rfl, rfl, rfl, rfl, fun k v h => h⟩
  · set e1 : hash_engine :=
      { e with old_buckets := some old,
               migrate_workers := e.migrate_workers + 1 } with he1
    have hred : migrate_some_buckets hash_key_0 hash_key_1 e count a
        = migrate_work_loop hash_key_0 hash_key_1 e.old_bucket_count e1 count a := by
      rw [he1]
      simp only [migrate_some_buckets, hold]
    rw [hred]
    have holde1 : e1.old_buckets = some old := rfl
    have hInv1 : EngineInv hash_key_0 hash_key_1 e1 := by
      refine EngineInv_congr ?_ ?_ ?_ ?_ hInv
      · rfl
      · rfl
      · exact hold.symm
      · rfl
    have hMig1 : MigratedInv e1 := by
      intro old1 h1 j hj hjl
      rw [holde1] at h1
      cases h1
      exact hMig old hold j hj hjl
    have hoc1 : ∀ old1, e1.old_buckets = some old1 →
        old1.length ≤ e.old_bucket_count := by
      intro old1 h1
      rw [holde1] at h1
      cases h1
      rw [hInv.oldlen old hold]
    obtain ⟨i1, i2, i3, i4, i5, i6, i7, i8⟩ :=
      migrate_work_loop_effects e.old_bucket_count count e1 a hInv1 hMig1 hoc1
    exact ⟨i1, i2, i3, i4, i5, i6, i7, i8⟩

/-! ## Effects of starting a resize epoch -/

theorem not_occupiesKey_replicate (n : Nat) (k : List Nat) :
    ¬ occupiesKey (List.replicate n bucket_init) k := by
  rintro ⟨v, j, hj, hst, -⟩
  rw [List.getD_eq_getElem?_getD, List.getElem?_replicate] at hst
  simp only [List.length_replicate] at hj
  simp [hj, bucket_init] at hst

theorem table_entries_replicate (n : Nat) :
    table_entries (List.replicate n bucket_init) = [] := by
  refine table_entries_eq_nil ?_
  intro j hj
  rw [List.getD_eq_getElem?_getD, List.getElem?_replicate]
  simp only [List.length_replicate] at hj
  simp [hj, bucket_init]

theorem start_resize_facts {hash_key_0 hash_key_1 : Nat} {e : hash_engine}
    (hInv : EngineInv hash_key_0 hash_key_1 e) (hMig : MigratedInv e)
    (n : Nat) (a : Alloc) :
    (let r := hash_engine_start_resize e n a
     EngineInv hash_key_0 hash_key_1 r.2.1 ∧ MigratedInv r.2.1 ∧
     r.2.1.item_count = e.item_count ∧
     r.2.1.total_memory = e.total_memory ∧
     r.2.1.migrate_workers = e.migrate_workers ∧
     (engine_entries r.2.1).length = (engine_entries e).length ∧
     payload_sum r.2.1 = payload_sum e ∧
     (∀ k v, engine_has r.2.1 k v ↔ engine_has e k v) ∧
     (r.2.1.bucket_count = e.bucket_count ∨
       (r.2.1.bucket_count = n ∧ MIN_BUCKET_COUNT ≤ n ∧ n ≤ MAX_BUCKET_COUNT))) := by
  rw [hash_engine_start_resize]
  by_cases h1 : e.old_buckets.isSome
  · rw [if_pos h1]
    exact ⟨hInv, hMig, rfl, rfl, rfl, rfl, rfl, fun k v => Iff.rfl, Or.inl rfl⟩
  · rw [if_neg h1]
    have hnone : e.old_buckets = none := Option.not_isSome_iff_eq_none.mp h1
    by_cases h2 : n < MIN_BUCKET_COUNT ∨ MAX_BUCKET_COUNT < n
    · rw [if_pos h2]
      exact ⟨hInv, hMig, rfl, rfl, rfl, rfl, rfl, fun k v => Iff.rfl, Or.inl rfl⟩
    · rw [if_neg h2]
      by_cases h3 : e.bucket_count < n ∧ ¬needs_grow e
      · rw [if_pos h3]
        exact ⟨hInv, hMig, rfl, rfl, rfl, rfl, rfl, fun k v => Iff.rfl, Or.inl rfl⟩
      · rw [if_neg h3]
        by_cases h4 : ¬(e.bucket_count < n) ∧ ¬needs_shrink e
        · rw [if_pos h4]
          exact ⟨hInv, hMig, rfl, rfl, rfl, rfl, rfl, fun k v => Iff.rfl, Or.inl rfl⟩
        · rw [if_neg h4]
          rcases hm : malloc a with ⟨ok, a1⟩
          cases ok
          · exact ⟨hInv, hMig, rfl, rfl, rfl, rfl, rfl, fun k v => Iff.rfl, Or.inl rfl⟩
          · have hbounds : MIN_BUCKET_COUNT ≤ n ∧ n ≤ MAX_BUCKET_COUNT := by
              push_neg at h2
              exact ⟨h2.1, h2.2⟩
            have hnpos : 0 < n := by
              have := hbounds.1
              rw [MIN_BUCKET_COUNT] at this
              omega
            set e' : hash_engine :=
              { e with
                  old_buckets := some e.hash_buckets,
                  old_bucket_count := e.bucket_count,
                  migrate_index := 0,
                  hash_buckets := List.replicate n bucket_init,
                  bucket_count := n } with he'
            have hInv' : EngineInv hash_key_0 hash_key_1 e' := by
              refine ⟨?_, ?_, ?_, ?_, ?_, ?_, ?_⟩
              · show n = (List.replicate n bucket_init).length
                rw [List.length_replicate]
              · exact hnpos
              · exact TableInv_replicate hash_key_0 hash_key_1 n
              · intro old hold
                have hold' : some e.hash_buckets = some old := hold
                cases hold'
                exact hInv.newlen
              · intro old hold
                have hold' : some e.hash_buckets = some old := hold
                cases hold'
                exact newbuckets_pos hInv
              · intro old hold
                have hold' : some e.hash_buckets = some old := hold
                cases hold'
                exact hInv.newInv
              · intro old hold k hk
                exact absurd hk (not_occupiesKey_replicate n k)
            have hMig' : MigratedInv e' := by
              intro old hold j hj hjl
              exact absurd hj (Nat.not_lt_zero j)
            have hent' : engine_entries e' = table_entries e.hash_buckets := by
              show table_entries (List.replicate n bucket_init) ++
                  table_entries e.hash_buckets = table_entries e.hash_buckets
              rw [table_entries_replicate, List.nil_append]
            have hent : engine_entries e = table_entries e.hash_buckets := by
              rw [engine_entries, hnone]
              show table_entries e.hash_buckets ++ table_entries [] = _
              rw [table_entries_nil, List.append_nil]
            refine ⟨hInv', hMig', rfl, rfl, rfl, ?_, ?_, ?_, Or.inr ⟨rfl, hbounds⟩⟩
            · show (engine_entries e').length = (engine_entries e).length
              rw [hent', hent]
            · show payload_sum e' = payload_sum e
              rw [payload_sum, payload_sum, hent', hent]
            · intro k v
              show engine_has e' k v ↔ engine_has e k v
              constructor
              · rintro (hnew | ⟨old, hold, holdocc⟩)
                · exact absurd ⟨v, hnew⟩ (not_occupiesKey_replicate n k)
                · have hold' : some e.hash_buckets = some old := hold
                  cases hold'
                  exact Or.inl holdocc
              · rintro (hnew | ⟨old, hold, holdocc⟩)
                · exact Or.inr ⟨e.hash_buckets, rfl, hnew⟩
                · rw [hnone] at hold
                  cases hold

/-! ## Engine-level helper facts -/

/-- With no old array, a migration step only bumps the worker counter up and
back down: the engine is returned unchanged. -/
theorem migrate_none {hash_key_0 hash_key_1 : Nat} {e : hash_engine}
    (hnone : e.old_buckets = none) (count : Nat) (a : Alloc) :
    migrate_some_buckets hash_key_0 hash_key_1 e count a = (e, a) := by
  rcases e with ⟨hb, bc, ic, tm, ob, obc, mi, mw⟩
  simp only at hnone
  subst hnone
  simp [migrate_some_buckets]

theorem u32add_mod (x y : Nat) : u32add (x % U32) (y % U32) = (x + y) % U32 := by
  rw [u32add, Nat.mod_add_mod, Nat.add_mod_mod]

theorem u32sub_mod {x y : Nat} (h : y ≤ x) :
    u32sub (x % U32) (y % U32) = (x - y) % U32 := by
  rw [u32sub, U32] at *
  omega

theorem u32add_one (x : Nat) : u32add (x % U32) 1 = (x + 1) % U32 := by
  rw [u32add, Nat.mod_add_mod]

theorem u32sub_one {x : Nat} (h : 1 ≤ x) :
    u32sub (x % U32) 1 = (x - 1) % U32 := by
  rw [u32sub, U32] at *
  omega

/-- `delete_from_table` either leaves the array alone or tombstones one
slot. -/
theorem delete_from_table_buckets_cases (hash_key_0 hash_key_1 : Nat)
    {T : List hash_bucket} (hn : 0 < T.length) (key : List Nat) :
    (delete_from_table hash_key_0 hash_key_1 T T.length key).buckets = T ∨
      ∃ idx, idx < T.length ∧
        (delete_from_table hash_key_0 hash_key_1 T T.length key).buckets =
          T.set idx bucket_make_tombstone_unlocked := by
  rw [delete_from_table_spec hash_key_0 hash_key_1 key]
  rcases hdsp : delete_spec_pos key
      (chain T (compute_hash hash_key_0 hash_key_1 key T.length)) with _ | p
  · exact Or.inl rfl
  · exact Or.inr ⟨_, Nat.mod_lt _ hn, rfl⟩

/-- A tombstoning step never creates an OCCUPIED slot. -/
theorem set_tombstone_not_occupied {T : List hash_bucket} {idx j : Nat}
    (hocc : ((T.set idx bucket_make_tombstone_unlocked).getD j bucket_init).state =
      BucketState.OCCUPIED) :
    (T.getD j bucket_init).state = BucketState.OCCUPIED := by
  by_cases hje : j = idx
  · subst hje
    by_cases hj : j < T.length
    · rw [getD_set_self hj] at hocc
      cases hocc
    · exfalso
      have hlen : (T.set j bucket_make_tombstone_unlocked).length ≤ j := by
        rw [List.length_set]
        omega
      rw [List.getD_eq_getElem?_getD, List.getElem?_eq_none hlen] at hocc
      simp [bucket_init] at hocc
  · rwa [getD_set_ne (fun hx => hje hx.symm)] at hocc

/-- `engine_entries` unfolded. -/
theorem engine_entries_def (e : hash_engine) :
    engine_entries e =
      table_entries e.hash_buckets ++ table_entries (e.old_buckets.getD []) := rfl

/-- An engine with no entries and zeroed counters satisfies `CounterInv`. -/
theorem CounterInv_of_empty {e : hash_engine} (h1 : engine_entries e = [])
    (h2 : e.item_count = 0) (h3 : e.total_memory = 0) : CounterInv e := by
  constructor
  · rw [h2, h1]
    rfl
  · rw [h3, payload_sum, h1]
    rfl

/-- A successful `hash_engine_init` establishes all the invariants, with the
requested bucket count installed verbatim. -/
theorem hash_engine_init_facts {hash_key_0 hash_key_1 : Nat} {n : Nat} {a : Alloc}
    (hrc : (hash_engine_init n a).1 = 0) :
    (let e := (hash_engine_init n a).2.1
     EngineInv hash_key_0 hash_key_1 e ∧ MigratedInv e ∧ CounterInv e ∧
     e.bucket_count = n ∧ engine_entries e = [] ∧
     (∀ k, ¬ occupiesKey e.hash_buckets k)) := by
  rw [hash_engine_init] at hrc ⊢
  by_cases h0 : n = 0
  · rw [if_pos h0] at hrc
    have : (-EINVAL : Int) = 0 := hrc
    exact absurd this (by decide)
  · rw [if_neg h0] at hrc ⊢
    rcases hm : malloc a with ⟨ok, a1⟩
    rw [hm] at hrc
    cases ok
    · have : (-ENOMEM : Int) = 0 := hrc
      exact absurd this (by decide)
    · refine ⟨?_, ?_, ?_, rfl, ?_, ?_⟩
      · refine ⟨?_, ?_, ?_, ?_, ?_, ?_, ?_⟩
        · show n = (List.replicate n bucket_init).length
          rw [List.length_replicate]
        · exact Nat.pos_of_ne_zero h0
        · exact TableInv_replicate hash_key_0 hash_key_1 n
        all_goals intro old hold; cases hold
      · intro old hold j hj hjl
        cases hold
      · refine CounterInv_of_empty ?_ rfl rfl
        show table_entries (List.replicate n bucket_init) ++ table_entries [] = []
        rw [table_entries_replicate, table_entries_nil]
        rfl
      · show table_entries (List.replicate n bucket_init) ++ table_entries [] = []
        rw [table_entries_replicate, table_entries_nil]
        rfl
      · intro k
        exact not_occupiesKey_replicate n k

/-- The migration step performed by one operation is lossless: every live
entry survives it and the entry count and payload sum are unchanged. This is
what the specification asserts of migration; the code does not guarantee it
(the insert return code is discarded in `migrate_bucket`). -/
def migrate_ok (hash_key_0 hash_key_1 : Nat) (e : hash_engine) (count : Nat)
    (a : Alloc) : Prop :=
  (∀ k v, engine_has e k v →
    engine_has (migrate_some_buckets hash_key_0 hash_key_1 e count a).1 k v) ∧
  (engine_entries (migrate_some_buckets hash_key_0 hash_key_1 e count a).1).length =
    (engine_entries e).length ∧
  payload_sum (migrate_some_buckets hash_key_0 hash_key_1 e count a).1 =
    payload_sum e

/-- With no old array the migration step is trivially lossless. -/
theorem migrate_ok_of_none {hash_key_0 hash_key_1 : Nat} {e : hash_engine}
    (hnone : e.old_buckets = none) (count : Nat) (a : Alloc) :
    migrate_ok hash_key_0 hash_key_1 e count a := by
  rw [migrate_ok, migrate_none hnone]
  exact ⟨fun k v h => h, rfl, rfl⟩

/-! ## Effects of `hash_get` -/

theorem hash_get_effects {hash_key_0 hash_key_1 : Nat} {e : hash_engine}
    {K : List Nat} (a : Alloc)
    (hInv : EngineInv hash_key_0 hash_key_1 e) (hMig : MigratedInv e)
    (hK : ¬ K.length = 0) :
    (let r := hash_get hash_key_0 hash_key_1 e K a
     EngineInv hash_key_0 hash_key_1 r.2.2.1 ∧ MigratedInv r.2.2.1 ∧
     r.2.2.1.item_count = e.item_count ∧
     r.2.2.1.total_memory = e.total_memory ∧
     r.2.2.1.bucket_count = e.bucket_count ∧
     (∀ v, occupies e.hash_buckets K v → r.1 = 0 ∧ r.2.1 = some v)) := by
  rcases hmg : migrate_some_buckets hash_key_0 hash_key_1 e MIGRATE_BATCH_SIZE a
    with ⟨e2, a2⟩
  have hms := migrate_some_effects hInv hMig MIGRATE_BATCH_SIZE a
  rw [hmg] at hms
  obtain ⟨hInv2, hMig2, hlen2, hbc2, hic2, htm2, hmw2, hocc2⟩ := hms
  have hfind : ∀ v, occupies e.hash_buckets K v →
      lookup_in_table hash_key_0 hash_key_1 e2.hash_buckets e2.bucket_count K =
        some v := by
    intro v hocc
    exact (lookup_new_iff hInv2 K v).mpr (hocc2 K v hocc)
  have hget1 : (hash_get hash_key_0 hash_key_1 e K a).2.2.1 = e2 := by
    rw [hash_get, if_neg hK, hmg]
    show (match lookup_in_table hash_key_0 hash_key_1 e2.hash_buckets
        e2.bucket_count K with
      | some v => ((0 : Int), some v, e2, a2)
      | none =>
        match e2.old_buckets with
        | some old =>
          match lookup_in_table hash_key_0 hash_key_1 old e2.old_bucket_count K with
          | some v => ((0 : Int), some v, e2, a2)
          | none => (-ENOENT, none, e2, a2)
        | none => (-ENOENT, none, e2, a2)).2.2.1 = e2
    rcases hlk : lookup_in_table hash_key_0 hash_key_1 e2.hash_buckets
        e2.bucket_count K with _ | v0
    · rcases hold2 : e2.old_buckets with _ | old2
      · rfl
      · show (match lookup_in_table hash_key_0 hash_key_1 old2
            e2.old_bucket_count K with
          | some v => ((0 : Int), some v, e2, a2)
          | none => (-ENOENT, none, e2, a2)).2.2.1 = e2
        rcases hlk2 : lookup_in_table hash_key_0 hash_key_1 old2
            e2.old_bucket_count K with _ | v1
        · rfl
        · rfl
    · rfl
  have hget2 : ∀ v, occupies e.hash_buckets K v →
      hash_get hash_key_0 hash_key_1 e K a = (0, some v, e2, a2) := by
    intro v hocc
    rw [hash_get, if_neg hK, hmg]
    show (match lookup_in_table hash_key_0 hash_key_1 e2.hash_buckets
        e2.bucket_count K with
      | some v => ((0 : Int), some v, e2, a2)
      | none =>
        match e2.old_buckets with
        | some old =>
          match lookup_in_table hash_key_0 hash_key_1 old e2.old_bucket_count K with
          | some v => ((0 : Int), some v, e2, a2)
          | none => (-ENOENT, none, e2, a2)
        | none => (-ENOENT, none, e2, a2)) = (0, some v, e2, a2)
    rw [hfind v hocc]
  refine ⟨?_, ?_, ?_, ?_, ?_, ?_⟩
  · rw [hget1]
    exact hInv2
  · rw [hget1]
    exact hMig2
  · rw [hget1]
    exact hic2
  · rw [hget1]
    exact htm2
  · rw [hget1]
    exact hbc2
  · intro v hocc
    rw [hget2 v hocc]
    exact ⟨rfl, rfl⟩

/-! ## Staged views of `hash_put` and `hash_delete`

`hash_put` and `hash_delete` are sequences of self-contained phases. The
following definitions name the phases verbatim (they are the corresponding
sub-terms of the two function bodies), and the two `rfl` equations record
that the staged composition is literally the original definition. -/

/-- The grow phase of `hash_put` (lines 556-563). -/
def put_grow_step (e : hash_engine) (a : Alloc) : hash_engine × Alloc :=
  if needs_grow e then
    let new_size := e.bucket_count * 2 % U32
    if new_size ≤ MAX_BUCKET_COUNT then
      let r := hash_engine_start_resize e new_size a
      (r.2.1, r.2.2)
    else (e, a)
  else (e, a)

/-- The old-table delete phase shared by `hash_put` (lines 565-571) and
`hash_delete` (lines 617-625): drop `key` from the old array if present,
reporting whether it was and its released sizes. -/
def old_table_delete (hash_key_0 hash_key_1 : Nat) (e : hash_engine)
    (key : List Nat) : hash_engine × Bool × Nat × Nat :=
  match e.old_buckets with
  | some old =>
    let dr := delete_from_table hash_key_0 hash_key_1 old e.old_bucket_count key
    if dr.rc = 0 then
      ({ e with old_buckets := some dr.buckets }, true,
        dr.deleted_key_len, dr.deleted_value_len)
    else ({ e with old_buckets := some dr.buckets }, false, 0, 0)
  | none => (e, false, 0, 0)

/-- The counter-update phase of a successful `hash_put` (lines 573-592). -/
def put_counter_update (e : hash_engine) (r : insert_result)
    (key value : List Nat) (existed_in_old : Bool)
    (old_tbl_key_len old_tbl_value_len : Nat) : hash_engine :=
  if r.is_new ∧ ¬existed_in_old then
    { e with
        item_count := u32add e.item_count 1,
        total_memory :=
          u32add e.total_memory ((key.length + value.length) % U32) }
  else if existed_in_old then
    { e with
        total_memory :=
          u32add
            (u32sub e.total_memory
              ((old_tbl_key_len + old_tbl_value_len) % U32))
            ((key.length + value.length) % U32) }
  else
    if r.old_value_len < value.length then
      { e with
          total_memory :=
            u32add e.total_memory ((value.length - r.old_value_len) % U32) }
    else if value.length < r.old_value_len then
      { e with
          total_memory :=
            u32sub e.total_memory ((r.old_value_len - value.length) % U32) }
    else e

/-- The shrink phase of `hash_delete` (lines 643-650). -/
def shrink_step (e : hash_engine) (a : Alloc) : hash_engine × Alloc :=
  if needs_shrink e then
    let new_size := e.bucket_count / 2
    if MIN_BUCKET_COUNT ≤ new_size then
      let r := hash_engine_start_resize e new_size a
      (r.2.1, r.2.2)
    else (e, a)
  else (e, a)

/-- `hash_put` is the staged composition. -/
theorem hash_put_staged (hash_key_0 hash_key_1 : Nat) (e : hash_engine)
    (key value : List Nat) (a : Alloc) :
    hash_put hash_key_0 hash_key_1 e key value a =
      (if key.length = 0 ∨ value.length = 0 then (-EINVAL, e, a)
       else
        let p1 := migrate_some_buckets hash_key_0 hash_key_1 e MIGRATE_BATCH_SIZE a
        let p2 := put_grow_step p1.1 p1.2
        let q := old_table_delete hash_key_0 hash_key_1 p2.1 key
        let r := insert_into_table hash_key_0 hash_key_1 q.1.hash_buckets
          q.1.bucket_count key value p2.2
        let e5 := { q.1 with hash_buckets := r.buckets }
        if r.rc ≠ 0 then (r.rc, e5, r.alloc)
        else (0, put_counter_update e5 r key value q.2.1 q.2.2.1 q.2.2.2,
          r.alloc)) := rfl

/-- `hash_delete` is the staged composition. -/
theorem hash_delete_staged (hash_key_0 hash_key_1 : Nat) (e : hash_engine)
    (key : List Nat) (a : Alloc) :
    hash_delete hash_key_0 hash_key_1 e key a =
      (if key.length = 0 then (-EINVAL, e, a)
       else
        let p1 := migrate_some_buckets hash_key_0 hash_key_1 e MIGRATE_BATCH_SIZE a
        let q := old_table_delete hash_key_0 hash_key_1 p1.1 key
        let dr := delete_from_table hash_key_0 hash_key_1 q.1.hash_buckets
          q.1.bucket_count key
        let e5 := { q.1 with hash_buckets := dr.buckets }
        if dr.rc = 0 ∨ q.2.1 then
          let e6 := { e5 with item_count := u32sub e5.item_count 1 }
          let e7 :=
            if dr.rc = 0 then
              { e6 with
                  total_memory :=
                    u32sub e6.total_memory
                      ((dr.deleted_key_len + dr.deleted_value_len) % U32) }
            else
              { e6 with
                  total_memory :=
                    u32sub e6.total_memory ((q.2.2.1 + q.2.2.2) % U32) }
          let p2 := shrink_step e7 p1.2
          (0, p2.1, p2.2)
        else (dr.rc, e5, p1.2)) := rfl

theorem put_grow_facts {hash_key_0 hash_key_1 : Nat} {e : hash_engine} (a : Alloc)
    (hInv : EngineInv hash_key_0 hash_key_1 e) (hMig : MigratedInv e) :
    (let r := put_grow_step e a
     EngineInv hash_key_0 hash_key_1 r.1 ∧ MigratedInv r.1 ∧
     r.1.item_count = e.item_count ∧ r.1.total_memory = e.total_memory ∧
     (engine_entries r.1).length = (engine_entries e).length ∧
     payload_sum r.1 = payload_sum e ∧
     (∀ k v, engine_has r.1 k v ↔ engine_has e k v) ∧
     (r.1.bucket_count = e.bucket_count ∨
       (r.1.bucket_count = e.bucket_count * 2 % U32 ∧
        MIN_BUCKET_COUNT ≤ r.1.bucket_count ∧
        r.1.bucket_count ≤ MAX_BUCKET_COUNT))) := by
  rw [put_grow_step]
  by_cases hg : needs_grow e = true
  · rw [if_pos hg]
    by_cases hsz : e.bucket_count * 2 % U32 ≤ MAX_BUCKET_COUNT
    · rw [if_pos hsz]
      obtain ⟨i1, i2, i3, i4, i5, i6, i7, i8, i9⟩ :=
        start_resize_facts hInv hMig (e.bucket_count * 2 % U32) a
      refine ⟨i1, i2, i3, i4, i6, i7, i8, ?_⟩
      rcases i9 with h | ⟨h1, h2, h3⟩
      · exact Or.inl h
      · refine Or.inr ⟨h1, ?_, ?_⟩
        · show MIN_BUCKET_COUNT ≤
            (hash_engine_start_resize e (e.bucket_count * 2 % U32) a).2.1.bucket_count
          rw [h1]
          exact h2
        · show (hash_engine_start_resize e
              (e.bucket_count * 2 % U32) a).2.1.bucket_count ≤ MAX_BUCKET_COUNT
          rw [h1]
          exact h3
    · rw [if_neg hsz]
      exact ⟨hInv, hMig, rfl, rfl, rfl, rfl, fun k v => Iff.rfl, Or.inl rfl⟩
  · rw [if_neg hg]
    exact ⟨hInv, hMig, rfl, rfl, rfl, rfl, fun k v => Iff.rfl, Or.inl rfl⟩

theorem old_table_delete_facts {hash_key_0 hash_key_1 : Nat} {e : hash_engine}
    (K : List Nat)
    (hInv : EngineInv hash_key_0 hash_key_1 e) (hMig : MigratedInv e) :
    (let q := old_table_delete hash_key_0 hash_key_1 e K
     EngineInv hash_key_0 hash_key_1 q.1 ∧ MigratedInv q.1 ∧
     q.1.hash_buckets = e.hash_buckets ∧
     q.1.bucket_count = e.bucket_count ∧
     q.1.item_count = e.item_count ∧
     q.1.total_memory = e.total_memory ∧
     (∀ old', q.1.old_buckets = some old' → ¬ occupiesKey old' K) ∧
     (∀ k v, k ≠ K → (engine_has q.1 k v ↔ engine_has e k v)) ∧
     (q.2.1 = true → ∃ vOld,
        q.2.2.1 = K.length ∧ q.2.2.2 = vOld.length ∧
        (engine_entries q.1).length + 1 = (engine_entries e).length ∧
        payload_sum q.1 + (K.length + vOld.length) = payload_sum e ∧
        (∃ old, e.old_buckets = some old ∧ occupies old K vOld)) ∧
     (q.2.1 = false →
        engine_entries q.1 = engine_entries e ∧
        (∀ old, e.old_buckets = some old → ¬ occupiesKey old K))) := by
  rcases hold : e.old_buckets with _ | old
  · have hq : old_table_delete hash_key_0 hash_key_1 e K = (e, false, 0, 0) := by
      rw [old_table_delete, hold]
    rw [hq]
    refine ⟨hInv, hMig, rfl, rfl, rfl, rfl, ?_, ?_, ?_, ?_⟩
    · intro old' hold'
      have hold2 : e.old_buckets = some old' := hold'
      rw [hold] at hold2
      cases hold2
    · intro k v hk
      exact Iff.rfl
    · intro hx
      exact Bool.noConfusion hx
    · intro _
      refine ⟨rfl, ?_⟩
      intro old1 hold1
      cases hold1
  · have holdlen : e.old_bucket_count = old.length := hInv.oldlen old hold
    have holdpos : 0 < old.length := hInv.oldpos old hold
    have holdInv := hInv.oldInv old hold
    set dr := delete_from_table hash_key_0 hash_key_1 old e.old_bucket_count K
      with hdr
    have hdr' : delete_from_table hash_key_0 hash_key_1 old old.length K = dr := by
      rw [hdr, holdlen]
    obtain ⟨hiffd, hfail, hsucc⟩ := delete_from_table_facts holdInv holdpos K hdr'
    have hcases := delete_from_table_buckets_cases hash_key_0 hash_key_1 holdpos K
    rw [hdr'] at hcases
    have hq : old_table_delete hash_key_0 hash_key_1 e K =
        (if dr.rc = 0 then
          ({ e with old_buckets := some dr.buckets }, true,
            dr.deleted_key_len, dr.deleted_value_len)
         else ({ e with old_buckets := some dr.buckets }, false, 0, 0)) := by
      rw [old_table_delete, hold]
    have hent4 : engine_entries { e with old_buckets := some dr.buckets } =
        table_entries e.hash_buckets ++ table_entries dr.buckets := rfl
    have hente : engine_entries e =
        table_entries e.hash_buckets ++ table_entries old := by
      rw [engine_entries_def, hold]
      rfl
    have hmig4 : MigratedInv { e with old_buckets := some dr.buckets } := by
      intro old1 hold1 j hj hjl
      have hold1' : some dr.buckets = some old1 := hold1
      cases hold1'
      rcases hcases with hbeq | ⟨idx, hidx, hbeq⟩
      · rw [hbeq] at hjl ⊢
        exact hMig old hold j hj hjl
      · rw [hbeq]
        intro hocc
        have hocc' := set_tombstone_not_occupied hocc
        rw [hbeq, List.length_set] at hjl
        exact hMig old hold j hj hjl hocc'
    rw [hq]
    by_cases hrc : dr.rc = 0
    · rw [if_pos hrc]
      obtain ⟨vOld, hoccK, hklen, hvlen, hInvd, hlend, hnokey, hiffk, hcnt, hsz⟩ :=
        hsucc hrc
      refine ⟨?_, hmig4, rfl, rfl, rfl, rfl, ?_, ?_, ?_, ?_⟩
      · refine ⟨hInv.newlen, hInv.newpos, hInv.newInv, ?_, ?_, ?_, ?_⟩
        · intro old1 hold1
          have hold1' : some dr.buckets = some old1 := hold1
          cases hold1'
          show e.old_bucket_count = dr.buckets.length
          rw [holdlen, hlend]
        · intro old1 hold1
          have hold1' : some dr.buckets = some old1 := hold1
          cases hold1'
          show 0 < dr.buckets.length
          rw [hlend]
          exact holdpos
        · intro old1 hold1
          have hold1' : some dr.buckets = some old1 := hold1
          cases hold1'
          exact hInvd
        · intro old1 hold1 k hk
          have hold1' : some dr.buckets = some old1 := hold1
          cases hold1'
          by_cases hkK : k = K
          · subst hkK
            exact hnokey
          · rintro ⟨v, hocc⟩
            exact hInv.cross old hold k hk ⟨v, (hiffk k v hkK).mp hocc⟩
      · intro old1 hold1
        have hold1' : some dr.buckets = some old1 := hold1
        cases hold1'
        exact hnokey
      · intro k v hk
        constructor
        · rintro (hnew | ⟨old1, hold1, hocc1⟩)
          · exact Or.inl hnew
          · have hold1' : some dr.buckets = some old1 := hold1
            cases hold1'
            exact Or.inr ⟨old, hold, (hiffk k v hk).mp hocc1⟩
        · rintro (hnew | ⟨old1, hold1, hocc1⟩)
          · exact Or.inl hnew
          · rw [hold] at hold1
            cases hold1
            exact Or.inr ⟨dr.buckets, rfl, (hiffk k v hk).mpr hocc1⟩
      · intro _
        refine ⟨vOld, hklen, hvlen, ?_, ?_, ⟨old, rfl, hoccK⟩⟩
        · show (engine_entries { e with old_buckets := some dr.buckets }).length + 1 =
            (engine_entries e).length
          rw [hent4, hente, List.length_append, List.length_append]
          omega
        · show payload_sum { e with old_buckets := some dr.buckets } +
            (K.length + vOld.length) = payload_sum e
          rw [payload_sum, payload_sum, hent4, hente, entries_size_append,
            entries_size_append]
          omega
      · intro hx
        exact Bool.noConfusion hx
    · rw [if_neg hrc]
      obtain ⟨hbeq, -⟩ := hfail hrc
      have hnokey : ¬ occupiesKey old K := fun hocc => hrc (hiffd.mpr hocc)
      refine ⟨?_, hmig4, rfl, rfl, rfl, rfl, ?_, ?_, ?_, ?_⟩
      · refine EngineInv_congr ?_ ?_ ?_ ?_ hInv
        · rfl
        · rfl
        · show some dr.buckets = e.old_buckets
          rw [hbeq, hold]
        · rfl
      · intro old1 hold1
        have hold1' : some dr.buckets = some old1 := hold1
        cases hold1'
        rw [hbeq]
        exact hnokey
      · intro k v hk
        constructor
        · rintro (hnew | ⟨old1, hold1, hocc1⟩)
          · exact Or.inl hnew
          · have hold1' : some dr.buckets = some old1 := hold1
            cases hold1'
            rw [hbeq] at hocc1
            exact Or.inr ⟨old, hold, hocc1⟩
        · rintro (hnew | ⟨old1, hold1, hocc1⟩)
          · exact Or.inl hnew
          · rw [hold] at hold1
            cases hold1
            exact Or.inr ⟨dr.buckets, rfl, hbeq ▸ hocc1⟩
      · intro hx
        exact Bool.noConfusion hx
      · intro _
        refine ⟨?_, ?_⟩
        · rw [hent4, hente, hbeq]
        · intro old1 hold1
          cases hold1
          exact hnokey

theorem MigratedInv_congr {x y : hash_engine}
    (h1 : y.old_buckets = x.old_buckets) (h2 : y.migrate_index = x.migrate_index)
    (hM : MigratedInv x) : MigratedInv y := by
  intro old hold j hj hjl
  rw [h1] at hold
  rw [h2] at hj
  exact hM old hold j hj hjl

theorem engine_has_congr {x y : hash_engine}
    (h1 : y.hash_buckets = x.hash_buckets) (h2 : y.old_buckets = x.old_buckets)
    {k v : List Nat} (h : engine_has x k v) : engine_has y k v := by
  rcases h with hnew | ⟨old, hold, hocc⟩
  · exact Or.inl (h1 ▸ hnew)
  · exact Or.inr ⟨old, h2 ▸ hold, hocc⟩

theorem engine_entries_congr {x y : hash_engine}
    (h1 : y.hash_buckets = x.hash_buckets) (h2 : y.old_buckets = x.old_buckets) :
    engine_entries y = engine_entries x := by
  rw [engine_entries_def, engine_entries_def, h1, h2]

theorem put_counter_update_fields (x : hash_engine) (r : insert_result)
    (k v : List Nat) (ex : Bool) (ok ov : Nat) :
    (put_counter_update x r k v ex ok ov).hash_buckets = x.hash_buckets ∧
    (put_counter_update x r k v ex ok ov).bucket_count = x.bucket_count ∧
    (put_counter_update x r k v ex ok ov).old_buckets = x.old_buckets ∧
    (put_counter_update x r k v ex ok ov).old_bucket_count = x.old_bucket_count ∧
    (put_counter_update x r k v ex ok ov).migrate_index = x.migrate_index := by
  rw [put_counter_update]
  repeat' split
  all_goals exact ⟨rfl, rfl, rfl, rfl, rfl⟩

/-! ## Effects of `hash_put` -/

theorem hash_put_effects {hash_key_0 hash_key_1 : Nat} {e : hash_engine}
    (K V : List Nat) (a : Alloc)
    (hInv : EngineInv hash_key_0 hash_key_1 e) (hMig : MigratedInv e) :
    (let r := hash_put hash_key_0 hash_key_1 e K V a
     EngineInv hash_key_0 hash_key_1 r.2.1 ∧ MigratedInv r.2.1 ∧
     (r.1 = 0 → occupies r.2.1.hash_buckets K V) ∧
     (r.1 ≠ 0 → r.2.1.item_count = e.item_count ∧
       r.2.1.total_memory = e.total_memory) ∧
     (r.2.1.bucket_count = e.bucket_count ∨
       (r.2.1.bucket_count = e.bucket_count * 2 % U32 ∧
        MIN_BUCKET_COUNT ≤ r.2.1.bucket_count ∧
        r.2.1.bucket_count ≤ MAX_BUCKET_COUNT)) ∧
     (r.1 = -ENOSPC → ∀ j, j < r.2.1.hash_buckets.length →
        (r.2.1.hash_buckets.getD j bucket_init).state = BucketState.OCCUPIED ∧
        (r.2.1.hash_buckets.getD j bucket_init).key ≠ K) ∧
     (migrate_ok hash_key_0 hash_key_1 e MIGRATE_BATCH_SIZE a →
        (∀ k v, k ≠ K → engine_has e k v → engine_has r.2.1 k v) ∧
        (CounterInv e → r.1 = 0 → CounterInv r.2.1))) := by
  by_cases hguard : K.length = 0 ∨ V.length = 0
  · have hput : hash_put hash_key_0 hash_key_1 e K V a = (-EINVAL, e, a) := by
      rw [hash_put_staged, if_pos hguard]
    rw [hput]
    refine ⟨hInv, hMig, ?_, fun _ => ⟨rfl, rfl⟩, Or.inl rfl, ?_, ?_⟩
    · intro h0
      have h0' : (-EINVAL : Int) = 0 := h0
      exact absurd h0' (by decide)
    · intro hsp
      have hsp' : (-EINVAL : Int) = -ENOSPC := hsp
      exact absurd hsp' (by decide)
    · intro _
      exact ⟨fun k v _ h => h, fun hCnt _ => hCnt⟩
  · set M := migrate_some_buckets hash_key_0 hash_key_1 e MIGRATE_BATCH_SIZE a
      with hM
    have hms := migrate_some_effects hInv hMig MIGRATE_BATCH_SIZE a
    rw [← hM] at hms
    obtain ⟨hInv2, hMig2, hlen2, hbc2, hic2, htm2, hmw2, hocc2⟩ := hms
    set G := put_grow_step M.1 M.2 with hG
    have hgf := put_grow_facts M.2 hInv2 hMig2
    rw [← hG] at hgf
    obtain ⟨gInv, gMig, gic, gtm, gel, gps, ghas, gbc⟩ := hgf
    set Q := old_table_delete hash_key_0 hash_key_1 G.1 K with hQ
    have hqf := old_table_delete_facts K gInv gMig
    rw [← hQ] at hqf
    obtain ⟨qInv, qMig, qhb, qbc, qic, qtm, qnok, qiff, qtrue, qfalse⟩ := hqf
    set R := insert_into_table hash_key_0 hash_key_1 Q.1.hash_buckets
      Q.1.bucket_count K V G.2 with hR
    set E5 : hash_engine := { Q.1 with hash_buckets := R.buckets } with hE5
    have hput : hash_put hash_key_0 hash_key_1 e K V a =
        (if R.rc ≠ 0 then (R.rc, E5, R.alloc)
         else (0, put_counter_update E5 R K V Q.2.1 Q.2.2.1 Q.2.2.2, R.alloc)) := by
      rw [hash_put_staged, if_neg hguard]
    have hnQ : 0 < Q.1.hash_buckets.length := by
      have := qInv.newpos
      rwa [qInv.newlen] at this
    have hR' : insert_into_table hash_key_0 hash_key_1 Q.1.hash_buckets
        Q.1.hash_buckets.length K V G.2 = R := by
      rw [hR, qInv.newlen]
    have hbcchain : Q.1.bucket_count = e.bucket_count ∨
        (Q.1.bucket_count = e.bucket_count * 2 % U32 ∧
         MIN_BUCKET_COUNT ≤ Q.1.bucket_count ∧
         Q.1.bucket_count ≤ MAX_BUCKET_COUNT) := by
      rw [qbc]
      rcases gbc with h | ⟨h1, h2, h3⟩
      · rw [h, hbc2]
        exact Or.inl rfl
      · rw [hbc2] at h1
        exact Or.inr ⟨h1, h2, h3⟩
    have hicchain : Q.1.item_count = e.item_count := by
      rw [qic, gic, hic2]
    have htmchain : Q.1.total_memory = e.total_memory := by
      rw [qtm, gtm, htm2]
    have hentE5 : engine_entries E5 =
        table_entries R.buckets ++ table_entries (Q.1.old_buckets.getD []) := rfl
    have hentQ : engine_entries Q.1 =
        table_entries Q.1.hash_buckets ++ table_entries (Q.1.old_buckets.getD []) :=
      rfl
    rw [hput]
    by_cases hrc : R.rc = 0
    · rw [if_neg (fun h => h hrc)]
      obtain ⟨rInv, rLen, rOcc, rIffk, rNew, rUpd⟩ :=
        insert_into_table_ok qInv.newInv hnQ K V G.2 hR' hrc
      obtain ⟨cf1, cf2, cf3, cf4, cf5⟩ :=
        put_counter_update_fields E5 R K V Q.2.1 Q.2.2.1 Q.2.2.2
      have hInv5 : EngineInv hash_key_0 hash_key_1 E5 := by
        refine ⟨?_, qInv.newpos, rInv, qInv.oldlen, qInv.oldpos, qInv.oldInv, ?_⟩
        · show Q.1.bucket_count = R.buckets.length
          rw [rLen]
          exact qInv.newlen
        · intro old hold k hk
          by_cases hkK : k = K
          · subst hkK
            exact qnok old hold
          · rintro ⟨v, hocc⟩
            obtain ⟨v', hocc'⟩ := hk
            exact qInv.cross old hold k ⟨v', (rIffk k v' hkK).mp hocc'⟩ ⟨v, hocc⟩
      have hMig5 : MigratedInv E5 := MigratedInv_congr rfl rfl qMig
      have hInvC : EngineInv hash_key_0 hash_key_1
          (put_counter_update E5 R K V Q.2.1 Q.2.2.1 Q.2.2.2) :=
        EngineInv_congr cf1 cf2 cf3 cf4 hInv5
      have hMigC : MigratedInv
          (put_counter_update E5 R K V Q.2.1 Q.2.2.1 Q.2.2.2) :=
        MigratedInv_congr cf3 cf5 hMig5
      refine ⟨hInvC, hMigC, ?_, ?_, ?_, ?_, ?_⟩
      · intro _
        rw [cf1]
        exact rOcc
      · intro hne
        exact absurd rfl hne
      · rw [cf2]
        exact hbcchain
      · intro hsp
        have : (0 : Int) = -ENOSPC := hsp
        exact absurd this (by decide)
      · intro hmok
        rw [migrate_ok, ← hM] at hmok
        obtain ⟨hmk1, hmk2, hmk3⟩ := hmok
        have hhasE5 : ∀ k v, k ≠ K → engine_has Q.1 k v → engine_has E5 k v := by
          intro k v hk h
          rcases h with hnew | ⟨old, hold, hocc⟩
          · exact Or.inl ((rIffk k v hk).mpr hnew)
          · exact Or.inr ⟨old, hold, hocc⟩
        constructor
        · intro k v hk h
          refine engine_has_congr cf1 cf3 ?_
          exact hhasE5 k v hk ((qiff k v hk).mpr ((ghas k v).mpr (hmk1 k v h)))
        · intro hCnt _
          have hNQlenG : (engine_entries G.1).length = (engine_entries e).length := by
            rw [gel, hmk2]
          have hSQG : payload_sum G.1 = payload_sum e := by
            rw [gps, hmk3]
          have hitem : e.item_count = (engine_entries e).length % U32 := hCnt.item
          have hmem : e.total_memory = payload_sum e % U32 := hCnt.mem
          constructor
          all_goals rcases hex : Q.2.1 with _ | _
          -- item, existed = false
          · obtain ⟨henteq, -⟩ := qfalse hex
            have hcntQ : (engine_entries Q.1).length = (engine_entries e).length := by
              rw [henteq, hNQlenG]
            rcases hisnew : R.is_new with _ | _
            · -- in-place update: counters branch 3, count unchanged
              obtain ⟨vOld', hoccT, hovl, hcnteq, hszeq⟩ := rUpd hisnew
              have hcond1 : ¬(R.is_new = true ∧ ¬(false : Bool) = true) := by
                rintro ⟨h1, -⟩
                exact Bool.noConfusion (hisnew.symm.trans h1)
              have hcond2 : ¬((false : Bool) = true) := fun h => Bool.noConfusion h
              rw [put_counter_update, if_neg hcond1, if_neg hcond2]
              have hcount : (engine_entries E5).length = (engine_entries e).length := by
                rw [hentE5, ← hcntQ, hentQ, List.length_append, List.length_append,
                  hcnteq]
              by_cases hlt : R.old_value_len < V.length
              · rw [if_pos hlt]
                show E5.item_count = (engine_entries E5).length % U32
                rw [hcount]
                show Q.1.item_count = (engine_entries e).length % U32
                rw [hicchain, hitem]
              · rw [if_neg hlt]
                by_cases hgt : V.length < R.old_value_len
                · rw [if_pos hgt]
                  show E5.item_count = (engine_entries E5).length % U32
                  rw [hcount]
                  show Q.1.item_count = (engine_entries e).length % U32
                  rw [hicchain, hitem]
                · rw [if_neg hgt]
                  show E5.item_count = (engine_entries E5).length % U32
                  rw [hcount]
                  show Q.1.item_count = (engine_entries e).length % U32
                  rw [hicchain, hitem]
            · -- fresh insert of a new key
              obtain ⟨-, hcnteq, -⟩ := rNew hisnew
              have hcond1 : R.is_new = true ∧ ¬(false : Bool) = true :=
                ⟨hisnew, fun h => Bool.noConfusion h⟩
              rw [put_counter_update, if_pos hcond1]
              show u32add E5.item_count 1 = (engine_entries E5).length % U32
              have hcount : (engine_entries E5).length =
                  (engine_entries e).length + 1 := by
                rw [hentE5, List.length_append, hcnteq, ← hcntQ, hentQ,
                  List.length_append]
                omega
              rw [hcount]
              show u32add Q.1.item_count 1 = ((engine_entries e).length + 1) % U32
              rw [hicchain, hitem, u32add_one]
          -- item, existed = true
          · obtain ⟨vOld, hq1, hq2, hcntQ, hszQ, old0, hold0, hocc0⟩ := qtrue hex
            have hisnew : R.is_new = true := by
              rcases hisnew' : R.is_new with _ | _
              · obtain ⟨vOld', hoccT, -⟩ := rUpd hisnew'
                rw [qhb] at hoccT
                exact absurd ⟨vOld, hocc0⟩
                  (gInv.cross old0 hold0 K ⟨vOld', hoccT⟩)
              · rfl
            obtain ⟨-, hcnteq, -⟩ := rNew hisnew
            have hcond1 : ¬(R.is_new = true ∧ ¬(true : Bool) = true) := by
              rintro ⟨-, h2⟩
              exact h2 rfl
            have htt : (true : Bool) = true := rfl
            rw [put_counter_update, if_neg hcond1, if_pos htt]
            show E5.item_count = (engine_entries E5).length % U32
            have hcount : (engine_entries E5).length = (engine_entries e).length := by
              have h1 : (engine_entries Q.1).length + 1 =
                  (engine_entries e).length := by
                rw [hcntQ, hNQlenG]
              rw [hentQ, List.length_append] at h1
              rw [hentE5, List.length_append, hcnteq]
              omega
            rw [hcount]
            show Q.1.item_count = (engine_entries e).length % U32
            rw [hicchain, hitem]
          -- memory, existed = false
          · obtain ⟨henteq, -⟩ := qfalse hex
            have hszQ : payload_sum Q.1 = payload_sum e := by
              rw [payload_sum, henteq, ← payload_sum, hSQG]
            rcases hisnew : R.is_new with _ | _
            · obtain ⟨vOld', hoccT, hovl, hcnteq, hszeq⟩ := rUpd hisnew
              have hcond1 : ¬(R.is_new = true ∧ ¬(false : Bool) = true) := by
                rintro ⟨h1, -⟩
                exact Bool.noConfusion (hisnew.symm.trans h1)
              have hcond2 : ¬((false : Bool) = true) := fun h => Bool.noConfusion h
              rw [put_counter_update, if_neg hcond1, if_neg hcond2]
              have hsz5 : payload_sum E5 + vOld'.length =
                  payload_sum e + V.length := by
                rw [payload_sum, hentE5, entries_size_append, ← hszQ, payload_sum,
                  hentQ, entries_size_append]
                omega
              by_cases hlt : R.old_value_len < V.length
              · rw [if_pos hlt]
                show u32add E5.total_memory ((V.length - R.old_value_len) % U32) =
                  payload_sum E5 % U32
                have htm5 : E5.total_memory = payload_sum e % U32 := by
                  show Q.1.total_memory = payload_sum e % U32
                  rw [htmchain, hmem]
                rw [htm5, u32add_mod, hovl]
                congr 1
                rw [hovl] at hlt
                omega
              · rw [if_neg hlt]
                by_cases hgt : V.length < R.old_value_len
                · rw [if_pos hgt]
                  show u32sub E5.total_memory ((R.old_value_len - V.length) % U32) =
                    payload_sum E5 % U32
                  have htm5 : E5.total_memory = payload_sum e % U32 := by
                    show Q.1.total_memory = payload_sum e % U32
                    rw [htmchain, hmem]
                  rw [htm5, hovl]
                  rw [hovl] at hgt
                  rw [u32sub_mod (by omega)]
                  congr 1
                  omega
                · rw [if_neg hgt]
                  show E5.total_memory = payload_sum E5 % U32
                  have heq : payload_sum E5 = payload_sum e := by
                    rw [hovl] at hlt hgt
                    omega
                  rw [heq]
                  show Q.1.total_memory = payload_sum e % U32
                  rw [htmchain, hmem]
            · obtain ⟨-, -, hszeq⟩ := rNew hisnew
              have hcond1 : R.is_new = true ∧ ¬(false : Bool) = true :=
                ⟨hisnew, fun h => Bool.noConfusion h⟩
              rw [put_counter_update, if_pos hcond1]
              show u32add E5.total_memory ((K.length + V.length) % U32) =
                payload_sum E5 % U32
              have htm5 : E5.total_memory = payload_sum e % U32 := by
                show Q.1.total_memory = payload_sum e % U32
                rw [htmchain, hmem]
              have hsz5 : payload_sum E5 =
                  payload_sum e + (K.length + V.length) := by
                rw [payload_sum, hentE5, entries_size_append, ← hszQ, payload_sum,
                  hentQ, entries_size_append]
                omega
              rw [htm5, u32add_mod, hsz5]
          -- memory, existed = true
          · obtain ⟨vOld, hq1, hq2, hcntQ, hszQ, old0, hold0, hocc0⟩ := qtrue hex
            have hisnew : R.is_new = true := by
              rcases hisnew' : R.is_new with _ | _
              · obtain ⟨vOld', hoccT, -⟩ := rUpd hisnew'
                rw [qhb] at hoccT
                exact absurd ⟨vOld, hocc0⟩
                  (gInv.cross old0 hold0 K ⟨vOld', hoccT⟩)
              · rfl
            obtain ⟨-, -, hszeq⟩ := rNew hisnew
            have hcond1 : ¬(R.is_new = true ∧ ¬(true : Bool) = true) := by
              rintro ⟨-, h2⟩
              exact h2 rfl
            have htt : (true : Bool) = true := rfl
            rw [put_counter_update, if_neg hcond1, if_pos htt]
            show u32add
                (u32sub E5.total_memory ((Q.2.2.1 + Q.2.2.2) % U32))
                ((K.length + V.length) % U32) = payload_sum E5 % U32
            have hszQe : payload_sum Q.1 + (K.length + vOld.length) =
                payload_sum e := by
              rw [hszQ, hSQG]
            have htm5 : E5.total_memory = payload_sum e % U32 := by
              show Q.1.total_memory = payload_sum e % U32
              rw [htmchain, hmem]
            have hsz5 : payload_sum E5 =
                payload_sum Q.1 + (K.length + V.length) := by
              rw [payload_sum, hentE5, entries_size_append, payload_sum, hentQ,
                entries_size_append]
              omega
            rw [htm5, hq1, hq2, u32sub_mod (by omega), u32add_mod, hsz5]
            congr 1
            omega
    · rw [if_pos hrc]
      obtain ⟨rBeq, rCase⟩ := insert_into_table_fail hnQ K V G.2 hR' hrc
      have hInv5 : EngineInv hash_key_0 hash_key_1 E5 := by
        refine EngineInv_congr ?_ ?_ ?_ ?_ qInv
        · show R.buckets = Q.1.hash_buckets
          exact rBeq
        · rfl
        · rfl
        · rfl
      have hMig5 : MigratedInv E5 := MigratedInv_congr rfl rfl qMig
      refine ⟨hInv5, hMig5, ?_, ?_, ?_, ?_, ?_⟩
      · intro h0
        exact absurd h0 hrc
      · intro _
        exact ⟨hicchain, htmchain⟩
      · show Q.1.bucket_count = e.bucket_count ∨ _
        exact hbcchain
      · intro hsp
        have hsp' : R.rc = -ENOSPC := hsp
        rcases rCase with hmem' | ⟨-, -, hfull⟩
        · exact absurd (hsp'.symm.trans hmem') (by decide)
        · intro j hj
          have hj' : j < R.buckets.length := hj
          rw [rBeq] at hj'
          show (R.buckets.getD j bucket_init).state = BucketState.OCCUPIED ∧
            (R.buckets.getD j bucket_init).key ≠ K
          rw [rBeq]
          exact hfull j hj'
      · intro hmok
        rw [migrate_ok, ← hM] at hmok
        obtain ⟨hmk1, hmk2, hmk3⟩ := hmok
        constructor
        · intro k v hk h
          have hQ1 : engine_has Q.1 k v :=
            (qiff k v hk).mpr ((ghas k v).mpr (hmk1 k v h))
          rcases hQ1 with hnew | ⟨old, hold, hocc⟩
          · refine Or.inl ?_
            show occupies R.buckets k v
            rw [rBeq]
            exact hnew
          · exact Or.inr ⟨old, hold, hocc⟩
        · intro _ h0
          exact absurd h0 hrc

/-! ## Effects of `hash_delete` -/

theorem shrink_facts {hash_key_0 hash_key_1 : Nat} {e : hash_engine} (a : Alloc)
    (hInv : EngineInv hash_key_0 hash_key_1 e) (hMig : MigratedInv e) :
    (let r := shrink_step e a
     EngineInv hash_key_0 hash_key_1 r.1 ∧ MigratedInv r.1 ∧
     r.1.item_count = e.item_count ∧ r.1.total_memory = e.total_memory ∧
     (engine_entries r.1).length = (engine_entries e).length ∧
     payload_sum r.1 = payload_sum e ∧
     (∀ k v, engine_has r.1 k v ↔ engine_has e k v) ∧
     (r.1.bucket_count = e.bucket_count ∨
       (r.1.bucket_count = e.bucket_count / 2 ∧
        MIN_BUCKET_COUNT ≤ r.1.bucket_count ∧
        r.1.bucket_count ≤ MAX_BUCKET_COUNT))) := by
  rw [shrink_step]
  by_cases hg : needs_shrink e = true
  · rw [if_pos hg]
    by_cases hsz : MIN_BUCKET_COUNT ≤ e.bucket_count / 2
    · rw [if_pos hsz]
      obtain ⟨i1, i2, i3, i4, i5, i6, i7, i8, i9⟩ :=
        start_resize_facts hInv hMig (e.bucket_count / 2) a
      refine ⟨i1, i2, i3, i4, i6, i7, i8, ?_⟩
      rcases i9 with h | ⟨h1, h2, h3⟩
      · exact Or.inl h
      · refine Or.inr ⟨h1, ?_, ?_⟩
        · show MIN_BUCKET_COUNT ≤
            (hash_engine_start_resize e (e.bucket_count / 2) a).2.1.bucket_count
          rw [h1]
          exact h2
        · show (hash_engine_start_resize e
              (e.bucket_count / 2) a).2.1.bucket_count ≤ MAX_BUCKET_COUNT
          rw [h1]
          exact h3
    · rw [if_neg hsz]
      exact ⟨hInv, hMig, rfl, rfl, rfl, rfl, fun k v => Iff.rfl, Or.inl rfl⟩
  · rw [if_neg hg]
    exact ⟨hInv, hMig, rfl, rfl, rfl, rfl, fun k v => Iff.rfl, Or.inl rfl⟩

theorem hash_delete_effects {hash_key_0 hash_key_1 : Nat} {e : hash_engine}
    (K : List Nat) (a : Alloc)
    (hInv : EngineInv hash_key_0 hash_key_1 e) (hMig : MigratedInv e) :
    (let r := hash_delete hash_key_0 hash_key_1 e K a
     EngineInv hash_key_0 hash_key_1 r.2.1 ∧ MigratedInv r.2.1 ∧
     (r.1 ≠ 0 → r.2.1.item_count = e.item_count ∧
       r.2.1.total_memory = e.total_memory) ∧
     (r.2.1.bucket_count = e.bucket_count ∨
       (r.2.1.bucket_count = e.bucket_count / 2 ∧
        MIN_BUCKET_COUNT ≤ r.2.1.bucket_count ∧
        r.2.1.bucket_count ≤ MAX_BUCKET_COUNT)) ∧
     (migrate_ok hash_key_0 hash_key_1 e MIGRATE_BATCH_SIZE a →
        CounterInv e → CounterInv r.2.1)) := by
  by_cases hguard : K.length = 0
  · have hdel : hash_delete hash_key_0 hash_key_1 e K a = (-EINVAL, e, a) := by
      rw [hash_delete_staged, if_pos hguard]
    rw [hdel]
    exact ⟨hInv, hMig, fun _ => ⟨rfl, rfl⟩, Or.inl rfl, fun _ hCnt => hCnt⟩
  · set M := migrate_some_buckets hash_key_0 hash_key_1 e MIGRATE_BATCH_SIZE a
      with hM
    have hms := migrate_some_effects hInv hMig MIGRATE_BATCH_SIZE a
    rw [← hM] at hms
    obtain ⟨hInv2, hMig2, hlen2, hbc2, hic2, htm2, hmw2, hocc2⟩ := hms
    set Q := old_table_delete hash_key_0 hash_key_1 M.1 K with hQ
    have hqf := old_table_delete_facts K hInv2 hMig2
    rw [← hQ] at hqf
    obtain ⟨qInv, qMig, qhb, qbc, qic, qtm, qnok, qiff, qtrue, qfalse⟩ := hqf
    set D := delete_from_table hash_key_0 hash_key_1 Q.1.hash_buckets
      Q.1.bucket_count K with hD
    have hnQ : 0 < Q.1.hash_buckets.length := by
      have := qInv.newpos
      rwa [qInv.newlen] at this
    have hD' : delete_from_table hash_key_0 hash_key_1 Q.1.hash_buckets
        Q.1.hash_buckets.length K = D := by
      rw [hD, qInv.newlen]
    obtain ⟨diffd, dfail, dsucc⟩ := delete_from_table_facts qInv.newInv hnQ K hD'
    set E5 : hash_engine := { Q.1 with hash_buckets := D.buckets } with hE5
    set E6 : hash_engine := { E5 with item_count := u32sub E5.item_count 1 }
      with hE6
    set E7 : hash_engine :=
      (if D.rc = 0 then
        { E6 with
            total_memory :=
              u32sub E6.total_memory
                ((D.deleted_key_len + D.deleted_value_len) % U32) }
       else
        { E6 with
            total_memory := u32sub E6.total_memory ((Q.2.2.1 + Q.2.2.2) % U32) })
      with hE7
    have hdel : hash_delete hash_key_0 hash_key_1 e K a =
        (if D.rc = 0 ∨ Q.2.1 = true then
          (0, (shrink_step E7 M.2).1, (shrink_step E7 M.2).2)
         else (D.rc, E5, M.2)) := by
      rw [hash_delete_staged, if_neg hguard]
    have hicchain : Q.1.item_count = e.item_count := by
      rw [qic, hic2]
    have htmchain : Q.1.total_memory = e.total_memory := by
      rw [qtm, htm2]
    have hbcchain : Q.1.bucket_count = e.bucket_count := by
      rw [qbc, hbc2]
    have hentE5 : engine_entries E5 =
        table_entries D.buckets ++ table_entries (Q.1.old_buckets.getD []) := rfl
    have hentQ : engine_entries Q.1 =
        table_entries Q.1.hash_buckets ++ table_entries (Q.1.old_buckets.getD []) :=
      rfl
    rw [hdel]
    by_cases hdone : D.rc = 0 ∨ Q.2.1 = true
    · rw [if_pos hdone]
      by_cases hrc : D.rc = 0
      · -- deleted from the current array
        rw [if_pos hrc] at hE7
        obtain ⟨vOld, hoccQT, hdk, hdv, dInv, dLen, dNok, dIffk, dCnt, dSz⟩ :=
          dsucc hrc
        have hq21 : Q.2.1 = false := by
          rcases hq : Q.2.1 with _ | _
          · rfl
          · obtain ⟨vOld2, -, -, -, -, old0, hold0, hocc0⟩ := qtrue hq
            have hoccM : occupies M.1.hash_buckets K vOld := by
              rw [← qhb]
              exact hoccQT
            exact absurd ⟨vOld2, hocc0⟩
              (hInv2.cross old0 hold0 K ⟨vOld, hoccM⟩)
        have hInv5 : EngineInv hash_key_0 hash_key_1 E5 := by
          refine ⟨?_, qInv.newpos, dInv, qInv.oldlen, qInv.oldpos, qInv.oldInv, ?_⟩
          · show Q.1.bucket_count = D.buckets.length
            rw [dLen]
            exact qInv.newlen
          · intro old hold k hk
            by_cases hkK : k = K
            · subst hkK
              exact qnok old hold
            · rintro ⟨v, hocc⟩
              obtain ⟨v', hocc'⟩ := hk
              exact qInv.cross old hold k ⟨v', (dIffk k v' hkK).mp hocc'⟩ ⟨v, hocc⟩
        have hMig5 : MigratedInv E5 := MigratedInv_congr rfl rfl qMig
        have hInv7 : EngineInv hash_key_0 hash_key_1 E7 := by
          refine EngineInv_congr ?_ ?_ ?_ ?_ hInv5 <;> rw [hE7]
        have hMig7 : MigratedInv E7 := by
          refine MigratedInv_congr ?_ ?_ hMig5 <;> rw [hE7]
        obtain ⟨sInv, sMig, sic, stm, sel, sps, shas, sbc⟩ :=
          shrink_facts M.2 hInv7 hMig7
        have h7bc : E7.bucket_count = e.bucket_count := by
          rw [hE7]
          show Q.1.bucket_count = e.bucket_count
          exact hbcchain
        refine ⟨sInv, sMig, ?_, ?_, ?_⟩
        · intro hne
          exact absurd rfl hne
        · rcases sbc with h | ⟨h1, h2, h3⟩
          · rw [h, h7bc]
            exact Or.inl rfl
          · rw [h7bc] at h1
            exact Or.inr ⟨h1, h2, h3⟩
        · intro hmok hCnt
          rw [migrate_ok, ← hM] at hmok
          obtain ⟨hmk1, hmk2, hmk3⟩ := hmok
          obtain ⟨henteq, -⟩ := qfalse hq21
          have hcntQ : (engine_entries Q.1).length = (engine_entries e).length := by
            rw [henteq, hmk2]
          have hszQ : payload_sum Q.1 = payload_sum e := by
            rw [payload_sum, henteq, ← payload_sum, hmk3]
          have hcnt5 : (engine_entries E5).length + 1 =
              (engine_entries e).length := by
            rw [hentE5, List.length_append, ← hcntQ, hentQ, List.length_append]
            omega
          have hsz5 : payload_sum E5 + (K.length + vOld.length) =
              payload_sum e := by
            rw [payload_sum, hentE5, entries_size_append, ← hszQ, payload_sum,
              hentQ, entries_size_append]
            omega
          have h7ic : E7.item_count = u32sub E5.item_count 1 := by
            rw [hE7]
          have h7ent : engine_entries E7 = engine_entries E5 := by
            refine engine_entries_congr ?_ ?_ <;> rw [hE7]
          have h7tm : E7.total_memory =
              u32sub E5.total_memory
                ((D.deleted_key_len + D.deleted_value_len) % U32) := by
            rw [hE7]
          have h7ps : payload_sum E7 = payload_sum E5 := by
            rw [payload_sum, h7ent, payload_sum]
          constructor
          · show (shrink_step E7 M.2).1.item_count =
              (engine_entries (shrink_step E7 M.2).1).length % U32
            rw [sic, sel, h7ic, h7ent]
            show u32sub Q.1.item_count 1 = (engine_entries E5).length % U32
            rw [hicchain, hCnt.item, u32sub_one (by omega)]
            congr 1
            omega
          · show (shrink_step E7 M.2).1.total_memory =
              payload_sum (shrink_step E7 M.2).1 % U32
            rw [stm, sps, h7tm, h7ps]
            show u32sub Q.1.total_memory
              ((D.deleted_key_len + D.deleted_value_len) % U32) =
                payload_sum E5 % U32
            rw [htmchain, hCnt.mem, hdk, hdv, u32sub_mod (by omega)]
            congr 1
            omega
      · -- deleted from the old array only
        have hq21 : Q.2.1 = true := by
          rcases hdone with h | h
          · exact absurd h hrc
          · exact h
        rw [if_neg hrc] at hE7
        obtain ⟨hbeq, -⟩ := dfail hrc
        obtain ⟨vOld, hq1, hq2, hcntQ, hszQ, old0, hold0, hocc0⟩ := qtrue hq21
        have hInv5 : EngineInv hash_key_0 hash_key_1 E5 := by
          refine EngineInv_congr ?_ ?_ ?_ ?_ qInv
          · show D.buckets = Q.1.hash_buckets
            exact hbeq
          · rfl
          · rfl
          · rfl
        have hMig5 : MigratedInv E5 := MigratedInv_congr rfl rfl qMig
        have hInv7 : EngineInv hash_key_0 hash_key_1 E7 := by
          refine EngineInv_congr ?_ ?_ ?_ ?_ hInv5 <;> rw [hE7]
        have hMig7 : MigratedInv E7 := by
          refine MigratedInv_congr ?_ ?_ hMig5 <;> rw [hE7]
        obtain ⟨sInv, sMig, sic, stm, sel, sps, shas, sbc⟩ :=
          shrink_facts M.2 hInv7 hMig7
        have h7bc : E7.bucket_count = e.bucket_count := by
          rw [hE7]
          show Q.1.bucket_count = e.bucket_count
          exact hbcchain
        refine ⟨sInv, sMig, ?_, ?_, ?_⟩
        · intro hne
          exact absurd rfl hne
        · rcases sbc with h | ⟨h1, h2, h3⟩
          · rw [h, h7bc]
            exact Or.inl rfl
          · rw [h7bc] at h1
            exact Or.inr ⟨h1, h2, h3⟩
        · intro hmok hCnt
          rw [migrate_ok, ← hM] at hmok
          obtain ⟨hmk1, hmk2, hmk3⟩ := hmok
          have hcnt5 : (engine_entries E5).length + 1 =
              (engine_entries e).length := by
            rw [hentE5, hbeq, ← hentQ, hcntQ, hmk2]
          have hsz5 : payload_sum E5 + (K.length + vOld.length) =
              payload_sum e := by
            rw [payload_sum, hentE5, hbeq, ← hentQ, ← payload_sum, hszQ, hmk3]
          have h7ic : E7.item_count = u32sub E5.item_count 1 := by
            rw [hE7]
          have h7ent : engine_entries E7 = engine_entries E5 := by
            refine engine_entries_congr ?_ ?_ <;> rw [hE7]
          have h7tm : E7.total_memory =
              u32sub E5.total_memory ((Q.2.2.1 + Q.2.2.2) % U32) := by
            rw [hE7]
          have h7ps : payload_sum E7 = payload_sum E5 := by
            rw [payload_sum, h7ent, payload_sum]
          constructor
          · show (shrink_step E7 M.2).1.item_count =
              (engine_entries (shrink_step E7 M.2).1).length % U32
            rw [sic, sel, h7ic, h7ent]
            show u32sub Q.1.item_count 1 = (engine_entries E5).length % U32
            rw [hicchain, hCnt.item, u32sub_one (by omega)]
            congr 1
            omega
          · show (shrink_step E7 M.2).1.total_memory =
              payload_sum (shrink_step E7 M.2).1 % U32
            rw [stm, sps, h7tm, h7ps]
            show u32sub Q.1.total_memory ((Q.2.2.1 + Q.2.2.2) % U32) =
              payload_sum E5 % U32
            rw [htmchain, hCnt.mem, hq1, hq2, u32sub_mod (by omega)]
            congr 1
            omega
    · rw [if_neg hdone]
      have hrc : ¬ D.rc = 0 := fun h => hdone (Or.inl h)
      have hq21 : Q.2.1 = false := by
        rcases hq : Q.2.1 with _ | _
        · rfl
        · exact absurd (Or.inr hq) hdone
      obtain ⟨hbeq, -⟩ := dfail hrc
      have hInv5 : EngineInv hash_key_0 hash_key_1 E5 := by
        refine EngineInv_congr ?_ ?_ ?_ ?_ qInv
        · show D.buckets = Q.1.hash_buckets
          exact hbeq
        · rfl
        · rfl
        · rfl
      have hMig5 : MigratedInv E5 := MigratedInv_congr rfl rfl qMig
      refine ⟨hInv5, hMig5, ?_, ?_, ?_⟩
      · intro _
        exact ⟨hicchain, htmchain⟩
      · show Q.1.bucket_count = e.bucket_count ∨ _
        exact Or.inl hbcchain
      · intro hmok hCnt
        rw [migrate_ok, ← hM] at hmok
        obtain ⟨hmk1, hmk2, hmk3⟩ := hmok
        obtain ⟨henteq, -⟩ := qfalse hq21
        have hlen5 : (engine_entries E5).length = (engine_entries e).length := by
          rw [hentE5, hbeq, ← hentQ, henteq, hmk2]
        have hsz5 : payload_sum E5 = payload_sum e := by
          rw [payload_sum, hentE5, hbeq, ← hentQ, henteq, ← payload_sum, hmk3]
        constructor
        · show Q.1.item_count = (engine_entries E5).length % U32
          rw [hlen5, hicchain, hCnt.item]
        · show Q.1.total_memory = payload_sum E5 % U32
          rw [hsz5, htmchain, hCnt.mem]

/-! ## SipHash-2-4 against the reference specification

`siphash_ref` restates SipHash-2-4 following the reference specification's
wording: the message is split into eight-byte little-endian words, each word
is compressed with two rounds, the final word carries the message length in
its high byte over the packed trailing bytes, and finalization xors `0xff`
into `v2` and applies four rounds. The byte-packing primitives `read64le` and
`packTail` are shared with the source embedding; the loop structure, round
counts, and length-byte placement are recomputed from the specification. -/

/-- The eight-byte little-endian words of the message, in order. -/
def sipWords : List Nat → List Nat
  | b0 :: b1 :: b2 :: b3 :: b4 :: b5 :: b6 :: b7 :: rest =>
    read64le b0 b1 b2 b3 b4 b5 b6 b7 :: sipWords rest
  | _ => []

/-- One compression step: xor the word into `v3`, two rounds, xor into
`v0`. -/
def sipCompress (s : SipState) (m : Nat) : SipState :=
  let s := { s with v3 := s.v3 ^^^ m }
  let s := SIPROUND (SIPROUND s)
  { s with v0 := s.v0 ^^^ m }

/-- Modelled from the spec: SipHash-2-4 per the reference specification. -/
def siphash_ref (data : List Nat) (k0 k1 : Nat) : Nat :=
  let k0 := k0 % U64
  let k1 := k1 % U64
  let s0 : SipState :=
    ⟨0x736f6d6570736575 ^^^ k0, 0x646f72616e646f6d ^^^ k1,
     0x6c7967656e657261 ^^^ k0, 0x7465646279746573 ^^^ k1⟩
  let s := (sipWords data).foldl sipCompress s0
  let b := ((data.length % 256) <<< 56) ||| packTail (sipTail data)
  let s := sipCompress s b
  let s := { s with v2 := s.v2 ^^^ 0xff }
  let s := SIPROUND (SIPROUND (SIPROUND (SIPROUND s)))
  s.v0 ^^^ s.v1 ^^^ s.v2 ^^^ s.v3

theorem sipBlocks_eq_foldl :
    ∀ (n : Nat) (data : List Nat), data.length ≤ n → ∀ s,
      sipBlocks data s = (sipWords data).foldl sipCompress s := by
  intro n
  induction n with
  | zero =>
    intro data hlen s
    rcases data with _ | ⟨b0, rest⟩
    · rfl
    · simp at hlen
  | succ n ih =>
    intro data hlen s
    rcases data with _ | ⟨b0, _ | ⟨b1, _ | ⟨b2, _ | ⟨b3, _ | ⟨b4, _ |
      ⟨b5, _ | ⟨b6, _ | ⟨b7, rest⟩⟩⟩⟩⟩⟩⟩⟩
    · rfl
    · rfl
    · rfl
    · rfl
    · rfl
    · rfl
    · rfl
    · rfl
    · rw [sipBlocks, sipWords, List.foldl_cons]
      refine ih rest ?_ _
      simp at hlen
      omega

theorem length_shift56_mod :
    ∀ L : Nat, (L <<< 56) % U64 = (L % 256) <<< 56 := by
  intro L
  have h : U64 = 256 * 2 ^ 56 := by
    rw [U64]
    norm_num
  rw [Nat.shiftLeft_eq, Nat.shiftLeft_eq, h, Nat.mul_mod_mul_right]

/-- The source `siphash` agrees with the reference-specification restatement
on every key pair and every input. -/
theorem siphash_eq_ref (data : List Nat) (k0 k1 : Nat) :
    siphash data k0 k1 = siphash_ref data k0 k1 := by
  rw [siphash, siphash_ref,
    sipBlocks_eq_foldl data.length data (Nat.le_refl _),
    length_shift56_mod]
  rfl

/-! ## The claims -/

/-- C1: for every non-empty key `K` and non-empty value `V`, on an engine
satisfying the structural invariants a successful `hash_put(K, V)` followed
by `hash_get(K)`, with no intervening operation on `K`, returns rc 0 and
exactly the bytes of `V`, with length equal to `V`'s length. -/
theorem C1_put_get_roundtrip {hash_key_0 hash_key_1 : Nat} {e e1 : hash_engine}
    {K V : List Nat} {a0 a1 : Alloc} (a2 : Alloc)
    (hInv : EngineInv hash_key_0 hash_key_1 e) (hMig : MigratedInv e)
    (hK : K.length ≠ 0) (hV : V.length ≠ 0)
    (hput : hash_put hash_key_0 hash_key_1 e K V a0 = (0, e1, a1)) :
    (hash_get hash_key_0 hash_key_1 e1 K a2).1 = 0 ∧
    (hash_get hash_key_0 hash_key_1 e1 K a2).2.1 = some V ∧
    (∀ v, (hash_get hash_key_0 hash_key_1 e1 K a2).2.1 = some v →
      v.length = V.length) := by
  have heff := hash_put_effects K V a0 hInv hMig
  rw [hput] at heff
  obtain ⟨hInv1, hMig1, hocc, -⟩ := heff
  have hocc1 : occupies e1.hash_buckets K V := hocc rfl
  have hInv1' : EngineInv hash_key_0 hash_key_1 e1 := hInv1
  have hMig1' : MigratedInv e1 := hMig1
  obtain ⟨-, -, -, -, -, hfind⟩ := hash_get_effects a2 hInv1' hMig1' hK
  obtain ⟨h1, h2⟩ := hfind V hocc1
  refine ⟨h1, h2, ?_⟩
  intro v hv
  rw [h2] at hv
  cases hv
  rfl

/-- Witness: the round trip at a concrete input. -/
theorem C1_put_get_roundtrip_witness :
    (hash_get 0 0 (hash_put 0 0 (hash_engine_init 16 ([] : Alloc)).2.1
        [1] [2] []).2.1 [1] []).1 = 0 ∧
    (hash_get 0 0 (hash_put 0 0 (hash_engine_init 16 ([] : Alloc)).2.1
        [1] [2] []).2.1 [1] []).2.1 = some [2] ∧
    (∀ v, (hash_get 0 0 (hash_put 0 0 (hash_engine_init 16 ([] : Alloc)).2.1
        [1] [2] []).2.1 [1] []).2.1 = some v →
      v.length = ([2] : List Nat).length) :=
  C1_put_get_roundtrip []
    (show EngineInv 0 0 (hash_engine_init 16 ([] : Alloc)).2.1 from
      (hash_engine_init_facts (by rfl)).1)
    (show MigratedInv (hash_engine_init 16 ([] : Alloc)).2.1 from
      (@hash_engine_init_facts 0 0 16 [] (by rfl)).2.1)
    (by decide) (by decide)
    (show hash_put 0 0 (hash_engine_init 16 ([] : Alloc)).2.1 [1] [2] [] =
        (0, (hash_put 0 0 (hash_engine_init 16 ([] : Alloc)).2.1 [1] [2] []).2.1,
          (hash_put 0 0 (hash_engine_init 16 ([] : Alloc)).2.1 [1] [2] []).2.2)
      from rfl)

/-- C2: the specification asserts that a failed migration work step leaves
the old slot OCCUPIED and the logical entry retrievable. In the code
`migrate_bucket` discards the return code of the insertion into the new
array and tombstones the old slot unconditionally, so an allocation failure
during the move destroys the entry. Concretely: after thirteen successful
single-byte puts on a fresh 16-bucket engine, key `[1]` is live and sits in
old slot 0; a `hash_get` of `[1]` whose migration insert hits an allocation
failure tombstones the slot, loses the entry, and reports `-ENOENT`. -/
theorem C2_migration_step_loses_entry :
    (run_trace 0 0 ((hash_engine_init 16 []).2.1, [])
        ((List.range 13).map (fun i => hash_op.put [i] [7]))).1 =
      List.replicate 13 0 ∧
    (let E := (run_trace 0 0 ((hash_engine_init 16 []).2.1, [])
        ((List.range 13).map (fun i => hash_op.put [i] [7]))).2.1
     liveValue 0 0 E [1] = some [7] ∧
     ((E.old_buckets.getD []).getD 0 bucket_init).state = BucketState.OCCUPIED ∧
     ((E.old_buckets.getD []).getD 0 bucket_init).key = [1] ∧
     (hash_get 0 0 E [1] [false]).1 = -ENOENT ∧
     (((hash_get 0 0 E [1] [false]).2.2.1.old_buckets.getD []).getD 0
        bucket_init).state = BucketState.TOMBSTONE ∧
     liveValue 0 0 (hash_get 0 0 E [1] [false]).2.2.1 [1] = none) :=
  ⟨rfl, rfl, rfl, rfl, rfl, rfl, rfl⟩

/-- C3 counterexample: `hash_put` deletes the key from the old array before
inserting into the new one and does not roll the deletion back, so a put
that fails with `-ENOMEM` can destroy the previously live pair for its key:
no strong guarantee. After thirteen successful puts, `[10]` is live in the
old array; a put of `[10]` whose insert allocation fails (the four earlier
migration allocations succeed) returns `-ENOMEM`, yet the old pair is gone
while `item_count` still counts it. -/
theorem C3_counterexample_enomem_put_loses_entry :
    (run_trace 0 0 ((hash_engine_init 16 []).2.1, [])
        ((List.range 13).map (fun i => hash_op.put [i] [7]))).1 =
      List.replicate 13 0 ∧
    (let E := (run_trace 0 0 ((hash_engine_init 16 []).2.1, [])
        ((List.range 13).map (fun i => hash_op.put [i] [7]))).2.1
     liveValue 0 0 E [10] = some [7] ∧
     (hash_put 0 0 E [10] [9] [true, true, true, true, false]).1 = -ENOMEM ∧
     liveValue 0 0
       (hash_put 0 0 E [10] [9] [true, true, true, true, false]).2.1 [10] =
       none ∧
     (hash_put 0 0 E [10] [9] [true, true, true, true, false]).2.1.item_count =
       E.item_count) :=
  ⟨rfl, rfl, rfl, rfl, rfl⟩

/-- C3 amended: when the migration work performed by the call is lossless
(`migrate_ok` — which the code does not guarantee, see the C2 and C3
counterexamples), a failing `hash_put` leaves both counters unchanged,
preserves the structural invariants, and preserves every live pair for keys
other than the one being put. The pair for the put key itself may be lost. -/
theorem C3_amended_no_partial_mutation {hash_key_0 hash_key_1 : Nat}
    {e : hash_engine} (K V : List Nat) (a : Alloc)
    (hInv : EngineInv hash_key_0 hash_key_1 e) (hMig : MigratedInv e)
    (hmok : migrate_ok hash_key_0 hash_key_1 e MIGRATE_BATCH_SIZE a)
    (hfail : (hash_put hash_key_0 hash_key_1 e K V a).1 ≠ 0) :
    (hash_put hash_key_0 hash_key_1 e K V a).2.1.item_count = e.item_count ∧
    (hash_put hash_key_0 hash_key_1 e K V a).2.1.total_memory = e.total_memory ∧
    EngineInv hash_key_0 hash_key_1 (hash_put hash_key_0 hash_key_1 e K V a).2.1 ∧
    (∀ k v, k ≠ K → engine_has e k v →
      engine_has (hash_put hash_key_0 hash_key_1 e K V a).2.1 k v) := by
  have heff := hash_put_effects K V a hInv hMig
  obtain ⟨hI, -, -, hcnt, -, -, hm⟩ := heff
  obtain ⟨hc1, hc2⟩ := hcnt hfail
  exact ⟨hc1, hc2, hI, (hm hmok).1⟩

/-- Witness for the amended C3 at a concrete failing put (empty key). -/
theorem C3_amended_witness :
    (hash_put 0 0 (hash_engine_init 16 ([] : Alloc)).2.1 [] [5] []).2.1.item_count =
      (hash_engine_init 16 ([] : Alloc)).2.1.item_count ∧
    (hash_put 0 0 (hash_engine_init 16 ([] : Alloc)).2.1
        [] [5] []).2.1.total_memory =
      (hash_engine_init 16 ([] : Alloc)).2.1.total_memory ∧
    EngineInv 0 0
      (hash_put 0 0 (hash_engine_init 16 ([] : Alloc)).2.1 [] [5] []).2.1 ∧
    (∀ k v, k ≠ [] → engine_has (hash_engine_init 16 ([] : Alloc)).2.1 k v →
      engine_has (hash_put 0 0 (hash_engine_init 16 ([] : Alloc)).2.1
        [] [5] []).2.1 k v) :=
  C3_amended_no_partial_mutation [] [5] []
    (show EngineInv 0 0 (hash_engine_init 16 ([] : Alloc)).2.1 from
      (hash_engine_init_facts (by rfl)).1)
    (show MigratedInv (hash_engine_init 16 ([] : Alloc)).2.1 from
      (@hash_engine_init_facts 0 0 16 [] (by rfl)).2.1)
    (migrate_ok_of_none rfl MIGRATE_BATCH_SIZE [])
    (by decide)

/-- C4 counterexample: the claim says probe-chain exhaustion triggers a grow
and a retry, with `-ENOSPC` only at `MAX_BUCKET_COUNT`. The code attempts
the grow before the insert based on load factor only and never retries; an
engine initialized with 1 bucket (the initializer performs no rounding)
saturates at one entry, the attempted grow to 2 is rejected (`2 <
MIN_BUCKET_COUNT`), and the next put returns `-ENOSPC` with `bucket_count =
1`, far from `MAX_BUCKET_COUNT`. -/
theorem C4_counterexample_enospc_below_max :
    (hash_engine_init 1 ([] : Alloc)).1 = 0 ∧
    (hash_put 0 0 (hash_engine_init 1 ([] : Alloc)).2.1 [1] [5] []).1 = 0 ∧
    (hash_put 0 0 (hash_put 0 0 (hash_engine_init 1 ([] : Alloc)).2.1
        [1] [5] []).2.1 [2] [6] []).1 = -ENOSPC ∧
    (hash_put 0 0 (hash_put 0 0 (hash_engine_init 1 ([] : Alloc)).2.1
        [1] [5] []).2.1 [2] [6] []).2.1.bucket_count = 1 ∧
    (hash_put 0 0 (hash_put 0 0 (hash_engine_init 1 ([] : Alloc)).2.1
        [1] [5] []).2.1 [2] [6] []).2.1.bucket_count ≠ MAX_BUCKET_COUNT :=
  ⟨rfl, rfl, rfl, rfl, by decide⟩

/-- C4 amended: what is actually true of the code: `hash_put` returns
`-ENOSPC` only when, after the migration batch and the load-factor grow
attempt, the table it inserts into is saturated — every slot OCCUPIED by a
key other than the one being inserted. -/
theorem C4_amended_enospc_means_saturated {hash_key_0 hash_key_1 : Nat}
    {e : hash_engine} (K V : List Nat) (a : Alloc)
    (hInv : EngineInv hash_key_0 hash_key_1 e) (hMig : MigratedInv e)
    (hsp : (hash_put hash_key_0 hash_key_1 e K V a).1 = -ENOSPC) :
    ∀ j, j < (hash_put hash_key_0 hash_key_1 e K V a).2.1.hash_buckets.length →
      ((hash_put hash_key_0 hash_key_1 e K V a).2.1.hash_buckets.getD j
          bucket_init).state = BucketState.OCCUPIED ∧
      ((hash_put hash_key_0 hash_key_1 e K V a).2.1.hash_buckets.getD j
          bucket_init).key ≠ K :=
  (hash_put_effects K V a hInv hMig).2.2.2.2.2.1 hsp

/-- Witness for the amended C4 on the concrete saturated 1-bucket engine. -/
theorem C4_amended_witness :
    ((hash_put 0 0 (hash_put 0 0 (hash_engine_init 1 ([] : Alloc)).2.1
        [1] [5] []).2.1 [2] [6] []).2.1.hash_buckets.getD 0
        bucket_init).state = BucketState.OCCUPIED ∧
    ((hash_put 0 0 (hash_put 0 0 (hash_engine_init 1 ([] : Alloc)).2.1
        [1] [5] []).2.1 [2] [6] []).2.1.hash_buckets.getD 0
        bucket_init).key ≠ [2] :=
  C4_amended_enospc_means_saturated [2] [6] []
    (show EngineInv 0 0
        (hash_put 0 0 (hash_engine_init 1 ([] : Alloc)).2.1 [1] [5] []).2.1 from
      (hash_put_effects [1] [5] []
        (show EngineInv 0 0 (hash_engine_init 1 ([] : Alloc)).2.1 from
          (hash_engine_init_facts (by rfl)).1)
        (show MigratedInv (hash_engine_init 1 ([] : Alloc)).2.1 from
          (@hash_engine_init_facts 0 0 1 [] (by rfl)).2.1)).1)
    (show MigratedInv
        (hash_put 0 0 (hash_engine_init 1 ([] : Alloc)).2.1 [1] [5] []).2.1 from
      (hash_put_effects [1] [5] []
        (show EngineInv 0 0 (hash_engine_init 1 ([] : Alloc)).2.1 from
          (hash_engine_init_facts (by rfl)).1)
        (show MigratedInv (hash_engine_init 1 ([] : Alloc)).2.1 from
          (@hash_engine_init_facts 0 0 1 [] (by rfl)).2.1)).2.1)
    (by rfl) 0 (by decide)

/-- C5 counterexample: `hash_engine_init` installs the requested bucket
count verbatim — it performs no rounding and accepts counts outside
`[MIN_BUCKET_COUNT, MAX_BUCKET_COUNT]`: initializing with 100 succeeds and
leaves `bucket_count = 100`, which is not a power of two. -/
theorem C5_counterexample_init_no_rounding :
    (hash_engine_init 100 ([] : Alloc)).1 = 0 ∧
    (hash_engine_init 100 ([] : Alloc)).2.1.bucket_count = 100 ∧
    (∀ k : Nat, 2 ^ k ≠ (hash_engine_init 100 ([] : Alloc)).2.1.bucket_count) := by
  refine ⟨rfl, rfl, ?_⟩
  intro k
  show 2 ^ k ≠ 100
  intro h
  rcases Nat.lt_or_ge k 7 with hk | hk
  · interval_cases k <;> norm_num at h
  · have h2 : 2 ^ 7 ≤ 2 ^ k := Nat.pow_le_pow_right (by norm_num) hk
    rw [h] at h2
    norm_num at h2

/-- C5 amended: the resize logic does preserve the power-of-two-in-range
property: if the current bucket count is a power of two within
`[MIN_BUCKET_COUNT, MAX_BUCKET_COUNT]`, it still is after any `hash_put`,
`hash_delete`, or `hash_get` (the only transitions are doubling, checked
against the range, and halving, checked against the minimum). The property
is an invariant of operation, but the initializer does not establish it. -/
theorem C5_amended_ops_preserve_pow2 {hash_key_0 hash_key_1 : Nat}
    {e : hash_engine} (K V : List Nat) (a : Alloc)
    (hInv : EngineInv hash_key_0 hash_key_1 e) (hMig : MigratedInv e)
    (hpow : ∃ m, e.bucket_count = 2 ^ m)
    (hlo : MIN_BUCKET_COUNT ≤ e.bucket_count)
    (hhi : e.bucket_count ≤ MAX_BUCKET_COUNT) :
    ((∃ m, (hash_put hash_key_0 hash_key_1 e K V a).2.1.bucket_count = 2 ^ m) ∧
     MIN_BUCKET_COUNT ≤ (hash_put hash_key_0 hash_key_1 e K V a).2.1.bucket_count ∧
     (hash_put hash_key_0 hash_key_1 e K V a).2.1.bucket_count ≤
       MAX_BUCKET_COUNT) ∧
    ((∃ m, (hash_delete hash_key_0 hash_key_1 e K a).2.1.bucket_count = 2 ^ m) ∧
     MIN_BUCKET_COUNT ≤ (hash_delete hash_key_0 hash_key_1 e K a).2.1.bucket_count ∧
     (hash_delete hash_key_0 hash_key_1 e K a).2.1.bucket_count ≤
       MAX_BUCKET_COUNT) ∧
    ((∃ m, (hash_get hash_key_0 hash_key_1 e K a).2.2.1.bucket_count = 2 ^ m) ∧
     MIN_BUCKET_COUNT ≤
       (hash_get hash_key_0 hash_key_1 e K a).2.2.1.bucket_count ∧
     (hash_get hash_key_0 hash_key_1 e K a).2.2.1.bucket_count ≤
       MAX_BUCKET_COUNT) := by
  obtain ⟨m, hm⟩ := hpow
  refine ⟨?_, ?_, ?_⟩
  · rcases (hash_put_effects K V a hInv hMig).2.2.2.2.1 with h | ⟨h1, h2, h3⟩
    · rw [h]
      exact ⟨⟨m, hm⟩, hlo, hhi⟩
    · refine ⟨⟨m + 1, ?_⟩, h2, h3⟩
      rw [h1]
      have hlt : e.bucket_count * 2 < U32 := by
        rw [MAX_BUCKET_COUNT] at hhi
        rw [U32]
        omega
      rw [Nat.mod_eq_of_lt hlt, hm, pow_succ]
  · rcases (hash_delete_effects K a hInv hMig).2.2.2.1 with h | ⟨h1, h2, h3⟩
    · rw [h]
      exact ⟨⟨m, hm⟩, hlo, hhi⟩
    · refine ⟨⟨m - 1, ?_⟩, h2, h3⟩
      have hm1 : 1 ≤ m := by
        rcases Nat.eq_zero_or_pos m with h0 | hpos
        · subst h0
          rw [hm] at hlo
          rw [MIN_BUCKET_COUNT] at hlo
          norm_num at hlo
        · exact hpos
      have hpw : (2 : Nat) ^ m = 2 ^ (m - 1) * 2 := by
        rw [← pow_succ]
        congr 1
        omega
      rw [h1, hm, hpw]
      omega
  · by_cases hK : K.length = 0
    · have hred : hash_get hash_key_0 hash_key_1 e K a = (-EINVAL, none, e, a) := by
        rw [hash_get, if_pos hK]
      rw [hred]
      exact ⟨⟨m, hm⟩, hlo, hhi⟩
    · obtain ⟨-, -, -, -, hbc, -⟩ := hash_get_effects a hInv hMig hK
      rw [hbc]
      exact ⟨⟨m, hm⟩, hlo, hhi⟩

/-- Witness for the amended C5 at a concrete 16-bucket engine. -/
theorem C5_amended_witness :
    ((∃ m, (hash_put 0 0 (hash_engine_init 16 ([] : Alloc)).2.1
        [1] [2] []).2.1.bucket_count = 2 ^ m) ∧
     MIN_BUCKET_COUNT ≤ (hash_put 0 0 (hash_engine_init 16 ([] : Alloc)).2.1
        [1] [2] []).2.1.bucket_count ∧
     (hash_put 0 0 (hash_engine_init 16 ([] : Alloc)).2.1
        [1] [2] []).2.1.bucket_count ≤ MAX_BUCKET_COUNT) ∧
    ((∃ m, (hash_delete 0 0 (hash_engine_init 16 ([] : Alloc)).2.1
        [1] []).2.1.bucket_count = 2 ^ m) ∧
     MIN_BUCKET_COUNT ≤ (hash_delete 0 0 (hash_engine_init 16 ([] : Alloc)).2.1
        [1] []).2.1.bucket_count ∧
     (hash_delete 0 0 (hash_engine_init 16 ([] : Alloc)).2.1
        [1] []).2.1.bucket_count ≤ MAX_BUCKET_COUNT) ∧
    ((∃ m, (hash_get 0 0 (hash_engine_init 16 ([] : Alloc)).2.1
        [1] []).2.2.1.bucket_count = 2 ^ m) ∧
     MIN_BUCKET_COUNT ≤ (hash_get 0 0 (hash_engine_init 16 ([] : Alloc)).2.1
        [1] []).2.2.1.bucket_count ∧
     (hash_get 0 0 (hash_engine_init 16 ([] : Alloc)).2.1
        [1] []).2.2.1.bucket_count ≤ MAX_BUCKET_COUNT) :=
  C5_amended_ops_preserve_pow2 [1] [2] []
    (show EngineInv 0 0 (hash_engine_init 16 ([] : Alloc)).2.1 from
      (hash_engine_init_facts (by rfl)).1)
    (show MigratedInv (hash_engine_init 16 ([] : Alloc)).2.1 from
      (@hash_engine_init_facts 0 0 16 [] (by rfl)).2.1)
    ⟨4, rfl⟩ (by decide) (by decide)

/-- C6: the specification asserts that for any never-failing sequence of
put/delete operations the reported `item_count` equals the number of
distinct live keys. Because a migration move whose insertion fails silently
destroys an entry (the rc is discarded in `migrate_bucket`) while the
counters are only maintained by put/delete, the counter drifts: after the
following twenty operations, all of which return 0, the engine reports
`item_count = 16` while only 15 distinct keys are live. -/
theorem C6_item_count_drifts_from_live_keys :
    (run_trace 0 0 ((hash_engine_init 32 []).2.1, [])
        [hash_op.put [1] [7], hash_op.put [6] [7], hash_op.put [8] [7],
         hash_op.put [0] [7], hash_op.put [9] [7], hash_op.put [2] [7],
         hash_op.put [7] [7], hash_op.del [7], hash_op.put [3] [7],
         hash_op.put [4] [7], hash_op.put [5] [7], hash_op.put [10] [7],
         hash_op.put [11] [7], hash_op.put [12] [7], hash_op.put [13] [7],
         hash_op.put [14] [7], hash_op.put [15] [7], hash_op.put [16] [7],
         hash_op.put [17] [7], hash_op.del [3]]).1 =
      List.replicate 20 0 ∧
    (let E := (run_trace 0 0 ((hash_engine_init 32 []).2.1, [])
        [hash_op.put [1] [7], hash_op.put [6] [7], hash_op.put [8] [7],
         hash_op.put [0] [7], hash_op.put [9] [7], hash_op.put [2] [7],
         hash_op.put [7] [7], hash_op.del [7], hash_op.put [3] [7],
         hash_op.put [4] [7], hash_op.put [5] [7], hash_op.put [10] [7],
         hash_op.put [11] [7], hash_op.put [12] [7], hash_op.put [13] [7],
         hash_op.put [14] [7], hash_op.put [15] [7], hash_op.put [16] [7],
         hash_op.put [17] [7], hash_op.del [3]]).2.1
     (hash_engine_get_stats E).1 = 16 ∧
     (engine_entries E).length = 15 ∧
     ((engine_entries E).map Prod.fst).Nodup) :=
  ⟨rfl, ⟨rfl, rfl, by decide⟩⟩

/-- C7: on an engine satisfying the structural invariants, after
`hash_put(K, V)`, `hash_delete(K)`, and a successful `hash_put(K, V1)`,
`hash_get(K)` returns `V1`: the insertion reuses the first tombstone seen on
the probe chain, and the lookup walks the same chain to the inserted slot. -/
theorem C7_tombstone_reinsert_roundtrip {hash_key_0 hash_key_1 : Nat}
    {e e1 e2 e3 : hash_engine} {K V V1 : List Nat}
    {a0 a1 b0 b1 c0 c1 : Alloc} {rcd : Int} (a2 : Alloc)
    (hInv : EngineInv hash_key_0 hash_key_1 e) (hMig : MigratedInv e)
    (hK : K.length ≠ 0)
    (hput1 : hash_put hash_key_0 hash_key_1 e K V a0 = (0, e1, a1))
    (hdel : hash_delete hash_key_0 hash_key_1 e1 K b0 = (rcd, e2, b1))
    (hput2 : hash_put hash_key_0 hash_key_1 e2 K V1 c0 = (0, e3, c1)) :
    (hash_get hash_key_0 hash_key_1 e3 K a2).1 = 0 ∧
    (hash_get hash_key_0 hash_key_1 e3 K a2).2.1 = some V1 := by
  have h1 := hash_put_effects K V a0 hInv hMig
  rw [hput1] at h1
  obtain ⟨hInv1, hMig1, -⟩ := h1
  have hInv1' : EngineInv hash_key_0 hash_key_1 e1 := hInv1
  have hMig1' : MigratedInv e1 := hMig1
  have h2 := hash_delete_effects K b0 hInv1' hMig1'
  rw [hdel] at h2
  obtain ⟨hInv2, hMig2, -⟩ := h2
  have hInv2' : EngineInv hash_key_0 hash_key_1 e2 := hInv2
  have hMig2' : MigratedInv e2 := hMig2
  have h3 := hash_put_effects K V1 c0 hInv2' hMig2'
  rw [hput2] at h3
  obtain ⟨hInv3, hMig3, hocc, -⟩ := h3
  have hInv3' : EngineInv hash_key_0 hash_key_1 e3 := hInv3
  have hMig3' : MigratedInv e3 := hMig3
  obtain ⟨-, -, -, -, -, hfind⟩ := hash_get_effects a2 hInv3' hMig3' hK
  exact hfind V1 (hocc rfl)

/-- Witness: put, delete, re-put, get at concrete inputs. -/
theorem C7_tombstone_reinsert_roundtrip_witness :
    (hash_get 0 0 (hash_put 0 0 (hash_delete 0 0
        (hash_put 0 0 (hash_engine_init 16 ([] : Alloc)).2.1 [1] [2] []).2.1
        [1] []).2.1 [1] [3] []).2.1 [1] []).1 = 0 ∧
    (hash_get 0 0 (hash_put 0 0 (hash_delete 0 0
        (hash_put 0 0 (hash_engine_init 16 ([] : Alloc)).2.1 [1] [2] []).2.1
        [1] []).2.1 [1] [3] []).2.1 [1] []).2.1 = some [3] :=
  C7_tombstone_reinsert_roundtrip []
    (show EngineInv 0 0 (hash_engine_init 16 ([] : Alloc)).2.1 from
      (hash_engine_init_facts (by rfl)).1)
    (show MigratedInv (hash_engine_init 16 ([] : Alloc)).2.1 from
      (@hash_engine_init_facts 0 0 16 [] (by rfl)).2.1)
    (by decide)
    (show hash_put 0 0 (hash_engine_init 16 ([] : Alloc)).2.1 [1] [2] [] =
        (0, (hash_put 0 0 (hash_engine_init 16 ([] : Alloc)).2.1 [1] [2] []).2.1,
          (hash_put 0 0 (hash_engine_init 16 ([] : Alloc)).2.1 [1] [2] []).2.2)
      from rfl)
    (show hash_delete 0 0
        (hash_put 0 0 (hash_engine_init 16 ([] : Alloc)).2.1 [1] [2] []).2.1
        [1] [] =
        ((hash_delete 0 0 (hash_put 0 0 (hash_engine_init 16 ([] : Alloc)).2.1
            [1] [2] []).2.1 [1] []).1,
         (hash_delete 0 0 (hash_put 0 0 (hash_engine_init 16 ([] : Alloc)).2.1
            [1] [2] []).2.1 [1] []).2.1,
         (hash_delete 0 0 (hash_put 0 0 (hash_engine_init 16 ([] : Alloc)).2.1
            [1] [2] []).2.1 [1] []).2.2)
      from rfl)
    (show hash_put 0 0 (hash_delete 0 0
        (hash_put 0 0 (hash_engine_init 16 ([] : Alloc)).2.1 [1] [2] []).2.1
        [1] []).2.1 [1] [3] [] =
        (0, (hash_put 0 0 (hash_delete 0 0
            (hash_put 0 0 (hash_engine_init 16 ([] : Alloc)).2.1 [1] [2] []).2.1
            [1] []).2.1 [1] [3] []).2.1,
         (hash_put 0 0 (hash_delete 0 0
            (hash_put 0 0 (hash_engine_init 16 ([] : Alloc)).2.1 [1] [2] []).2.1
            [1] []).2.1 [1] [3] []).2.2)
      from rfl)

/-- C8: the embedded `siphash` computes SipHash-2-4 per the reference
specification for every key pair and every input — it coincides with the
specification-worded restatement `siphash_ref` (two compression rounds per
eight-byte little-endian word, the message length in the high byte of the
final word, four finalization rounds) — and it reproduces the published
SipHash-2-4 reference test vectors (key bytes `00..0f`, message bytes
`0, 1, …, len-1`). -/
theorem C8_siphash_reference :
    (∀ (k0 k1 : Nat) (data : List Nat),
      siphash data k0 k1 = siphash_ref data k0 k1) ∧
    siphash [] 0x0706050403020100 0x0f0e0d0c0b0a0908 = 0x726fdb47dd0e0e31 ∧
    siphash [0] 0x0706050403020100 0x0f0e0d0c0b0a0908 = 0x74f839c593dc67fd ∧
    siphash [0, 1, 2, 3, 4, 5, 6, 7] 0x0706050403020100 0x0f0e0d0c0b0a0908 =
      0x93f5f5799a932462 ∧
    siphash (List.range 15) 0x0706050403020100 0x0f0e0d0c0b0a0908 =
      0xa129ca6149be45e5 :=
  ⟨fun k0 k1 data => siphash_eq_ref data k0 k1, rfl, rfl, rfl, rfl⟩

/-- C9 counterexample: `total_memory` is not exact. In the twenty-operation
run of the C6 scenario every operation returns 0, yet the engine reports
`total_memory = 32` while the sum of `key_len + value_len` over the live
entries is 30: the entry destroyed by the failed migration move was never
subtracted. -/
theorem C9_counterexample_total_memory_inexact :
    (run_trace 0 0 ((hash_engine_init 32 []).2.1, [])
        [hash_op.put [1] [7], hash_op.put [6] [7], hash_op.put [8] [7],
         hash_op.put [0] [7], hash_op.put [9] [7], hash_op.put [2] [7],
         hash_op.put [7] [7], hash_op.del [7], hash_op.put [3] [7],
         hash_op.put [4] [7], hash_op.put [5] [7], hash_op.put [10] [7],
         hash_op.put [11] [7], hash_op.put [12] [7], hash_op.put [13] [7],
         hash_op.put [14] [7], hash_op.put [15] [7], hash_op.put [16] [7],
         hash_op.put [17] [7], hash_op.del [3]]).1 =
      List.replicate 20 0 ∧
    (let E := (run_trace 0 0 ((hash_engine_init 32 []).2.1, [])
        [hash_op.put [1] [7], hash_op.put [6] [7], hash_op.put [8] [7],
         hash_op.put [0] [7], hash_op.put [9] [7], hash_op.put [2] [7],
         hash_op.put [7] [7], hash_op.del [7], hash_op.put [3] [7],
         hash_op.put [4] [7], hash_op.put [5] [7], hash_op.put [10] [7],
         hash_op.put [11] [7], hash_op.put [12] [7], hash_op.put [13] [7],
         hash_op.put [14] [7], hash_op.put [15] [7], hash_op.put [16] [7],
         hash_op.put [17] [7], hash_op.del [3]]).2.1
     (hash_engine_get_stats E).2.2 = 32 ∧
     payload_sum E = 30 ∧
     (hash_engine_get_stats E).2.2 ≠ payload_sum E) :=
  ⟨rfl, ⟨rfl, rfl, by decide⟩⟩

/-- C9 amended: the per-operation accounting is exact modulo `2^32` and
modulo migration losslessness: on an engine whose `uint32_t` counters equal
the live-entry count and payload sum mod `2^32` (`CounterInv`), if the
migration work done by the call is lossless (`migrate_ok` — not guaranteed
by the code), then a successful `hash_put` (new key adds both lengths, an
in-place update adjusts by the value-length difference, a move changes
nothing), any `hash_delete`, and a fresh `hash_engine_init` all leave the
counters equal to the exact values mod `2^32`. -/
theorem C9_amended_counters_exact_mod_u32 {hash_key_0 hash_key_1 : Nat}
    {e : hash_engine} (K V : List Nat) (a : Alloc)
    (hInv : EngineInv hash_key_0 hash_key_1 e) (hMig : MigratedInv e)
    (hCnt : CounterInv e)
    (hmok : migrate_ok hash_key_0 hash_key_1 e MIGRATE_BATCH_SIZE a) :
    ((hash_put hash_key_0 hash_key_1 e K V a).1 = 0 →
      CounterInv (hash_put hash_key_0 hash_key_1 e K V a).2.1) ∧
    CounterInv (hash_delete hash_key_0 hash_key_1 e K a).2.1 ∧
    (∀ (n : Nat) (a1 : Alloc), (hash_engine_init n a1).1 = 0 →
      CounterInv (hash_engine_init n a1).2.1) := by
  refine ⟨?_, ?_, ?_⟩
  · intro h0
    exact ((hash_put_effects K V a hInv hMig).2.2.2.2.2.2 hmok).2 hCnt h0
  · exact (hash_delete_effects K a hInv hMig).2.2.2.2 hmok hCnt
  · intro n a1 h0
    exact (@hash_engine_init_facts hash_key_0 hash_key_1 n a1 h0).2.2.1

/-- Witness for the amended C9 at a concrete state. -/
theorem C9_amended_witness :
    ((hash_put 0 0 (hash_engine_init 16 ([] : Alloc)).2.1 [1] [2] []).1 = 0 →
      CounterInv (hash_put 0 0 (hash_engine_init 16 ([] : Alloc)).2.1
        [1] [2] []).2.1) ∧
    CounterInv (hash_delete 0 0 (hash_engine_init 16 ([] : Alloc)).2.1
      [1] []).2.1 ∧
    (∀ (n : Nat) (a1 : Alloc), (hash_engine_init n a1).1 = 0 →
      CounterInv (hash_engine_init n a1).2.1) :=
  C9_amended_counters_exact_mod_u32 [1] [2] []
    (show EngineInv 0 0 (hash_engine_init 16 ([] : Alloc)).2.1 from
      (hash_engine_init_facts (by rfl)).1)
    (show MigratedInv (hash_engine_init 16 ([] : Alloc)).2.1 from
      (@hash_engine_init_facts 0 0 16 [] (by rfl)).2.1)
    (show CounterInv (hash_engine_init 16 ([] : Alloc)).2.1 from
      (@hash_engine_init_facts 0 0 16 [] (by rfl)).2.2.1)
    (migrate_ok_of_none rfl MIGRATE_BATCH_SIZE [])

/-- C10: a zero-length key (the representable form of the NULL/zero-length
guard; a NULL engine or key pointer is not representable in the embedding)
makes `hash_put`, `hash_get`, and `hash_delete` return `-EINVAL` before any
work: the engine is returned completely unchanged and no migration step
runs. A zero-length value does the same for `hash_put`. -/
theorem C10_null_guards (hash_key_0 hash_key_1 : Nat) (e : hash_engine)
    (key value : List Nat) (a : Alloc) :
    (key.length = 0 →
      hash_get hash_key_0 hash_key_1 e key a = (-EINVAL, none, e, a) ∧
      hash_put hash_key_0 hash_key_1 e key value a = (-EINVAL, e, a) ∧
      hash_delete hash_key_0 hash_key_1 e key a = (-EINVAL, e, a)) ∧
    (value.length = 0 →
      hash_put hash_key_0 hash_key_1 e key value a = (-EINVAL, e, a)) := by
  constructor
  · intro h
    refine ⟨?_, ?_, ?_⟩
    · rw [hash_get, if_pos h]
    · rw [hash_put, if_pos (Or.inl h)]
    · rw [hash_delete, if_pos h]
  · intro h
    rw [hash_put, if_pos (Or.inr h)]

/-- Witness: the guards at a concrete engine and empty key and value. -/
theorem C10_null_guards_witness :
    hash_get 0 0 zero_engine [] [] = (-EINVAL, none, zero_engine, []) ∧
    hash_put 0 0 zero_engine [] [] [] = (-EINVAL, zero_engine, []) ∧
    hash_delete 0 0 zero_engine [] [] = (-EINVAL, zero_engine, []) :=
  ⟨((C10_null_guards 0 0 zero_engine [] [] []).1 rfl).1,
   ((C10_null_guards 0 0 zero_engine [] [] []).1 rfl).2.1,
   ((C10_null_guards 0 0 zero_engine [] [] []).1 rfl).2.2⟩

end StorageHash
